import Mathlib

/-!
Verification of `packages/python/plotly/plotly/io/_json.py`.

The Python values that flow through the module are shallowly embedded as the
inductive type `Obj`.  Python floats never undergo arithmetic in this module:
they are only classified (finite / NaN / +inf / -inf) and printed, so a float
is embedded as a tag together with a decimal representation `m * 10^(-e)`
(`PFloat`), which is exactly the information `repr(float)` exposes.
Optional adapter libraries (sage, numpy, pandas, PIL) are embedded as
presence flags; adapter-specific values (`ndarray`, `Series`, `Timestamp`,
masked constant, ...) are constructors of `Obj` carrying the data the source
extracts from them.
-/

namespace PlotlyJson

/-- A Python `float`: NaN, +inf, -inf, or a finite value `m * 10^(-e)`.
`repr` of a finite float is modelled as its decimal digits (`e` digits after
the decimal point; `e = 0` prints as `m.0`, the way `repr(2.0) = "2.0"`). -/
inductive PFloat where
  | nan
  | inf
  | neginf
  | finite (m : Int) (e : Nat)

/-- Numpy dtype kinds accepted by the numeric fast path: `b`, `i`, `u`, `f`
(source line 578: `obj.dtype.kind in ("b", "i", "u", "f")`). -/
inductive NumKind where
  | b | i | u | f

/-- Embedded Python values, classified the way `clean_to_json_compatible`
classifies them by runtime inspection:

* `none`/`bool`/`int`/`float`/`str`: scalar primitives (`bool` is an `int`
  instance in Python, so it takes the scalar fast path of line 539);
* `list`: `list`/`tuple` (both take the same path everywhere in the source);
* `dict`: mapping with string keys, entries in insertion order;
* `plotly p`: an object whose `to_plotly_json()` returns `p` (line 544);
* `sageReal`/`sageInt`: sage scalars, carrying the `float`/`int` the source
  converts them to (lines 567-571);
* `npMasked`: the `np.ma.core.masked` constant (line 575);
* `ndarrayNum k xs`: a numpy array of dtype kind `k ∈ biuf` whose `tolist()`
  is `xs` (1-d arrays suffice for every claim);
* `ndarrayM isos`: a `datetime64` array; `np.datetime_as_string(obj).tolist()`
  yields `isos`, while `obj.tolist()` yields Python datetimes (lines 580-582);
* `ndarrayU ss`: a unicode array, `tolist()` yields `ss` (line 583);
* `ndarrayO xs`: an object-dtype array, `tolist()` yields `xs` (line 585);
* `npDatetime64 s`: a scalar `np.datetime64`, `str(obj) = s` (line 588);
* `pdNaT`: the `pd.NaT` sentinel (line 593);
* `pdSeriesNum k xs`: a numeric `pd.Series`, values as for `ndarrayNum`;
* `pdSeriesM isos` / `pdIndexM isos`: datetime `Series` / `DatetimeIndex`,
  element isoformats `isos` (lines 598-611);
* `pdTimestamp iso`: a scalar `pd.Timestamp`; `to_pydatetime()` drops the
  timezone and yields the naive datetime printing as `iso` (line 617);
* `pydatetime iso` / `pydate iso`: `datetime.datetime` / `datetime.date`
  scalars, `isoformat() = iso`;
* `tolistObj p`: any other object exposing `tolist()`, returning `p`
  (line 631);
* `pydecimal x`: a `decimal.Decimal`, `float(obj) = x` (line 637);
* `pilImage uri`: a `PIL.Image.Image` whose data URI is `uri` (line 641);
* `unknown n`: an object matching none of the probes (identity fallback,
  line 647). -/
inductive Obj where
  | none
  | bool (b : Bool)
  | int (n : Int)
  | float (x : PFloat)
  | str (s : String)
  | list (xs : List Obj)
  | dict (kvs : List (String × Obj))
  | plotly (p : Obj)
  | sageReal (x : PFloat)
  | sageInt (n : Int)
  | npMasked
  | ndarrayNum (k : NumKind) (xs : List Obj)
  | ndarrayM (isos : List String)
  | ndarrayU (ss : List String)
  | ndarrayO (xs : List Obj)
  | npDatetime64 (s : String)
  | pdNaT
  | pdSeriesNum (k : NumKind) (xs : List Obj)
  | pdSeriesM (isos : List String)
  | pdIndexM (isos : List String)
  | pdTimestamp (iso : String)
  | pydatetime (iso : String)
  | pydate (iso : String)
  | tolistObj (p : Obj)
  | pydecimal (x : PFloat)
  | pilImage (uri : String)
  | unknown (n : Nat)

/-- Presence of the four optional adapter modules, as assembled into the
`modules` dict at source lines 186-191. -/
structure Modules where
  sage_all : Bool
  np : Bool
  pd : Bool
  image : Bool

/-- The keyword arguments of `clean_to_json_compatible`.  The source reads
them with `kwargs.get(..., False)` / `kwargs.get("modules", {})`
(lines 557-560); `modules := Option.none` models the empty default dict, in
which the subsequent `modules["sage_all"]` lookup raises `KeyError`. -/
structure CleanKwargs where
  numpy_allowed : Bool := false
  datetime_allowed : Bool := false
  modules : Option Modules := Option.none

/-- Errors `clean_to_json_compatible` can raise: `KeyError` from
`modules["sage_all"]` when the modules dict was left at its `{}` default
(line 561), and `AttributeError` from `np.ascontiguousarray` when `np` is
`None` but a numeric `pd.Series` hits line 597. -/
inductive CleanErr where
  | keyError
  | attributeError

/-- `obj in sage_all.RR` (line 568): sage reals are members, and Python
numbers (`int`, `bool`, `float`) coerce into `RR`, so membership holds for
them too.  Containers, strings and the other adapter objects are not
members. -/
def rrMem : Obj → Bool
  | .sageReal _ => true
  | .int _ => true
  | .bool _ => true
  | .float _ => true
  | _ => false

/-- `float(obj)` for an object with `rrMem obj = true` (line 569). -/
def rrFloat : Obj → PFloat
  | .sageReal x => x
  | .int n => .finite n 0
  | .bool b => .finite (if b then 1 else 0) 0
  | .float x => x
  | _ => .nan

/-- `obj in sage_all.ZZ` (line 570), reached only when `rrMem obj = false`. -/
def zzMem : Obj → Bool
  | .sageInt _ => true
  | _ => false

/-- `int(obj)` for a sage integer (line 571). -/
def zzInt : Obj → Int
  | .sageInt n => n
  | _ => 0

/-- The `obj.to_pydatetime()` attempt of lines 614-619: a scalar
`pd.Timestamp` is replaced by its naive `datetime.datetime`; every other
object raises `TypeError`/`AttributeError`, which the source swallows,
leaving the object unchanged. -/
def toPydatetime : Obj → Obj
  | .pdTimestamp iso => .pydatetime iso
  | q => q

/-- `obj.isoformat()` (line 623): available on `datetime.datetime` and
`datetime.date` scalars; `Option.none` models the swallowed
`TypeError`/`AttributeError` for everything else. -/
def isoformatOf : Obj → Option String
  | .pydatetime iso => some iso
  | .pydate iso => some iso
  | _ => Option.none

/-- `obj.tolist()` (line 631): the array-like flatten-to-nested-list
capability.  `numpy` datetime64 arrays flatten to `datetime.datetime`
scalars, pandas datetime containers to `pd.Timestamp` scalars.
`Option.none` models the `AttributeError` the source catches. -/
def tolistOf : Obj → Option Obj
  | .ndarrayNum _ xs => some (.list xs)
  | .ndarrayM isos => some (.list (isos.map .pydatetime))
  | .ndarrayU ss => some (.list (ss.map .str))
  | .ndarrayO xs => some (.list xs)
  | .pdSeriesNum _ xs => some (.list xs)
  | .pdSeriesM isos => some (.list (isos.map .pdTimestamp))
  | .pdIndexM isos => some (.list (isos.map .pdTimestamp))
  | .tolistObj p => some p
  | _ => Option.none

/-- Lines 629-647: the generic `tolist` escape hatch (returned verbatim,
not re-canonicalized), decimal-to-float, PIL-image-to-URI, and the identity
fallback of line 647. -/
def cleanLast (obj : Obj) (m : Modules) : Except CleanErr Obj :=
  match tolistOf obj with
  | some r => .ok r
  | Option.none =>
    match obj with
    | .pydecimal x => .ok (.float x)
    | .pilImage uri => if m.image then .ok (.str uri) else .ok (.pilImage uri)
    | q => .ok q

/-- Lines 613-627: scalar datetime handling.  `obj.to_pydatetime()` is
attempted first; with `datetime_allowed = false` an `isoformat()`-capable
value returns its ISO string, with `datetime_allowed = true` a
`datetime.datetime` is returned as-is; everything else falls through to
`cleanLast`.  (The non-empty-list recursion of line 643 is reachable only
through the object-dtype-array fall-through of line 587, which
`clean_to_json_compatible` handles directly.) -/
def cleanDatetime (obj : Obj) (kw : CleanKwargs) (m : Modules) : Except CleanErr Obj :=
  let obj := toPydatetime obj
  match (if kw.datetime_allowed then Option.none else isoformatOf obj) with
  | some iso => .ok (.str iso)
  | Option.none =>
    match obj with
    | .pydatetime iso =>
      if kw.datetime_allowed then .ok (.pydatetime iso) else cleanLast (.pydatetime iso) m
    | q => cleanLast q m

/-- Lines 592-611: the pandas probe.  A numeric `Series` with
`numpy_allowed = false` matches no branch and falls through (its `tolist`
is then taken by `cleanLast`); datetime `Series`/`DatetimeIndex` values
return their elements as ISO strings or naive datetimes according to
`datetime_allowed`. -/
def cleanTail (obj : Obj) (kw : CleanKwargs) (m : Modules) : Except CleanErr Obj :=
  match m.pd, obj with
  | true, .pdNaT => .ok .none
  | true, .pdSeriesNum k xs =>
    if kw.numpy_allowed then
      -- line 597: `np.ascontiguousarray(obj.values)`; `np` is `None` here
      -- whenever the numpy module is absent, so the attribute access raises.
      if m.np then .ok (.ndarrayNum k xs) else .error .attributeError
    else cleanDatetime (.pdSeriesNum k xs) kw m
  | true, .pdSeriesM isos =>
    .ok (.list (isos.map (if kw.datetime_allowed then Obj.pydatetime else Obj.str)))
  | true, .pdIndexM isos =>
    .ok (.list (isos.map (if kw.datetime_allowed then Obj.pydatetime else Obj.str)))
  | _, q => cleanDatetime q kw m

/-- The non-recursive tail of `clean_to_json_compatible` (lines 556-647)
for an object that was not caught by the scalar fast path, the `list`/`dict`
recursion, or the object-dtype-array fall-through: unpack the adapter
modules (raising `KeyError` if the `modules` kwarg was left at its `{}`
default, line 561), then run the sage / numpy / pandas / datetime / tolist /
decimal / image probes in source order, falling back to identity. -/
def cleanAtom (obj : Obj) (kw : CleanKwargs) : Except CleanErr Obj :=
  match kw.modules with
  | Option.none => .error .keyError
  | some m =>
    -- Sage (lines 567-571)
    if m.sage_all && rrMem obj then .ok (.float (rrFloat obj))
    else if m.sage_all && zzMem obj then .ok (.int (zzInt obj))
    else
    -- numpy (lines 574-589); a numeric array with `numpy_allowed = false`
    -- matches none of the branch conditions and falls through.
    match m.np, obj with
    | true, .npMasked => .ok (.float .nan)
    | true, .ndarrayNum k xs =>
      if kw.numpy_allowed then .ok (.ndarrayNum k xs) else cleanTail (.ndarrayNum k xs) kw m
    | true, .ndarrayM isos => .ok (.list (isos.map .str))
    | true, .ndarrayU ss => .ok (.list (ss.map .str))
    | true, .npDatetime64 s => .ok (.str s)
    | _, q => cleanTail q kw m

mutual

/-- `clean_to_json_compatible` (source lines 534-647).  The rule cascade is
resolved per constructor: the scalar fast path (line 539), the one-shot
`to_plotly_json` unwrap (lines 543-545, whose result re-enters the flow
*below* the scalar fast path), the recursive `list`/`dict` rules
(lines 549-554), the object-dtype-array fall-through (lines 585-587 with
the recursion of line 643), and otherwise the module-probing tail
(`cleanAtom`). -/
def clean_to_json_compatible (obj : Obj) (kw : CleanKwargs) : Except CleanErr Obj :=
  match obj with
  | .bool b => .ok (.bool b)
  | .int n => .ok (.int n)
  | .float x => .ok (.float x)
  | .str s => .ok (.str s)
  | .list xs => (cleanList xs kw).map .list
  | .dict kvs => (cleanDict kvs kw).map .dict
  | .plotly p =>
    match p with
    | .list xs => (cleanList xs kw).map .list
    | .dict kvs => (cleanDict kvs kw).map .dict
    | .ndarrayO xs =>
      match kw.modules with
      | Option.none => .error .keyError
      | some m => if m.np then (cleanList xs kw).map .list else .ok (.list xs)
    | q => cleanAtom q kw
  | .ndarrayO xs =>
    match kw.modules with
    | Option.none => .error .keyError
    | some m => if m.np then (cleanList xs kw).map .list else .ok (.list xs)
  | q => cleanAtom q kw

/-- Line 551 / line 645: `[clean_to_json_compatible(v, **kwargs) for v in obj]`. -/
def cleanList (xs : List Obj) (kw : CleanKwargs) : Except CleanErr (List Obj) :=
  match xs with
  | [] => .ok []
  | x :: rest => do
    let c ← clean_to_json_compatible x kw
    let cs ← cleanList rest kw
    .ok (c :: cs)

/-- Line 554: `{k: clean_to_json_compatible(v, **kwargs) for k, v in obj.items()}`. -/
def cleanDict (kvs : List (String × Obj)) (kw : CleanKwargs) : Except CleanErr (List (String × Obj)) :=
  match kvs with
  | [] => .ok []
  | (k, v) :: rest => do
    let c ← clean_to_json_compatible v kw
    let cs ← cleanDict rest kw
    .ok ((k, c) :: cs)

end

/-! ## The `json.dumps` backend

`json.dumps(obj, sort_keys=True, **opts)` with either `indent=2`
(`pretty=True`) or `separators=(",", ":")` (`pretty=False`), as configured
at source lines 195-201.  Key sorting is modelled by pre-sorting every
mapping (`sortDeep`) with a stable by-key sort — exactly what
`sort_keys=True` does — and then printing structurally. -/

/-- The ASCII left brace (written via its code point: braces inside string
literals are avoided throughout this file). -/
def lbrace : Char := Char.ofNat 123

/-- The ASCII right brace. -/
def rbrace : Char := Char.ofNat 125

/-- The decimal digit character for `n < 10`. -/
def digitChar (n : Nat) : Char := Char.ofNat (48 + n)

/-- Lower-case hex digit for `n < 16` (CPython's `\uXXXX` escapes are
lower-case). -/
def hexDigitChar (n : Nat) : Char :=
  if n < 10 then Char.ofNat (48 + n) else Char.ofNat (87 + n)

/-- Four-digit hex rendering of `n < 0x10000`. -/
def hex4 (n : Nat) : List Char :=
  [hexDigitChar (n / 4096 % 16), hexDigitChar (n / 256 % 16),
   hexDigitChar (n / 16 % 16), hexDigitChar (n % 16)]

/-- Decimal digits of a natural number, most significant first.  The fuel
argument (any value `> log10 n`, supplied as `n + 1` by `natRepr`) makes the
definition structurally recursive so that it reduces in the kernel. -/
def natReprAux : Nat → Nat → List Char → List Char
  | 0, _, acc => acc
  | fuel + 1, n, acc =>
    if n < 10 then digitChar n :: acc
    else natReprAux fuel (n / 10) (digitChar (n % 10) :: acc)

/-- Decimal digits of `n`, e.g. `natRepr 120 = ['1','2','0']`. -/
def natRepr (n : Nat) : List Char := natReprAux (n + 1) n []

/-- Decimal digits of `n` left-padded with zeros to width `w`. -/
def natReprPad (w : Nat) (n : Nat) : List Char :=
  let ds := natRepr n
  List.replicate (w - ds.length) '0' ++ ds

/-- Python `repr(int)`. -/
def intRepr (n : Int) : List Char :=
  if n < 0 then '-' :: natRepr n.natAbs else natRepr n.natAbs

/-- What `json.dumps` writes for a Python float: the non-standard tokens
`NaN` / `Infinity` / `-Infinity` for non-finite values (this is exactly what
the strict-JSON repair pass of lines 212-227 exists to remove), and the
decimal `repr` for finite values. -/
def floatRepr : PFloat → List Char
  | .nan => "NaN".data
  | .inf => "Infinity".data
  | .neginf => "-Infinity".data
  | .finite m e =>
    if e = 0 then intRepr m ++ ['.', '0']
    else
      (if m < 0 then ['-'] else []) ++
        natRepr (m.natAbs / 10 ^ e) ++ '.' :: natReprPad e (m.natAbs % 10 ^ e)

/-- CPython `json` string escaping with the default `ensure_ascii=True`:
`"` and `\` get a backslash escape, the five control characters with short
escapes use them, every other character outside `0x20..0x7e` becomes
`\uXXXX` (a surrogate pair beyond the BMP), and the rest pass through. -/
def escChar (c : Char) : List Char :=
  if c = '"' then ['\\', '"']
  else if c = '\\' then ['\\', '\\']
  else if c = '\n' then ['\\', 'n']
  else if c = '\t' then ['\\', 't']
  else if c = '\r' then ['\\', 'r']
  else if c.toNat = 8 then ['\\', 'b']
  else if c.toNat = 12 then ['\\', 'f']
  else if c.toNat < 0x20 || 0x7e < c.toNat then
    if c.toNat < 0x10000 then '\\' :: 'u' :: hex4 c.toNat
    else
      let v := c.toNat - 0x10000
      ('\\' :: 'u' :: hex4 (0xd800 + v / 0x400)) ++ '\\' :: 'u' :: hex4 (0xdc00 + v % 0x400)
  else [c]

/-- Escape a character sequence. -/
def escStr : List Char → List Char
  | [] => []
  | c :: cs => escChar c ++ escStr cs

/-- A JSON string literal: `"` + escaped content + `"`. -/
def quoteStr (s : String) : List Char := '"' :: (escStr s.data ++ ['"'])

/-- `indent=2` whitespace for nesting level `lvl`. -/
def indentChars (lvl : Nat) : List Char := List.replicate (2 * lvl) ' '

/-- Whitespace after an opening bracket: newline + indent when pretty. -/
def lead (pretty : Bool) (lvl : Nat) : List Char :=
  if pretty then '\n' :: indentChars lvl else []

/-- The separator between container items: `,` compact, `,\n` + indent
pretty. -/
def itemSep (pretty : Bool) (lvl : Nat) : List Char :=
  if pretty then ',' :: '\n' :: indentChars lvl else [',']

/-- The key/value separator: `:` compact (from `separators=(",", ":")`),
`: ` pretty (the `indent=2` default). -/
def kvSep (pretty : Bool) : List Char := if pretty then [':', ' '] else [':']

/-- Whitespace before a closing bracket, then the bracket. -/
def closeWith (pretty : Bool) (lvl : Nat) (c : Char) : List Char :=
  (if pretty then '\n' :: indentChars lvl else []) ++ [c]

/-- `json.dumps` / `orjson.dumps` failure: the backend cannot represent some
node (`TypeError`). -/
inductive DumpErr where
  | typeError

/-- Lexicographic code-point comparison of character sequences — how Python
compares `str` values, hence the order `sort_keys=True` sorts keys in. -/
def charsLe : List Char → List Char → Bool
  | [], _ => true
  | _ :: _, [] => false
  | a :: as, b :: bs =>
    if a.toNat < b.toNat then true
    else if b.toNat < a.toNat then false
    else charsLe as bs

/-- Python's `<=` on strings. -/
def strLe (a b : String) : Bool := charsLe a.data b.data

/-- Stable insertion of a key-value pair into a by-key-sorted list, keeping
the inserted (earlier) pair before pairs with an equal key — the stability
guarantee of Python's `sorted`. -/
def insertKV (p : String × Obj) : List (String × Obj) → List (String × Obj)
  | [] => [p]
  | q :: rest => if strLe p.1 q.1 then p :: q :: rest else q :: insertKV p rest

/-- Stable by-key insertion sort, extensionally the ordering `sort_keys=True`
applies to every mapping. -/
def insSortKVs : List (String × Obj) → List (String × Obj)
  | [] => []
  | p :: rest => insertKV p (insSortKVs rest)

mutual

/-- Recursively sort every mapping of the tree by key (the effect of
`sort_keys=True` / `OPT_SORT_KEYS` on the emitted output). -/
def sortDeep : Obj → Obj
  | .list xs => .list (sortDeepList xs)
  | .dict kvs => .dict (insSortKVs (sortDeepKVs kvs))
  | q => q

/-- `sortDeep` over the elements of a sequence. -/
def sortDeepList : List Obj → List Obj
  | [] => []
  | x :: xs => sortDeep x :: sortDeepList xs

/-- `sortDeep` over the values of a mapping (keys untouched). -/
def sortDeepKVs : List (String × Obj) → List (String × Obj)
  | [] => []
  | (k, v) :: kvs => (k, sortDeep v) :: sortDeepKVs kvs

end

mutual

/-- The `json` backend's serializer on an already key-sorted tree: accepts
exactly `None`/`bool`/`int`/`float`/`str`/`list`/`dict` and raises
`TypeError` on anything else. -/
def printVal (pretty : Bool) (lvl : Nat) : Obj → Except DumpErr (List Char)
  | .none => .ok "null".data
  | .bool b => .ok (if b then "true".data else "false".data)
  | .int n => .ok (intRepr n)
  | .float x => .ok (floatRepr x)
  | .str s => .ok (quoteStr s)
  | .list [] => .ok ['[', ']']
  | .list (x :: xs) => do
    let hd ← printVal pretty (lvl + 1) x
    let tl ← printElems pretty (lvl + 1) xs
    .ok ('[' :: (lead pretty (lvl + 1) ++ hd ++ tl ++ closeWith pretty lvl ']'))
  | .dict [] => .ok [lbrace, rbrace]
  | .dict ((k, v) :: kvs) => do
    let hd ← printVal pretty (lvl + 1) v
    let tl ← printKVs pretty (lvl + 1) kvs
    .ok (lbrace :: (lead pretty (lvl + 1) ++ quoteStr k ++ kvSep pretty ++ hd ++ tl ++
      closeWith pretty lvl rbrace))
  | _ => .error .typeError

/-- Remaining sequence elements, each preceded by the item separator. -/
def printElems (pretty : Bool) (lvl : Nat) : List Obj → Except DumpErr (List Char)
  | [] => .ok []
  | x :: xs => do
    let c ← printVal pretty lvl x
    let r ← printElems pretty lvl xs
    .ok (itemSep pretty lvl ++ c ++ r)

/-- Remaining mapping entries, each preceded by the item separator. -/
def printKVs (pretty : Bool) (lvl : Nat) : List (String × Obj) → Except DumpErr (List Char)
  | [] => .ok []
  | (k, v) :: kvs => do
    let c ← printVal pretty lvl v
    let r ← printKVs pretty lvl kvs
    .ok (itemSep pretty lvl ++ quoteStr k ++ kvSep pretty ++ c ++ r)

end

/-- `json.dumps(obj, sort_keys=True, **opts)` (lines 195-210): sort every
mapping by key, then serialize with the configured whitespace policy. -/
def dumps (pretty : Bool) (obj : Obj) : Except DumpErr String :=
  (printVal pretty 0 (sortDeep obj)).map String.mk

/-! ## The `orjson` backend

`orjson.dumps(obj, option=OPT_SORT_KEYS | OPT_SERIALIZE_NUMPY [| OPT_INDENT_2])`
(lines 232-254).  orjson natively serializes numeric numpy arrays and
temporal scalars, writes `null` for non-finite floats, emits UTF-8 without
`\u`-escaping printable characters, and raises `TypeError`
(`orjson.JSONEncodeError`, a `TypeError` subclass) on unsupported types. -/

/-- orjson float output: non-finite floats serialize as `null`. -/
def orjFloatRepr : PFloat → List Char
  | .nan => "null".data
  | .inf => "null".data
  | .neginf => "null".data
  | .finite m e => floatRepr (.finite m e)

/-- orjson string escaping: only `"`, `\` and control characters are
escaped; everything else is emitted as-is. -/
def orjEscChar (c : Char) : List Char :=
  if c = '"' then ['\\', '"']
  else if c = '\\' then ['\\', '\\']
  else if c = '\n' then ['\\', 'n']
  else if c = '\t' then ['\\', 't']
  else if c = '\r' then ['\\', 'r']
  else if c.toNat = 8 then ['\\', 'b']
  else if c.toNat = 12 then ['\\', 'f']
  else if c.toNat < 0x20 then '\\' :: 'u' :: hex4 c.toNat
  else [c]

/-- Escape a character sequence, orjson style. -/
def orjEscStr : List Char → List Char
  | [] => []
  | c :: cs => orjEscChar c ++ orjEscStr cs

/-- An orjson string literal. -/
def orjQuoteStr (s : String) : List Char := '"' :: (orjEscStr s.data ++ ['"'])

mutual

/-- The orjson serializer on an already key-sorted tree. -/
def orjPrintVal (pretty : Bool) (lvl : Nat) : Obj → Except DumpErr (List Char)
  | .none => .ok "null".data
  | .bool b => .ok (if b then "true".data else "false".data)
  | .int n => .ok (intRepr n)
  | .float x => .ok (orjFloatRepr x)
  | .str s => .ok (orjQuoteStr s)
  | .list xs => orjPrintArr pretty lvl xs
  | .ndarrayNum _ xs => orjPrintArr pretty lvl xs
  | .dict [] => .ok [lbrace, rbrace]
  | .dict ((k, v) :: kvs) => do
    let hd ← orjPrintVal pretty (lvl + 1) v
    let tl ← orjPrintKVs pretty (lvl + 1) kvs
    .ok (lbrace :: (lead pretty (lvl + 1) ++ orjQuoteStr k ++ kvSep pretty ++ hd ++ tl ++
      closeWith pretty lvl rbrace))
  | .pydatetime iso => .ok (orjQuoteStr iso)
  | .pydate iso => .ok (orjQuoteStr iso)
  | .pdTimestamp iso => .ok (orjQuoteStr iso)
  | _ => .error .typeError

/-- An orjson array (shared by `list` values and numeric ndarrays under
`OPT_SERIALIZE_NUMPY`). -/
def orjPrintArr (pretty : Bool) (lvl : Nat) : List Obj → Except DumpErr (List Char)
  | [] => .ok ['[', ']']
  | x :: xs => do
    let hd ← orjPrintVal pretty (lvl + 1) x
    let tl ← orjPrintElems pretty (lvl + 1) xs
    .ok ('[' :: (lead pretty (lvl + 1) ++ hd ++ tl ++ closeWith pretty lvl ']'))

/-- Remaining orjson array elements. -/
def orjPrintElems (pretty : Bool) (lvl : Nat) : List Obj → Except DumpErr (List Char)
  | [] => .ok []
  | x :: xs => do
    let c ← orjPrintVal pretty lvl x
    let r ← orjPrintElems pretty lvl xs
    .ok (itemSep pretty lvl ++ c ++ r)

/-- Remaining orjson mapping entries. -/
def orjPrintKVs (pretty : Bool) (lvl : Nat) : List (String × Obj) → Except DumpErr (List Char)
  | [] => .ok []
  | (k, v) :: kvs => do
    let c ← orjPrintVal pretty lvl v
    let r ← orjPrintKVs pretty lvl kvs
    .ok (itemSep pretty lvl ++ orjQuoteStr k ++ kvSep pretty ++ c ++ r)

end

/-- `orjson.dumps(obj, option=opts).decode("utf8")` with
`OPT_SORT_KEYS | OPT_SERIALIZE_NUMPY` and `OPT_INDENT_2` when pretty
(lines 234-237). -/
def orjson_dumps (pretty : Bool) (obj : Obj) : Except DumpErr String :=
  (orjPrintVal pretty 0 (sortDeep obj)).map String.mk

/-! ## Substring search (Python's `in` on strings, line 212) -/

/-- Whether `pat` starts the sequence `cs`. -/
def startsWithSeq : List Char → List Char → Bool
  | [], _ => true
  | _ :: _, [] => false
  | a :: as, b :: bs => if a = b then startsWithSeq as bs else false

/-- Whether `pat` occurs contiguously anywhere in the sequence. -/
def containsSeq (pat : List Char) : List Char → Bool
  | [] => startsWithSeq pat []
  | c :: cs => if startsWithSeq pat (c :: cs) then true else containsSeq pat cs

/-- Python's `pat in s` substring test. -/
def strContains (s pat : String) : Bool := containsSeq pat.data s.data

/-! ## The `json.loads` parser

A recursive-descent model of CPython's `json.loads`.  The scanner accepts
the three non-standard constants `NaN` / `Infinity` / `-Infinity`; what they
parse to is controlled by the `parse_constant` argument, embedded here as
`ConstMode`.  Value nesting is bounded by a fuel argument — the wrapper
`json_loads` supplies one larger than any value the input could encode, so
the fuel is provably irrelevant — keeping every definition structurally
recursive and kernel-computable. -/

/-- `coerce_to_strict` (source lines 48-57): the `parse_constant` hook used
by the strict-JSON repair pass, turning each non-finite constant into
`None`. -/
def coerce_to_strict (const : String) : Obj :=
  if const = "Infinity" ∨ const = "-Infinity" ∨ const = "NaN" then .none
  else .str const

/-- `json.loads`'s default `parse_constant` behavior: the constants become
the corresponding non-finite floats. -/
def defaultConstant (const : String) : Obj :=
  if const = "NaN" then .float .nan
  else if const = "Infinity" then .float .inf
  else .float .neginf

/-- How the active backend call treats the non-standard constants:
`pyDefault` is plain `json.loads` (line 422), `coerce` is
`json.loads(..., parse_constant=coerce_to_strict)` (line 219), `reject` is
`orjson.loads`, which refuses them (line 417). -/
inductive ConstMode where
  | pyDefault
  | coerce
  | reject

/-- The parsed value for a constant token under the given mode. -/
def constResult : ConstMode → String → Option Obj
  | .pyDefault, tok => some (defaultConstant tok)
  | .coerce, tok => some (coerce_to_strict tok)
  | .reject, _ => Option.none

/-- JSON whitespace (CPython's `[ \t\n\r]*`). -/
def isWsChar (c : Char) : Bool := c = ' ' || c = '\t' || c = '\n' || c = '\r'

/-- Skip leading whitespace. -/
def skipWs : List Char → List Char
  | [] => []
  | c :: cs => if isWsChar c then skipWs cs else c :: cs

/-- Hex digit value (both cases accepted, as in `int(s, 16)`). -/
def hexVal (c : Char) : Option Nat :=
  if 48 ≤ c.toNat ∧ c.toNat ≤ 57 then some (c.toNat - 48)
  else if 97 ≤ c.toNat ∧ c.toNat ≤ 102 then some (c.toNat - 87)
  else if 65 ≤ c.toNat ∧ c.toNat ≤ 70 then some (c.toNat - 55)
  else Option.none

/-- Value of a 4-digit hex escape. -/
def hex4Val (a b c d : Char) : Option Nat := do
  let x ← hexVal a
  let y ← hexVal b
  let z ← hexVal c
  let w ← hexVal d
  pure (x * 4096 + y * 256 + z * 16 + w)

/-- Decode a single-character backslash escape. -/
def escDecode (c : Char) : Option Char :=
  if c = '"' then some '"'
  else if c = '\\' then some '\\'
  else if c = '/' then some '/'
  else if c = 'b' then some (Char.ofNat 8)
  else if c = 'f' then some (Char.ofNat 12)
  else if c = 'n' then some '\n'
  else if c = 'r' then some '\r'
  else if c = 't' then some '\t'
  else Option.none

/-- Read four hex digits. -/
def readHex4 : List Char → Option (Nat × List Char)
  | a :: b :: c :: d :: cs =>
    match hex4Val a b c d with
    | some n => some (n, cs)
    | Option.none => Option.none
  | _ => Option.none

/-- After a high surrogate, read a `\uXXXX` escape holding a low
surrogate. -/
def readLowSurrogate : List Char → Option (Nat × List Char)
  | b1 :: b2 :: cs =>
    if b1 = '\\' ∧ b2 = 'u' then
      match readHex4 cs with
      | some (n2, cs3) => if 0xdc00 ≤ n2 ∧ n2 ≤ 0xdfff then some (n2, cs3) else Option.none
      | Option.none => Option.none
    else Option.none
  | _ => Option.none

/-- Parse a JSON string body (the opening quote already consumed), returning
the decoded characters and the remainder after the closing quote.  Surrogate
pairs recombine into one character; a lone surrogate — which CPython would
keep as an unpaired code unit, something a Lean `Char` cannot hold — is
rejected (it can never be produced by the serializers modelled here).
Unescaped control characters are rejected (`strict=True`).  The fuel
argument, always supplied as more than the remaining input length, keeps the
recursion structural. -/
def parseStrBody : Nat → List Char → Option (List Char × List Char)
  | 0, _ => Option.none
  | _ + 1, [] => Option.none
  | f + 1, c :: cs =>
    if c = '"' then some ([], cs)
    else if c = '\\' then
      match cs with
      | [] => Option.none
      | e :: cs1 =>
        if e = 'u' then
          match readHex4 cs1 with
          | Option.none => Option.none
          | some (n, cs2) =>
            if 0xd800 ≤ n ∧ n ≤ 0xdbff then
              match readLowSurrogate cs2 with
              | Option.none => Option.none
              | some (n2, cs3) =>
                (parseStrBody f cs3).map fun p =>
                  (Char.ofNat (0x10000 + (n - 0xd800) * 0x400 + (n2 - 0xdc00)) :: p.1, p.2)
            else if 0xdc00 ≤ n ∧ n ≤ 0xdfff then Option.none
            else (parseStrBody f cs2).map fun p => (Char.ofNat n :: p.1, p.2)
        else
          match escDecode e with
          | some ch => (parseStrBody f cs1).map fun p => (ch :: p.1, p.2)
          | Option.none => Option.none
    else if c.toNat < 0x20 then Option.none
    else (parseStrBody f cs).map fun p => (c :: p.1, p.2)

/-- ASCII decimal digit test. -/
def isDigitCh (c : Char) : Bool := 48 ≤ c.toNat && c.toNat ≤ 57

/-- Split off the longest leading run of digits. -/
def takeDigits : List Char → List Char × List Char
  | [] => ([], [])
  | c :: cs =>
    if isDigitCh c then
      let p := takeDigits cs
      (c :: p.1, p.2)
    else ([], c :: cs)

/-- Numeric value of a digit run. -/
def digitsVal (ds : List Char) : Nat := ds.foldl (fun a c => a * 10 + (c.toNat - 48)) 0

/-- Normalize a fraction representation by dropping trailing zero digits:
`(m * 10, e + 1)` and `(m, e)` denote the same float value, and the parser
— like `float()` — identifies them. -/
def stripZeros : Nat → Nat → Nat × Nat
  | m, 0 => (m, 0)
  | m, e + 1 => if m % 10 = 0 then stripZeros (m / 10) e else (m, e + 1)

/-- Assemble the float for mantissa digits worth `m0`, `e0` digits after the
point, and decimal exponent `ex` (so the value is `±m0 * 10^(ex - e0)`). -/
def mkFloat (neg : Bool) (m0 : Nat) (e0 : Nat) (ex : Int) : PFloat :=
  let sgn : Int → Int := fun v => if neg then -v else v
  let shift : Int := (ex : Int) - (e0 : Int)
  if 0 ≤ shift then .finite (sgn (m0 * 10 ^ shift.toNat)) 0
  else
    let p := stripZeros m0 (-shift).toNat
    .finite (sgn p.1) p.2

/-- Parse a `[eE][-+]?digits` exponent; `Option.none` means no exponent
matched at this position (the regex group is optional, so the caller keeps
its input unchanged). -/
def parseExpPart : List Char → Option (Int × List Char)
  | c :: cs =>
    if c = 'e' ∨ c = 'E' then
      let neg : Bool := cs.headD ' ' = '-'
      let cs1 := if cs.headD ' ' = '-' ∨ cs.headD ' ' = '+' then cs.tail else cs
      match takeDigits cs1 with
      | ([], _) => Option.none
      | (ds, r2) => some (if neg then -(digitsVal ds : Int) else (digitsVal ds : Int), r2)
    else Option.none
  | [] => Option.none

/-- The unsigned tail of CPython's `NUMBER_RE`
(`(0|[1-9]\d*)(\.\d+)?([eE][-+]?\d+)?` after an optional leading `-` has
been split off): an integer literal without fraction or exponent parses as
`int`, anything else as `float`; a non-matching fraction or exponent group
is simply not consumed. -/
def parseNumCore (neg : Bool) (cs1 : List Char) : Option (Obj × List Char) :=
  match takeDigits cs1 with
  | ([], _) => Option.none
  | (ids, cs2) =>
    if ids.length > 1 ∧ ids.headD '0' = '0' then Option.none
    else
      let iv := digitsVal ids
      if cs2.headD ' ' = '.' then
        match takeDigits cs2.tail with
        | ([], _) =>
          match parseExpPart cs2 with
          | some (ex, cs5) => some (.float (mkFloat neg iv 0 ex), cs5)
          | Option.none => some (.int (if neg then -(iv : Int) else (iv : Int)), cs2)
        | (fds, cs4) =>
          match parseExpPart cs4 with
          | some (ex, cs5) =>
            some (.float (mkFloat neg (digitsVal (ids ++ fds)) fds.length ex), cs5)
          | Option.none =>
            some (.float (mkFloat neg (digitsVal (ids ++ fds)) fds.length 0), cs4)
      else
        match parseExpPart cs2 with
        | some (ex, cs5) => some (.float (mkFloat neg iv 0 ex), cs5)
        | Option.none => some (.int (if neg then -(iv : Int) else (iv : Int)), cs2)

/-- Parse a JSON number per CPython's `NUMBER_RE`
(`-?(0|[1-9]\d*)(\.\d+)?([eE][-+]?\d+)?`). -/
def parseNum (cs : List Char) : Option (Obj × List Char) :=
  if cs.headD ' ' = '-' then parseNumCore true cs.tail else parseNumCore false cs

/-- Drop an exact literal from the head of the input. -/
def dropLit : List Char → List Char → Option (List Char)
  | [], cs => some cs
  | p :: ps, c :: cs => if c = p then dropLit ps cs else Option.none
  | _ :: _, [] => Option.none

mutual

/-- Parse one JSON value (with leading whitespace), mirroring CPython's
scanner dispatch: object, array, string, the literals
`null`/`true`/`false`, the non-standard constants (routed through
`ConstMode`), then numbers. -/
def parseVal (mode : ConstMode) : Nat → List Char → Option (Obj × List Char)
  | 0, _ => Option.none
  | fuel + 1, cs =>
    let t := skipWs cs
    match t with
    | [] => Option.none
    | c :: cs1 =>
      if c = lbrace then
        match skipWs cs1 with
        | c2 :: cs2 =>
          if c2 = rbrace then some (.dict [], cs2)
          else (parseMembers mode fuel (c2 :: cs2)).map fun q => (.dict q.1, q.2)
        | [] => Option.none
      else if c = '[' then
        match skipWs cs1 with
        | c2 :: cs2 =>
          if c2 = ']' then some (.list [], cs2)
          else (parseItems mode fuel (c2 :: cs2)).map fun q => (.list q.1, q.2)
        | [] => Option.none
      else if c = '"' then
        (parseStrBody (cs1.length + 1) cs1).map fun q => (.str (String.mk q.1), q.2)
      else
        match dropLit "null".data t with
        | some r => some (.none, r)
        | Option.none =>
        match dropLit "true".data t with
        | some r => some (.bool true, r)
        | Option.none =>
        match dropLit "false".data t with
        | some r => some (.bool false, r)
        | Option.none =>
        match dropLit "NaN".data t with
        | some r => (constResult mode "NaN").map fun v => (v, r)
        | Option.none =>
        match dropLit "Infinity".data t with
        | some r => (constResult mode "Infinity").map fun v => (v, r)
        | Option.none =>
        match dropLit "-Infinity".data t with
        | some r => (constResult mode "-Infinity").map fun v => (v, r)
        | Option.none => parseNum t

/-- Parse the elements of a non-empty array, positioned at the first
element; consumes the closing `]`. -/
def parseItems (mode : ConstMode) : Nat → List Char → Option (List Obj × List Char)
  | 0, _ => Option.none
  | fuel + 1, cs =>
    match parseVal mode fuel cs with
    | Option.none => Option.none
    | some (v, r) =>
      match skipWs r with
      | ',' :: r2 => (parseItems mode fuel r2).map fun q => (v :: q.1, q.2)
      | ']' :: r2 => some ([v], r2)
      | _ => Option.none

/-- Parse the members of a non-empty object, positioned at the first key's
opening quote; consumes the closing brace. -/
def parseMembers (mode : ConstMode) : Nat → List Char → Option (List (String × Obj) × List Char)
  | 0, _ => Option.none
  | fuel + 1, cs =>
    match cs with
    | '"' :: cs1 =>
      match parseStrBody (cs1.length + 1) cs1 with
      | Option.none => Option.none
      | some (k, r1) =>
        match skipWs r1 with
        | ':' :: r2 =>
          match parseVal mode fuel r2 with
          | Option.none => Option.none
          | some (v, r3) =>
            match skipWs r3 with
            | ',' :: r4 =>
              (parseMembers mode fuel (skipWs r4)).map fun q =>
                ((String.mk k, v) :: q.1, q.2)
            | c5 :: r5 => if c5 = rbrace then some ([(String.mk k, v)], r5) else Option.none
            | [] => Option.none
        | _ => Option.none
    | _ => Option.none

end

/-- `json.loads(s)` with the constant handling of `mode`.  CPython builds a
`dict` from the parsed members (duplicate keys keep the last binding); the
embedding keeps the member list, which coincides with the dict whenever keys
are distinct — and every serializer modelled here is fed such inputs.
`Option.none` is the raised `ValueError` (`json.JSONDecodeError`). -/
def json_loads (mode : ConstMode) (s : String) : Option Obj :=
  match parseVal mode (s.data.length + 1) s.data with
  | some (v, rest) => if skipWs rest = [] then some v else Option.none
  | Option.none => Option.none

/-! ## Dispatch: `_to_json_plotly`, `from_json_plotly`, `JsonConfig` -/

/-- Which optional dependencies `get_module` finds at the moment of a call.
`get_module` probes the import system each time, so availability is a
per-call datum, not process state. -/
structure Env where
  orjson : Bool
  sage_all : Bool
  np : Bool
  pd : Bool
  image : Bool

/-- The `modules` dict of source lines 186-191. -/
def theModules (env : Env) : Modules :=
  ⟨env.sage_all, env.np, env.pd, env.image⟩

/-- Errors surfaced by the encode/decode entry points (all `ValueError` /
`TypeError` at runtime, separated here by raise site):
* `unsupportedEngine`: `"Invalid json engine: %s"` (lines 183-184, 411-412);
* `orjsonMissing`: `"The orjson engine requires the orjson package"`
  (lines 38-42);
* `cleanFail e`: an exception escaping `clean_to_json_compatible`;
* `dumpFail`: `TypeError` from the backend serializer;
* `parseFail`: the backend parser's `ValueError`, propagated as-is
  (lines 417, 422);
* `strictRepairFail`: the hinted `ValueError` — "Encoding into strict JSON
  failed. Did you set the separators valid JSON separators?" — raised when
  the repair pass cannot re-parse the encoder's own output (lines 218-225);
* `configInvalidEngine`: the `JsonConfig.default_engine` setter's
  `ValueError` (lines 27-31). -/
inductive PyErr where
  | unsupportedEngine
  | orjsonMissing
  | cleanFail (e : CleanErr)
  | dumpFail
  | parseFail
  | strictRepairFail
  | configInvalidEngine

/-- Engine selection, lines 175-184 (and the identical lines 402-412 of
`from_json_plotly`): a missing engine argument falls back to the
process-wide default; `"auto"` resolves — at call time, against this call's
`Env` — to `"orjson"` exactly when orjson is importable, else `"json"`;
any other token outside the three concrete engines is rejected. -/
def resolveEngine (env : Env) (default_engine : String) (engine : Option String) :
    Except PyErr String :=
  let e := engine.getD default_engine
  if e = "auto" then .ok (if env.orjson then "orjson" else "json")
  else if e = "orjson" ∨ e = "json" ∨ e = "legacy" then .ok e
  else .error .unsupportedEngine

/-- The strict-JSON repair pass (lines 215-227): re-parse the encoder's own
output with `parse_constant=coerce_to_strict`, turning every non-finite
token into `None`, and serialize again with the same options; if the
re-parse fails (the source anticipates invalid custom separators), raise the
hinted `ValueError` of lines 221-225 instead of propagating the bare parse
error. -/
def strictRepair (pretty : Bool) (encoded : String) : Except PyErr String :=
  match json_loads .coerce encoded with
  | some new_o => (dumps pretty new_o).mapError fun _ => .dumpFail
  | Option.none => .error .strictRepairFail

/-- The `engine == "json"` branch of `_to_json_plotly` (lines 203-227):
canonicalize with `numpy_allowed=False, datetime_allowed=False`, serialize
with `json.dumps(cleaned, sort_keys=True, **opts)`, return directly when the
output has no `NaN`/`Infinity` substring, otherwise run the strict-JSON
repair pass. -/
def jsonEngineEncode (env : Env) (pretty : Bool) (obj : Obj) : Except PyErr String := do
  let cleaned ← (clean_to_json_compatible obj
    { numpy_allowed := false, datetime_allowed := false,
      modules := some (theModules env) }).mapError .cleanFail
  let encoded ← (dumps pretty cleaned).mapError fun _ => .dumpFail
  if !(strContains encoded "NaN" || strContains encoded "Infinity") then
    .ok encoded
  else
    strictRepair pretty encoded

/-- Modelled from the spec: the legacy engine delegates to
`_plotly_utils.utils.PlotlyJSONEncoder` (source lines 229-231), whose code
is not under `src/`.  Per spec §4.2, both the `standard` and `legacy`
backends "canonicalize with `numpy_allowed=false, datetime_allowed=false`",
serialize with sorted keys and the shared whitespace policy, and "after
serialization, if the output contains the literal substrings for non-finite
float tokens, run the Strict-JSON Repair Pass: re-parse the string accepting
those tokens, replacing each with `null`, then re-serialize with the same
key/whitespace policy". -/
def PlotlyJSONEncoder_encode (env : Env) (pretty : Bool) (obj : Obj) : Except PyErr String := do
  let cleaned ← (clean_to_json_compatible obj
    { numpy_allowed := false, datetime_allowed := false,
      modules := some (theModules env) }).mapError .cleanFail
  let encoded ← (dumps pretty cleaned).mapError fun _ => .dumpFail
  if !(strContains encoded "NaN" || strContains encoded "Infinity") then
    .ok encoded
  else
    strictRepair pretty encoded

/-- The one-shot `obj.to_plotly_json()` attempt of lines 240-243. -/
def unwrapPlotly : Obj → Obj
  | .plotly p => p
  | q => q

/-- The `engine == "orjson"` branch of `_to_json_plotly` (lines 232-254):
check the dependency, unwrap `to_plotly_json`, try `orjson.dumps` on the
raw object, and only on `TypeError` canonicalize (with
`numpy_allowed=True, datetime_allowed=True`) and serialize the cleaned
tree. -/
def orjsonEngineEncode (env : Env) (pretty : Bool) (obj : Obj) : Except PyErr String :=
  if !env.orjson then .error .orjsonMissing
  else
    let raw := unwrapPlotly obj
    match orjson_dumps pretty raw with
    | .ok s => .ok s
    | .error _ => do
      let cleaned ← (clean_to_json_compatible raw
        { numpy_allowed := true, datetime_allowed := true,
          modules := some (theModules env) }).mapError .cleanFail
      (orjson_dumps pretty cleaned).mapError fun _ => .dumpFail

/-- `_to_json_plotly(plotly_object, pretty=..., engine=...)` (lines
141-254).  `default_engine` is the value of
`plotly.io.json.config.default_engine` at the call; `env` records which
optional modules `get_module` finds during this call. -/
def _to_json_plotly (env : Env) (plotly_object : Obj) (pretty : Bool)
    (engine : Option String) (default_engine : String) : Except PyErr String := do
  let eng ← resolveEngine env default_engine engine
  if eng = "json" then jsonEngineEncode env pretty plotly_object
  else if eng = "legacy" then PlotlyJSONEncoder_encode env pretty plotly_object
  else orjsonEngineEncode env pretty plotly_object

/-- `from_json_plotly(value, engine=...)` (lines 362-424).  The
`isinstance(value, (string_types, bytes))` guard of lines 393-400 cannot
fire here, where `value` is always textual, and the UTF-8 decode of byte
input (lines 420-421) is a no-op on text. -/
def from_json_plotly (env : Env) (value : String) (engine : Option String)
    (default_engine : String) : Except PyErr Obj := do
  let eng ← resolveEngine env default_engine engine
  if eng = "orjson" then
    if !env.orjson then .error .orjsonMissing
    else
      match json_loads .reject value with
      | some v => .ok v
      | Option.none => .error .parseFail
  else
    match json_loads .pyDefault value with
    | some v => .ok v
    | Option.none => .error .parseFail

/-- `JsonConfig._valid_engines` (line 16). -/
def JsonConfig_valid_engines : List String := ["legacy", "json", "orjson", "auto"]

/-- `JsonConfig.__init__` (lines 18-19): the stored default starts as
`"auto"`. -/
def JsonConfig_init : String := "auto"

/-- The `default_engine` property setter (lines 25-36): reject tokens
outside `_valid_engines`; for `"orjson"` additionally require the orjson
package; only then install the new value. -/
def JsonConfig_set_default_engine (env : Env) (val : String) : Except PyErr String :=
  if val ∉ JsonConfig_valid_engines then .error .configInvalidEngine
  else if val = "orjson" ∧ !env.orjson then .error .orjsonMissing
  else .ok val

/-- The state transition of one assignment to `config.default_engine`: an
exception is raised before the assignment, so on error the stored value
stays `cur`. -/
def JsonConfig_step (env : Env) (cur val : String) : String :=
  match JsonConfig_set_default_engine env val with
  | .ok v => v
  | .error _ => cur

/-! ## Specification-side value functions

These are not part of the source; they state properties of it.  `nullify`
is the value-level meaning of the strict-JSON repair ("each non-finite
float value is replaced by null"); `hasNonFinite` detects non-finite floats;
`floatsNorm` says every finite float carried by a value is in the canonical
decimal form `repr` produces (no trailing zero in a non-empty fraction) —
real Python floats always are, but the `(m, e)` embedding also admits
redundant encodings such as `(150, 2)` for `1.50`, which no Python value
corresponds to; `jsize` bounds parser fuel. -/

mutual

/-- Replace every non-finite float by `None`, recursively. -/
def nullify : Obj → Obj
  | .float .nan => .none
  | .float .inf => .none
  | .float .neginf => .none
  | .list xs => .list (nullifyList xs)
  | .dict kvs => .dict (nullifyKVs kvs)
  | q => q

/-- `nullify` on sequence elements. -/
def nullifyList : List Obj → List Obj
  | [] => []
  | x :: xs => nullify x :: nullifyList xs

/-- `nullify` on mapping values. -/
def nullifyKVs : List (String × Obj) → List (String × Obj)
  | [] => []
  | (k, v) :: kvs => (k, nullify v) :: nullifyKVs kvs

end

mutual

/-- Whether a JSON-primitive tree contains a non-finite float. -/
def hasNonFinite : Obj → Bool
  | .float .nan => true
  | .float .inf => true
  | .float .neginf => true
  | .list xs => hasNonFiniteL xs
  | .dict kvs => hasNonFiniteK kvs
  | _ => false

/-- `hasNonFinite` over sequence elements. -/
def hasNonFiniteL : List Obj → Bool
  | [] => false
  | x :: xs => hasNonFinite x || hasNonFiniteL xs

/-- `hasNonFinite` over mapping values. -/
def hasNonFiniteK : List (String × Obj) → Bool
  | [] => false
  | (_, v) :: kvs => hasNonFinite v || hasNonFiniteK kvs

end

/-- Canonical decimal form: a fraction part, when present, has no trailing
zero (this is the shape `repr(float)` produces). -/
def normF : PFloat → Bool
  | .finite m e => e == 0 || m.natAbs % 10 != 0
  | _ => true

mutual

/-- All floats reachable in the value — including those carried inside
adapter objects that canonicalization may surface — are in canonical
decimal form. -/
def floatsNorm : Obj → Bool
  | .float x => normF x
  | .sageReal x => normF x
  | .pydecimal x => normF x
  | .plotly p => floatsNorm p
  | .tolistObj p => floatsNorm p
  | .list xs => floatsNormL xs
  | .ndarrayNum _ xs => floatsNormL xs
  | .ndarrayO xs => floatsNormL xs
  | .pdSeriesNum _ xs => floatsNormL xs
  | .dict kvs => floatsNormK kvs
  | _ => true

/-- `floatsNorm` over sequence elements. -/
def floatsNormL : List Obj → Bool
  | [] => true
  | x :: xs => floatsNorm x && floatsNormL xs

/-- `floatsNorm` over mapping values. -/
def floatsNormK : List (String × Obj) → Bool
  | [] => true
  | (_, v) :: kvs => floatsNorm v && floatsNormK kvs

end

mutual

/-- Fuel bound for the parser: 1 per scalar, 2 plus the members' sizes per
container. -/
def jsize : Obj → Nat
  | .list xs => 2 + jsizeL xs
  | .dict kvs => 2 + jsizeK kvs
  | _ => 1

/-- `jsize` over sequence elements. -/
def jsizeL : List Obj → Nat
  | [] => 0
  | x :: xs => jsize x + jsizeL xs

/-- `jsize` over mapping values. -/
def jsizeK : List (String × Obj) → Nat
  | [] => 0
  | (_, v) :: kvs => jsize v + jsizeK kvs

end

/-- The character after a digit run must not extend it. -/
def noDigitHead : List Char → Prop
  | [] => True
  | c :: _ => isDigitCh c = false

/-- The character after a complete number token must not extend the token:
not a digit and none of `.`, `e`, `E`. -/
def numBreak : List Char → Prop
  | [] => True
  | c :: _ => isDigitCh c = false ∧ c ≠ '.' ∧ c ≠ 'e' ∧ c ≠ 'E'

/-- A character that may legitimately follow a complete printed value inside
a container or at the end of input. -/
def stopChar (c : Char) : Bool := isWsChar c || c = ',' || c = ']' || c = rbrace

/-- The remainder after a printed value starts with a stop character (or is
empty). -/
def stopsNum : List Char → Prop
  | [] => True
  | c :: _ => stopChar c = true

/-- The modelled value of a parse of printed output: the identity for the
default constant handling, `nullify` under `coerce_to_strict`. -/
def modeMap : ConstMode → Obj → Obj
  | .coerce, u => nullify u
  | .pyDefault, u => u
  | .reject, u => u

/-- The round-trip statement for one value at parser fuel `f`. -/
def RTVal (f : Nat) : Prop := ∀ (u : Obj) (mode : ConstMode) (pretty : Bool) (lvl : Nat)
    (out rest : List Char), (mode = .reject → hasNonFinite u = false) →
    printVal pretty lvl u = .ok out →
    floatsNorm u = true → jsize u ≤ f → stopsNum rest →
    parseVal mode f (out ++ rest) = some (modeMap mode u, rest)

/-- The round-trip statement for a non-empty printed array segment at parser
fuel `g`: positioned at the first element's output, through the closing
bracket. -/
def RTItems (g : Nat) : Prop := ∀ (x : Obj) (xs : List Obj) (mode : ConstMode) (pretty : Bool)
    (lvl : Nat) (ox tl wsc rest : List Char),
    (mode = .reject → hasNonFinite x = false) →
    (mode = .reject → hasNonFiniteL xs = false) →
    printVal pretty lvl x = .ok ox → printElems pretty lvl xs = .ok tl →
    floatsNorm x = true → floatsNormL xs = true →
    jsize x + jsizeL xs + 1 ≤ g →
    (∀ c ∈ wsc, isWsChar c = true) → stopsNum rest →
    parseItems mode g (ox ++ (tl ++ (wsc ++ (']' :: rest)))) =
      some (modeMap mode x :: List.map (modeMap mode) xs, rest)

/-- The round-trip statement for a non-empty printed object segment at parser
fuel `g`: positioned at the first key's opening quote, through the closing
brace. -/
def RTMembers (g : Nat) : Prop := ∀ (k : String) (v : Obj) (kvs : List (String × Obj))
    (mode : ConstMode) (pretty : Bool) (lvl : Nat) (ov tl wsc rest : List Char),
    (mode = .reject → hasNonFinite v = false) →
    (mode = .reject → hasNonFiniteK kvs = false) →
    printVal pretty lvl v = .ok ov → printKVs pretty lvl kvs = .ok tl →
    floatsNorm v = true → floatsNormK kvs = true →
    jsize v + jsizeK kvs + 1 ≤ g →
    (∀ c ∈ wsc, isWsChar c = true) → stopsNum rest →
    parseMembers mode g
        (quoteStr k ++ (kvSep pretty ++ (ov ++ (tl ++ (wsc ++ (rbrace :: rest)))))) =
      some ((k, modeMap mode v) :: List.map (fun q => (q.1, modeMap mode q.2)) kvs, rest)

/-- The value `clean_to_json_compatible` returns when it succeeds (the
argument itself otherwise) — lets the cleaned mapping be written as a
`List.map` of the input. -/
def cleanOrSelf (v : Obj) (kw : CleanKwargs) : Obj :=
  match clean_to_json_compatible v kw with
  | .ok c => c
  | .error _ => v

/-! ## Character and string basics -/

theorem toNat_ofNat_valid (n : Nat) (h : n.isValidChar) : (Char.ofNat n).toNat = n := by
  unfold Char.ofNat
  split
  · rfl
  · exact absurd h (by assumption)

theorem char_toNat_valid (c : Char) : c.toNat.isValidChar := c.valid

theorem char_eq_of_toNat_eq {c d : Char} (h : c.toNat = d.toNat) : c = d :=
  Char.eq_of_val_eq (UInt32.ext h)

theorem strMkData (s : String) : String.mk s.data = s := by cases s; rfl

theorem digitChar_toNat {k : Nat} (h : k < 10) : (digitChar k).toNat = 48 + k := by
  apply toNat_ofNat_valid
  left
  omega

theorem isDigitCh_digitChar {k : Nat} (h : k < 10) : isDigitCh (digitChar k) = true := by
  simp [isDigitCh, digitChar_toNat h]
  omega

theorem isDigitCh_toNat {c : Char} (h : isDigitCh c = true) : 48 ≤ c.toNat ∧ c.toNat ≤ 57 := by
  simpa [isDigitCh] using h

theorem hexDigitChar_toNat {k : Nat} (h : k < 16) :
    (hexDigitChar k).toNat = if k < 10 then 48 + k else 87 + k := by
  unfold hexDigitChar
  split <;> (apply toNat_ofNat_valid; left; omega)

theorem hexVal_hexDigitChar {k : Nat} (h : k < 16) : hexVal (hexDigitChar k) = some k := by
  unfold hexVal
  rw [hexDigitChar_toNat h]
  split_ifs <;> simp_all <;> omega

/-! ## Whitespace -/

theorem skipWs_cons_not_ws {c : Char} (h : isWsChar c = false) (cs : List Char) :
    skipWs (c :: cs) = c :: cs := by
  simp [skipWs, h]

theorem skipWs_append_ws {ws : List Char} (h : ∀ c ∈ ws, isWsChar c = true) (cs : List Char) :
    skipWs (ws ++ cs) = skipWs cs := by
  induction ws with
  | nil => rfl
  | cons c rest ih =>
    have hc := h c (by simp)
    simp only [List.cons_append, skipWs, hc, if_pos]
    exact ih fun d hd => h d (by simp [hd])

theorem indentChars_ws (lvl : Nat) : ∀ c ∈ indentChars lvl, isWsChar c = true := by
  intro c hc
  have : c = ' ' := List.eq_of_mem_replicate hc
  simp [this, isWsChar]

theorem lead_ws (pretty : Bool) (lvl : Nat) : ∀ c ∈ lead pretty lvl, isWsChar c = true := by
  intro c hc
  cases pretty with
  | false => simp [lead] at hc
  | true =>
    have : lead true lvl = '\n' :: indentChars lvl := rfl
    rw [this] at hc
    rcases List.mem_cons.mp hc with h | h
    · simp [h, isWsChar]
    · exact indentChars_ws lvl c h

/-! ## Exact literals -/

theorem dropLit_append (lit rest : List Char) : dropLit lit (lit ++ rest) = some rest := by
  induction lit with
  | nil => rfl
  | cons c cs ih => simp [dropLit, ih]

/-! ## Decimal digit strings -/

theorem natReprAux_append : ∀ (fuel n : Nat) (acc : List Char),
    natReprAux fuel n acc = natReprAux fuel n [] ++ acc := by
  intro fuel
  induction fuel with
  | zero => intro n acc; rfl
  | succ f ih =>
    intro n acc
    by_cases h : n < 10
    · simp [natReprAux, h]
    · simp only [natReprAux, h, if_false]
      rw [ih (n / 10) (digitChar (n % 10) :: acc), ih (n / 10) [digitChar (n % 10)]]
      simp

theorem natReprAux_fuel : ∀ (n f1 f2 : Nat), n < f1 → n < f2 →
    natReprAux f1 n [] = natReprAux f2 n [] := by
  intro n
  induction n using Nat.strong_induction_on with
  | _ n ih =>
    intro f1 f2 h1 h2
    cases f1 with
    | zero => omega
    | succ f1 =>
      cases f2 with
      | zero => omega
      | succ f2 =>
        by_cases h : n < 10
        · simp [natReprAux, h]
        · simp only [natReprAux, h, if_false]
          rw [natReprAux_append f1 (n / 10), natReprAux_append f2 (n / 10)]
          have hd : n / 10 < n := by omega
          rw [ih (n / 10) hd f1 f2 (by omega) (by omega)]

theorem natRepr_lt10 {n : Nat} (h : n < 10) : natRepr n = [digitChar n] := by
  simp [natRepr, natReprAux, h]

theorem natRepr_ge10 {n : Nat} (h : 10 ≤ n) :
    natRepr n = natRepr (n / 10) ++ [digitChar (n % 10)] := by
  have h' : ¬ n < 10 := by omega
  show natReprAux (n + 1) n [] = _
  conv_lhs => rw [natReprAux]
  simp only [h', if_false]
  rw [natReprAux_append n (n / 10), natReprAux_fuel (n / 10) n (n / 10 + 1) (by omega) (by omega)]
  rfl

theorem natRepr_ne_nil (n : Nat) : natRepr n ≠ [] := by
  by_cases h : n < 10
  · simp [natRepr_lt10 h]
  · rw [natRepr_ge10 (by omega)]
    simp

theorem natRepr_digits (n : Nat) : ∀ c ∈ natRepr n, isDigitCh c = true := by
  induction n using Nat.strong_induction_on with
  | _ n ih =>
    by_cases h : n < 10
    · rw [natRepr_lt10 h]
      intro c hc
      rw [List.mem_singleton] at hc
      subst hc
      exact isDigitCh_digitChar h
    · rw [natRepr_ge10 (by omega)]
      intro c hc
      rcases List.mem_append.mp hc with h1 | h1
      · exact ih (n / 10) (by omega) c h1
      · rw [List.mem_singleton] at h1
        subst h1
        exact isDigitCh_digitChar (by omega)

theorem headD_append_of_ne_nil {a : List Char} (h : a ≠ []) (b : List Char) (d : Char) :
    (a ++ b).headD d = a.headD d := by
  cases a with
  | nil => exact absurd rfl h
  | cons x xs => rfl

theorem digitChar_ne_zero {k : Nat} (h1 : 1 ≤ k) (h2 : k < 10) : digitChar k ≠ '0' := by
  intro he
  have := congrArg Char.toNat he
  rw [digitChar_toNat h2] at this
  have h0 : ('0' : Char).toNat = 48 := rfl
  omega

theorem natRepr_head_ne_zero {n : Nat} (h : 10 ≤ n) : (natRepr n).headD '0' ≠ '0' := by
  induction n using Nat.strong_induction_on with
  | _ n ih =>
    rw [natRepr_ge10 h, headD_append_of_ne_nil (natRepr_ne_nil _)]
    by_cases h10 : 10 ≤ n / 10
    · exact ih (n / 10) (by omega) h10
    · rw [natRepr_lt10 (by omega)]
      exact digitChar_ne_zero (by omega) (by omega)

theorem digitsVal_from (ds : List Char) : ∀ acc : Nat,
    ds.foldl (fun a c => a * 10 + (c.toNat - 48)) acc = acc * 10 ^ ds.length + digitsVal ds := by
  induction ds with
  | nil => intro acc; simp [digitsVal]
  | cons c cs ih =>
    intro acc
    show cs.foldl _ (acc * 10 + (c.toNat - 48)) = _
    rw [ih (acc * 10 + (c.toNat - 48))]
    have hd : digitsVal (c :: cs) = (c.toNat - 48) * 10 ^ cs.length + digitsVal cs := by
      show cs.foldl _ (0 * 10 + (c.toNat - 48)) = _
      rw [ih (0 * 10 + (c.toNat - 48))]
      ring
    rw [hd]
    simp [List.length_cons, Nat.pow_succ]
    ring

theorem digitsVal_append (a b : List Char) :
    digitsVal (a ++ b) = digitsVal a * 10 ^ b.length + digitsVal b := by
  show (a ++ b).foldl _ 0 = _
  rw [List.foldl_append]
  exact digitsVal_from b (digitsVal a)

theorem digitsVal_singleton (c : Char) : digitsVal [c] = c.toNat - 48 := by
  simp [digitsVal]

theorem digitsVal_replicate_zero (w : Nat) : digitsVal (List.replicate w '0') = 0 := by
  induction w with
  | zero => rfl
  | succ k ih =>
    rw [List.replicate_succ, show ('0' :: List.replicate k '0') = ['0'] ++ List.replicate k '0' from rfl,
      digitsVal_append, ih]
    simp [digitsVal]

theorem digitsVal_natRepr (n : Nat) : digitsVal (natRepr n) = n := by
  induction n using Nat.strong_induction_on with
  | _ n ih =>
    by_cases h : n < 10
    · rw [natRepr_lt10 h, digitsVal_singleton, digitChar_toNat h]
      omega
    · rw [natRepr_ge10 (by omega), digitsVal_append, ih (n / 10) (by omega),
        digitsVal_singleton, digitChar_toNat (show n % 10 < 10 by omega)]
      simp
      omega

theorem natRepr_length_le {n w : Nat} (h : n < 10 ^ w) (hw : 1 ≤ w) :
    (natRepr n).length ≤ w := by
  induction n using Nat.strong_induction_on generalizing w with
  | _ n ih =>
    by_cases h10 : n < 10
    · rw [natRepr_lt10 h10]
      simpa using hw
    · rw [natRepr_ge10 (by omega)]
      rw [List.length_append, List.length_singleton]
      cases w with
      | zero => omega
      | succ w' =>
        cases w' with
        | zero =>
          exfalso
          simp [pow_one] at h
          omega
        | succ w'' =>
          have hn : n / 10 < 10 ^ (w'' + 1) := by
            rw [pow_succ] at h
            omega
          have := ih (n / 10) (by omega) hn (by omega)
          omega

/-! ## Number parsing -/

theorem numBreak_noDigitHead {rest : List Char} (h : numBreak rest) : noDigitHead rest := by
  cases rest with
  | nil => trivial
  | cons c cs => exact h.1

theorem parseExpPart_break {rest : List Char} (h : numBreak rest) :
    parseExpPart rest = Option.none := by
  cases rest with
  | nil => rfl
  | cons c cs =>
    obtain ⟨-, -, he, hE⟩ := h
    simp [parseExpPart, he, hE]

theorem digit_headD {l : List Char} (hl : l ≠ []) (h : ∀ c ∈ l, isDigitCh c = true)
    (d : Char) : isDigitCh (l.headD d) = true := by
  cases l with
  | nil => exact absurd rfl hl
  | cons c cs => exact h c (by simp)

theorem digit_ne_chars {c : Char} (h : isDigitCh c = true) :
    c ≠ '-' ∧ c ≠ '.' ∧ c ≠ 'e' ∧ c ≠ 'E' := by
  obtain ⟨h1, h2⟩ := isDigitCh_toNat h
  refine ⟨?_, ?_, ?_, ?_⟩ <;>
    (intro he; subst he; revert h1 h2; decide)

/-- The leading-zero guard of `NUMBER_RE` never fires on a canonical digit
rendering. -/
theorem natRepr_guard (n : Nat) :
    ¬((natRepr n).length > 1 ∧ (natRepr n).headD '0' = '0') := by
  by_cases h : n < 10
  · rw [natRepr_lt10 h]
    simp
  · intro ⟨_, hh⟩
    exact natRepr_head_ne_zero (by omega) hh

theorem takeDigits_break {rest : List Char} (h : noDigitHead rest) :
    takeDigits rest = ([], rest) := by
  cases rest with
  | nil => rfl
  | cons c cs => simp [takeDigits, show isDigitCh c = false from h]

theorem takeDigits_append {ds rest : List Char} (hds : ∀ c ∈ ds, isDigitCh c = true)
    (hrest : noDigitHead rest) : takeDigits (ds ++ rest) = (ds, rest) := by
  induction ds with
  | nil => exact takeDigits_break hrest
  | cons c cs ih =>
    have hc := hds c (by simp)
    simp only [List.cons_append, takeDigits, hc, if_pos, List.append_eq]
    rw [ih fun d hd => hds d (by simp [hd])]

theorem parseNumCore_int (neg : Bool) (M : Nat) {rest : List Char} (h : numBreak rest) :
    parseNumCore neg (natRepr M ++ rest) =
      some (.int (if neg then -(M : Int) else (M : Int)), rest) := by
  have hds := natRepr_digits M
  have hhead : ¬ (rest.headD ' ' = '.') := by
    cases rest with
    | nil => simp
    | cons c cs => exact fun hc => h.2.1 hc
  obtain ⟨d, ds, hcons⟩ := List.exists_cons_of_ne_nil (natRepr_ne_nil M)
  unfold parseNumCore
  rw [takeDigits_append hds (numBreak_noDigitHead h), hcons]
  simp only [← hcons, natRepr_guard M, if_neg, if_false, hhead, parseExpPart_break h,
    digitsVal_natRepr]

theorem parseNum_intRepr (n : Int) {rest : List Char} (h : numBreak rest) :
    parseNum (intRepr n ++ rest) = some (.int n, rest) := by
  have hne := natRepr_ne_nil n.natAbs
  by_cases hn : n < 0
  · have hrepr : intRepr n = '-' :: natRepr n.natAbs := by simp [intRepr, hn]
    rw [hrepr, List.cons_append]
    unfold parseNum
    simp only [List.headD_cons, List.tail_cons, reduceIte]
    rw [parseNumCore_int true n.natAbs h]
    simp only [Option.some.injEq, Prod.mk.injEq, Obj.int.injEq, and_true, if_pos]
    omega
  · have hrepr : intRepr n = natRepr n.natAbs := by simp [intRepr, hn]
    rw [hrepr]
    have hh : ¬ ((natRepr n.natAbs ++ rest).headD ' ' = '-') := by
      rw [headD_append_of_ne_nil hne]
      exact (digit_ne_chars (digit_headD hne (natRepr_digits n.natAbs) ' ')).1
    unfold parseNum
    rw [if_neg hh, parseNumCore_int false n.natAbs h]
    simp only [Option.some.injEq, Prod.mk.injEq, Obj.int.injEq, and_true,
      Bool.false_eq_true, if_false]
    omega

theorem natReprPad_digits (w k : Nat) : ∀ c ∈ natReprPad w k, isDigitCh c = true := by
  intro c hc
  unfold natReprPad at hc
  rcases List.mem_append.mp hc with h1 | h1
  · have : c = '0' := List.eq_of_mem_replicate h1
    subst this
    decide
  · exact natRepr_digits k c h1

theorem natReprPad_length {w k : Nat} (h : k < 10 ^ w) (hw : 1 ≤ w) :
    (natReprPad w k).length = w := by
  have hlen := natRepr_length_le h hw
  unfold natReprPad
  simp [List.length_append]
  omega

theorem natReprPad_ne_nil {w k : Nat} (h : k < 10 ^ w) (hw : 1 ≤ w) :
    natReprPad w k ≠ [] := by
  intro he
  have := natReprPad_length h hw
  rw [he] at this
  simp at this
  omega

theorem digitsVal_natReprPad (w k : Nat) : digitsVal (natReprPad w k) = k := by
  unfold natReprPad
  rw [digitsVal_append, digitsVal_replicate_zero, digitsVal_natRepr]
  simp

theorem stripZeros_nostrip {M e : Nat} (h : e = 0 ∨ ¬ M % 10 = 0) : stripZeros M e = (M, e) := by
  cases e with
  | zero => rfl
  | succ e' =>
    rcases h with h | h
    · omega
    · simp [stripZeros, h]

theorem stripZeros_mul10 (M e : Nat) : stripZeros (M * 10) (e + 1) = stripZeros M e := by
  have h : (M * 10) % 10 = 0 := by omega
  have h2 : (M * 10) / 10 = M := by omega
  simp [stripZeros, h, h2]

theorem parseNumCore_frac (neg : Bool) (I K w : Nat) (hK : K < 10 ^ w) (hw : 1 ≤ w)
    {rest : List Char} (h : numBreak rest) :
    parseNumCore neg (natRepr I ++ ('.' :: (natReprPad w K ++ rest))) =
      some (.float (mkFloat neg (I * 10 ^ w + K) w 0), rest) := by
  have hds := natRepr_digits I
  have htail : noDigitHead ('.' :: (natReprPad w K ++ rest)) := by
    show isDigitCh '.' = false
    decide
  obtain ⟨d, ds, hcons⟩ := List.exists_cons_of_ne_nil (natRepr_ne_nil I)
  obtain ⟨p0, prest, hp⟩ := List.exists_cons_of_ne_nil (natReprPad_ne_nil hK hw)
  unfold parseNumCore
  rw [takeDigits_append hds htail, hcons]
  simp only [← hcons, natRepr_guard I, if_neg, if_false, List.headD_cons, List.tail_cons,
    reduceIte]
  rw [takeDigits_append (natReprPad_digits w K) (numBreak_noDigitHead h), hp]
  simp only [← hp, parseExpPart_break h]
  rw [digitsVal_append, digitsVal_natRepr, digitsVal_natReprPad, natReprPad_length hK hw]

theorem parseNum_floatRepr (m : Int) (e : Nat) (hnorm : normF (.finite m e) = true)
    {rest : List Char} (h : numBreak rest) :
    parseNum (floatRepr (.finite m e) ++ rest) = some (.float (.finite m e), rest) := by
  cases e with
  | zero =>
    have hfr : floatRepr (.finite m 0) = intRepr m ++ ('.' :: natReprPad 1 0) := by
      show intRepr m ++ ['.', '0'] = _
      rfl
    have hkey : ∀ neg : Bool, mkFloat neg (m.natAbs * 10 ^ 1 + 0) 1 0 =
        .finite (if neg then -(m.natAbs : Int) else (m.natAbs : Int)) 0 := by
      intro neg
      unfold mkFloat
      have hsh : ¬ ((0 : Int) ≤ (0 : Int) - ((1 : Nat) : Int)) := by norm_num
      rw [if_neg hsh]
      have h1 : (-((0 : Int) - ((1 : Nat) : Int))).toNat = 1 := by norm_num
      rw [h1]
      have h2 : m.natAbs * 10 ^ 1 + 0 = m.natAbs * 10 := by ring
      rw [h2, stripZeros_mul10 m.natAbs 0]
      rfl
    by_cases hm : m < 0
    · have hrepr : intRepr m = '-' :: natRepr m.natAbs := by simp [intRepr, hm]
      rw [hfr, hrepr]
      simp only [List.append_assoc, List.cons_append]
      unfold parseNum
      simp only [List.headD_cons, List.tail_cons, reduceIte]
      rw [parseNumCore_frac true m.natAbs 0 1 (by omega) (by omega) h, hkey true]
      simp only [Option.some.injEq, Prod.mk.injEq, Obj.float.injEq, PFloat.finite.injEq,
        and_true, if_pos]
      omega
    · have hrepr : intRepr m = natRepr m.natAbs := by simp [intRepr, hm]
      have hne := natRepr_ne_nil m.natAbs
      rw [hfr, hrepr]
      simp only [List.append_assoc, List.cons_append]
      have hh : ¬ ((natRepr m.natAbs ++ ('.' :: (natReprPad 1 0 ++ rest))).headD ' ' = '-') := by
        rw [headD_append_of_ne_nil hne]
        exact (digit_ne_chars (digit_headD hne (natRepr_digits m.natAbs) ' ')).1
      unfold parseNum
      rw [if_neg hh]
      rw [parseNumCore_frac false m.natAbs 0 1 (by omega) (by omega) h, hkey false]
      simp only [Option.some.injEq, Prod.mk.injEq, Obj.float.injEq, PFloat.finite.injEq,
        and_true, Bool.false_eq_true, if_false]
      omega
  | succ e' =>
    have hMn : m.natAbs % 10 ≠ 0 := by
      simp only [normF] at hnorm
      rcases Bool.or_eq_true_iff.mp hnorm with h1 | h1
      · simp at h1
      · simpa using h1
    have hK : m.natAbs % 10 ^ (e' + 1) < 10 ^ (e' + 1) := Nat.mod_lt _ (by positivity)
    have hw : 1 ≤ e' + 1 := by omega
    have hfr : floatRepr (.finite m (e' + 1)) =
        (if m < 0 then ['-'] else []) ++
          (natRepr (m.natAbs / 10 ^ (e' + 1)) ++
            ('.' :: natReprPad (e' + 1) (m.natAbs % 10 ^ (e' + 1)))) := by
      simp [floatRepr]
    have hkey : ∀ neg : Bool,
        mkFloat neg (m.natAbs / 10 ^ (e' + 1) * 10 ^ (e' + 1) + m.natAbs % 10 ^ (e' + 1))
            (e' + 1) 0 =
          .finite (if neg then -(m.natAbs : Int) else (m.natAbs : Int)) (e' + 1) := by
      intro neg
      rw [Nat.div_add_mod']
      unfold mkFloat
      have hsh : ¬ ((0 : Int) ≤ (0 : Int) - (((e' + 1 : Nat)) : Int)) := by
        push_cast
        omega
      rw [if_neg hsh]
      have h1 : (-((0 : Int) - (((e' + 1 : Nat)) : Int))).toNat = e' + 1 := by
        push_cast
        omega
      rw [h1, stripZeros_nostrip (Or.inr hMn)]
    by_cases hm : m < 0
    · rw [hfr, if_pos hm]
      simp only [List.append_assoc, List.cons_append, List.singleton_append, List.nil_append]
      unfold parseNum
      simp only [List.headD_cons, List.tail_cons, reduceIte]
      rw [parseNumCore_frac true (m.natAbs / 10 ^ (e' + 1)) (m.natAbs % 10 ^ (e' + 1)) (e' + 1) hK hw h, hkey true]
      simp only [Option.some.injEq, Prod.mk.injEq, Obj.float.injEq, PFloat.finite.injEq,
        and_true, if_pos]
      omega
    · have hne := natRepr_ne_nil (m.natAbs / 10 ^ (e' + 1))
      rw [hfr, if_neg hm, List.nil_append]
      simp only [List.append_assoc, List.cons_append]
      have hh : ¬ ((natRepr (m.natAbs / 10 ^ (e' + 1)) ++
          ('.' :: (natReprPad (e' + 1) (m.natAbs % 10 ^ (e' + 1)) ++ rest))).headD ' ' = '-') := by
        rw [headD_append_of_ne_nil hne]
        exact (digit_ne_chars (digit_headD hne (natRepr_digits _) ' ')).1
      unfold parseNum
      rw [if_neg hh]
      rw [parseNumCore_frac false (m.natAbs / 10 ^ (e' + 1)) (m.natAbs % 10 ^ (e' + 1)) (e' + 1) hK hw h, hkey false]
      simp only [Option.some.injEq, Prod.mk.injEq, Obj.float.injEq, PFloat.finite.injEq,
        and_true, Bool.false_eq_true, if_false]
      omega

/-! ## String escaping -/

theorem hex4Val_parts {n : Nat} (h : n < 0x10000) :
    hex4Val (hexDigitChar (n / 4096 % 16)) (hexDigitChar (n / 256 % 16))
      (hexDigitChar (n / 16 % 16)) (hexDigitChar (n % 16)) = some n := by
  unfold hex4Val
  rw [hexVal_hexDigitChar (by omega), hexVal_hexDigitChar (by omega),
    hexVal_hexDigitChar (by omega), hexVal_hexDigitChar (by omega)]
  show some (n / 4096 % 16 * 4096 + n / 256 % 16 * 256 + n / 16 % 16 * 16 + n % 16) = some n
  congr 1
  omega

theorem hex4_eq (n : Nat) : hex4 n = [hexDigitChar (n / 4096 % 16), hexDigitChar (n / 256 % 16),
    hexDigitChar (n / 16 % 16), hexDigitChar (n % 16)] := rfl

theorem readHex4_hex4 {n : Nat} (hn : n < 0x10000) (t : List Char) :
    readHex4 (hex4 n ++ t) = some (n, t) := by
  rw [hex4_eq]
  show readHex4 (hexDigitChar (n / 4096 % 16) :: hexDigitChar (n / 256 % 16) ::
    hexDigitChar (n / 16 % 16) :: hexDigitChar (n % 16) :: t) = _
  simp only [readHex4, hex4Val_parts hn]

theorem readLowSurrogate_esc {lo : Nat} (hlo16 : lo < 0x10000)
    (hls : 0xdc00 ≤ lo ∧ lo ≤ 0xdfff) (t : List Char) :
    readLowSurrogate ('\\' :: 'u' :: (hex4 lo ++ t)) = some (lo, t) := by
  simp only [readLowSurrogate, readHex4_hex4 hlo16, hls.1, hls.2, and_self, reduceIte]

theorem parseStrBody_plain_step {c : Char} (h1 : c ≠ '"') (h2 : c ≠ '\\')
    (h3 : ¬ c.toNat < 0x20) (f : Nat) (t : List Char) :
    parseStrBody (f + 1) (c :: t) = (parseStrBody f t).map fun p => (c :: p.1, p.2) := by
  conv_lhs => rw [parseStrBody.eq_def]
  simp only [if_neg h1, if_neg h2, if_neg h3]

theorem parseStrBody_u_step {n : Nat} (hn : n < 0x10000)
    (hs1 : ¬ (0xd800 ≤ n ∧ n ≤ 0xdbff)) (hs2 : ¬ (0xdc00 ≤ n ∧ n ≤ 0xdfff))
    (f : Nat) (t : List Char) :
    parseStrBody (f + 1) ('\\' :: 'u' :: (hex4 n ++ t)) =
      (parseStrBody f t).map fun p => (Char.ofNat n :: p.1, p.2) := by
  conv_lhs => rw [parseStrBody.eq_def]
  simp only [reduceIte, readHex4_hex4 hn, if_neg hs1, if_neg hs2,
    show (('\\' : Char) = '"') = False by simp, if_false]

theorem parseStrBody_pair_step {hi lo : Nat} (hhi16 : hi < 0x10000) (hlo16 : lo < 0x10000)
    (hhs : 0xd800 ≤ hi ∧ hi ≤ 0xdbff) (hls : 0xdc00 ≤ lo ∧ lo ≤ 0xdfff)
    (f : Nat) (t : List Char) :
    parseStrBody (f + 1) ('\\' :: 'u' :: (hex4 hi ++ ('\\' :: 'u' :: (hex4 lo ++ t)))) =
      (parseStrBody f t).map fun p =>
        (Char.ofNat (0x10000 + (hi - 0xd800) * 0x400 + (lo - 0xdc00)) :: p.1, p.2) := by
  conv_lhs => rw [parseStrBody.eq_def]
  simp only [reduceIte, readHex4_hex4 hhi16, if_pos hhs,
    readLowSurrogate_esc hlo16 hls, show (('\\' : Char) = '"') = False by simp, if_false]

theorem parseStrBody_escStr : ∀ (cs : List Char) (rest : List Char) (f : Nat),
    cs.length < f →
    parseStrBody f (escStr cs ++ ('"' :: rest)) = some (cs, rest) := by
  intro cs
  induction cs with
  | nil =>
    intro rest f hf
    cases f with
    | zero => omega
    | succ f' =>
      show parseStrBody (f' + 1) ('"' :: rest) = some ([], rest)
      conv_lhs => rw [parseStrBody.eq_def]
      simp only [reduceIte]
  | cons c cs' ih =>
    intro rest f hf
    cases f with
    | zero => omega
    | succ f' =>
      have hih := ih rest f' (by simp at hf ⊢; omega)
      show parseStrBody (f' + 1) (escChar c ++ escStr cs' ++ ('"' :: rest)) = some (c :: cs', rest)
      have hvalid : c.toNat < 0xd800 ∨ (0xdfff < c.toNat ∧ c.toNat < 0x110000) := c.valid
      rw [List.append_assoc]
      by_cases h1 : c = '"'
      · subst h1
        rw [show escChar '"' = ['\\', '"'] from rfl, List.cons_append, List.cons_append,
          List.nil_append]
        conv_lhs => rw [parseStrBody.eq_def]
        simp only [reduceIte, escDecode, hih]
        rfl
      · by_cases h2 : c = '\\'
        · subst h2
          rw [show escChar '\\' = ['\\', '\\'] from rfl, List.cons_append, List.cons_append,
            List.nil_append]
          conv_lhs => rw [parseStrBody.eq_def]
          simp only [reduceIte, escDecode, hih]
          rfl
        · by_cases h3 : c = '\n'
          · subst h3
            rw [show escChar '\n' = ['\\', 'n'] from rfl, List.cons_append, List.cons_append,
              List.nil_append]
            conv_lhs => rw [parseStrBody.eq_def]
            simp only [reduceIte, escDecode, hih]
            rfl
          · by_cases h4 : c = '\t'
            · subst h4
              rw [show escChar '\t' = ['\\', 't'] from rfl, List.cons_append, List.cons_append,
                List.nil_append]
              conv_lhs => rw [parseStrBody.eq_def]
              simp only [reduceIte, escDecode, hih]
              rfl
            · by_cases h5 : c = '\r'
              · subst h5
                rw [show escChar '\r' = ['\\', 'r'] from rfl, List.cons_append, List.cons_append,
                  List.nil_append]
                conv_lhs => rw [parseStrBody.eq_def]
                simp only [reduceIte, escDecode, hih]
                rfl
              · by_cases h6 : c.toNat = 8
                · have hc : c = Char.ofNat 8 := by
                    apply char_eq_of_toNat_eq
                    rw [h6, toNat_ofNat_valid 8 (by left; omega)]
                  subst hc
                  rw [show escChar (Char.ofNat 8) = ['\\', 'b'] from rfl, List.cons_append,
                    List.cons_append, List.nil_append]
                  conv_lhs => rw [parseStrBody.eq_def]
                  simp only [reduceIte, escDecode, hih]
                  rfl
                · by_cases h7 : c.toNat = 12
                  · have hc : c = Char.ofNat 12 := by
                      apply char_eq_of_toNat_eq
                      rw [h7, toNat_ofNat_valid 12 (by left; omega)]
                    subst hc
                    rw [show escChar (Char.ofNat 12) = ['\\', 'f'] from rfl, List.cons_append,
                      List.cons_append, List.nil_append]
                    conv_lhs => rw [parseStrBody.eq_def]
                    simp only [reduceIte, escDecode, hih]
                    rfl
                  · by_cases h8 : c.toNat < 0x20 || 0x7e < c.toNat
                    · by_cases h9 : c.toNat < 0x10000
                      · have hesc : escChar c = '\\' :: 'u' :: hex4 c.toNat := by
                          unfold escChar
                          rw [if_neg h1, if_neg h2, if_neg h3, if_neg h4, if_neg h5,
                            if_neg h6, if_neg h7, if_pos h8, if_pos h9]
                        rw [hesc, List.cons_append, List.cons_append,
                          parseStrBody_u_step h9 (by omega) (by omega), hih]
                        simp [Char.ofNat_toNat]
                      · have hmod := Nat.mod_lt (c.toNat - 0x10000) (show 0 < 0x400 by omega)
                        have hdm := Nat.div_add_mod (c.toNat - 0x10000) 0x400
                        have hesc : escChar c =
                            ('\\' :: 'u' :: hex4 (0xd800 + (c.toNat - 0x10000) / 0x400)) ++
                              '\\' :: 'u' :: hex4 (0xdc00 + (c.toNat - 0x10000) % 0x400) := by
                          unfold escChar
                          rw [if_neg h1, if_neg h2, if_neg h3, if_neg h4, if_neg h5,
                            if_neg h6, if_neg h7, if_pos h8, if_neg h9]
                        rw [hesc]
                        simp only [List.cons_append, List.append_assoc]
                        rw [parseStrBody_pair_step (by omega) (by omega)
                          ⟨by omega, by omega⟩ ⟨by omega, by omega⟩, hih]
                        have hchar : Char.ofNat (0x10000 +
                            (0xd800 + (c.toNat - 0x10000) / 0x400 - 0xd800) * 0x400 +
                            (0xdc00 + (c.toNat - 0x10000) % 0x400 - 0xdc00)) = c := by
                          have harg : 0x10000 +
                              (0xd800 + (c.toNat - 0x10000) / 0x400 - 0xd800) * 0x400 +
                              (0xdc00 + (c.toNat - 0x10000) % 0x400 - 0xdc00) = c.toNat := by
                            omega
                          rw [harg, Char.ofNat_toNat]
                        rw [hchar]
                        rfl
                    · have hesc : escChar c = [c] := by
                        unfold escChar
                        rw [if_neg h1, if_neg h2, if_neg h3, if_neg h4, if_neg h5,
                          if_neg h6, if_neg h7, if_neg (by simpa using h8)]
                      rw [hesc, List.cons_append, List.nil_append]
                      have hctl : ¬ (c.toNat < 0x20) := by
                        simp only [Bool.or_eq_true, decide_eq_true_eq, not_or] at h8
                        omega
                      rw [parseStrBody_plain_step h1 h2 hctl, hih]
                      rfl

/-! ## Parser dispatch helpers -/

theorem stopChar_cases {c : Char} (h : stopChar c = true) :
    c = ' ' ∨ c = '\t' ∨ c = '\n' ∨ c = '\r' ∨ c = ',' ∨ c = ']' ∨ c = rbrace := by
  simp only [stopChar, isWsChar, Bool.or_eq_true, decide_eq_true_eq] at h
  tauto

theorem stopsNum_numBreak {rest : List Char} (h : stopsNum rest) : numBreak rest := by
  cases rest with
  | nil => trivial
  | cons c cs =>
    rcases stopChar_cases h with h' | h' | h' | h' | h' | h' | h' <;> subst h' <;>
      exact ⟨by decide, by decide, by decide, by decide⟩

theorem escStr_length_ge (cs : List Char) : cs.length ≤ (escStr cs).length := by
  induction cs with
  | nil => simp [escStr]
  | cons c cs' ih =>
    show (c :: cs').length ≤ (escChar c ++ escStr cs').length
    rw [List.length_append, List.length_cons]
    have h1 : 1 ≤ (escChar c).length := by
      unfold escChar
      split_ifs <;> simp [hex4_eq]
    omega

theorem nullifyList_eq_map (xs : List Obj) : nullifyList xs = xs.map nullify := by
  induction xs with
  | nil => rfl
  | cons x xs' ih => simp [nullifyList, ih]

theorem nullifyKVs_eq_map (kvs : List (String × Obj)) :
    nullifyKVs kvs = kvs.map fun kv => (kv.1, nullify kv.2) := by
  induction kvs with
  | nil => rfl
  | cons kv kvs' ih =>
    cases kv
    simp [nullifyKVs, ih]

theorem modeMap_list (mode : ConstMode) (xs : List Obj) :
    modeMap mode (.list xs) = .list (xs.map (modeMap mode)) := by
  cases mode with
  | coerce => simp [modeMap, nullify, nullifyList_eq_map]
  | pyDefault =>
    show Obj.list xs = .list (xs.map fun u => u)
    simp
  | reject =>
    show Obj.list xs = .list (xs.map fun u => u)
    simp

theorem modeMap_dict (mode : ConstMode) (kvs : List (String × Obj)) :
    modeMap mode (.dict kvs) = .dict (kvs.map fun kv => (kv.1, modeMap mode kv.2)) := by
  cases mode with
  | coerce => simp [modeMap, nullify, nullifyKVs_eq_map]
  | pyDefault =>
    show Obj.dict kvs = .dict (kvs.map fun kv => (kv.1, kv.2))
    simp
  | reject =>
    show Obj.dict kvs = .dict (kvs.map fun kv => (kv.1, kv.2))
    simp

theorem parseVal_fuel_zero (mode : ConstMode) (cs : List Char) :
    parseVal mode 0 cs = Option.none := rfl

theorem parseVal_ws (mode : ConstMode) (f : Nat) {ws : List Char}
    (h : ∀ c ∈ ws, isWsChar c = true) (cs : List Char) :
    parseVal mode f (ws ++ cs) = parseVal mode f cs := by
  cases f with
  | zero => rfl
  | succ f' =>
    simp only [parseVal, skipWs_append_ws h]

theorem dropLit_head_ne {p c : Char} (h : c ≠ p) (ps cs : List Char) :
    dropLit (p :: ps) (c :: cs) = Option.none := by
  simp [dropLit, h]

theorem data_null_eq : "null".data = ['n', 'u', 'l', 'l'] := rfl

theorem data_true_eq : "true".data = ['t', 'r', 'u', 'e'] := rfl

theorem data_false_eq : "false".data = ['f', 'a', 'l', 's', 'e'] := rfl

theorem data_nan_eq : "NaN".data = ['N', 'a', 'N'] := rfl

theorem data_inf_eq : "Infinity".data = ['I', 'n', 'f', 'i', 'n', 'i', 't', 'y'] := rfl

theorem data_ninf_eq : "-Infinity".data = ['-', 'I', 'n', 'f', 'i', 'n', 'i', 't', 'y'] := rfl

theorem parseVal_lit_null (mode : ConstMode) (f : Nat) (rest : List Char) :
    parseVal mode (f + 1) ("null".data ++ rest) = some (.none, rest) := by
  rw [data_null_eq]
  simp only [List.cons_append, List.nil_append]
  simp only [parseVal]
  rw [skipWs_cons_not_ws (by decide)]
  simp only [reduceIte, dropLit, data_null_eq]
  rw [if_neg (by decide : ¬('n' : Char) = lbrace), if_neg (by decide : ¬('n' : Char) = '['),
    if_neg (by decide : ¬('n' : Char) = '"')]

theorem parseVal_lit_true (mode : ConstMode) (f : Nat) (rest : List Char) :
    parseVal mode (f + 1) ("true".data ++ rest) = some (.bool true, rest) := by
  rw [data_true_eq]
  simp only [List.cons_append, List.nil_append]
  simp only [parseVal]
  rw [skipWs_cons_not_ws (by decide)]
  simp only [reduceIte, dropLit, data_null_eq, data_true_eq]
  rw [if_neg (by decide : ¬('t' : Char) = lbrace), if_neg (by decide : ¬('t' : Char) = '['),
    if_neg (by decide : ¬('t' : Char) = '"')]
  simp

theorem parseVal_lit_false (mode : ConstMode) (f : Nat) (rest : List Char) :
    parseVal mode (f + 1) ("false".data ++ rest) = some (.bool false, rest) := by
  rw [data_false_eq]
  simp only [List.cons_append, List.nil_append]
  simp only [parseVal]
  rw [skipWs_cons_not_ws (by decide)]
  simp only [reduceIte, dropLit, data_null_eq, data_true_eq, data_false_eq]
  rw [if_neg (by decide : ¬('f' : Char) = lbrace), if_neg (by decide : ¬('f' : Char) = '['),
    if_neg (by decide : ¬('f' : Char) = '"')]
  simp

theorem constResult_nan {mode : ConstMode} (hm : mode ≠ .reject) :
    constResult mode "NaN" = some (modeMap mode (.float .nan)) := by
  cases mode with
  | pyDefault => rfl
  | coerce => rfl
  | reject => exact absurd rfl hm

theorem constResult_inf {mode : ConstMode} (hm : mode ≠ .reject) :
    constResult mode "Infinity" = some (modeMap mode (.float .inf)) := by
  cases mode with
  | pyDefault => rfl
  | coerce => rfl
  | reject => exact absurd rfl hm

theorem constResult_ninf {mode : ConstMode} (hm : mode ≠ .reject) :
    constResult mode "-Infinity" = some (modeMap mode (.float .neginf)) := by
  cases mode with
  | pyDefault => rfl
  | coerce => rfl
  | reject => exact absurd rfl hm

theorem parseVal_lit_nan {mode : ConstMode} (hm : mode ≠ .reject) (f : Nat) (rest : List Char) :
    parseVal mode (f + 1) ("NaN".data ++ rest) = some (modeMap mode (.float .nan), rest) := by
  rw [data_nan_eq]
  simp only [List.cons_append, List.nil_append]
  simp only [parseVal]
  rw [skipWs_cons_not_ws (by decide)]
  simp only [reduceIte, dropLit, data_null_eq, data_true_eq, data_false_eq, data_nan_eq]
  rw [if_neg (by decide : ¬('N' : Char) = lbrace), if_neg (by decide : ¬('N' : Char) = '['),
    if_neg (by decide : ¬('N' : Char) = '"'), constResult_nan hm]
  rfl

theorem parseVal_lit_inf {mode : ConstMode} (hm : mode ≠ .reject) (f : Nat) (rest : List Char) :
    parseVal mode (f + 1) ("Infinity".data ++ rest) = some (modeMap mode (.float .inf), rest) := by
  rw [data_inf_eq]
  simp only [List.cons_append, List.nil_append]
  simp only [parseVal]
  rw [skipWs_cons_not_ws (by decide)]
  simp only [reduceIte, dropLit, data_null_eq, data_true_eq, data_false_eq, data_nan_eq,
    data_inf_eq]
  rw [if_neg (by decide : ¬('I' : Char) = lbrace), if_neg (by decide : ¬('I' : Char) = '['),
    if_neg (by decide : ¬('I' : Char) = '"'), constResult_inf hm]
  rfl

theorem parseVal_lit_ninf {mode : ConstMode} (hm : mode ≠ .reject) (f : Nat) (rest : List Char) :
    parseVal mode (f + 1) ("-Infinity".data ++ rest) =
      some (modeMap mode (.float .neginf), rest) := by
  rw [data_ninf_eq]
  simp only [List.cons_append, List.nil_append]
  simp only [parseVal]
  rw [skipWs_cons_not_ws (by decide)]
  simp only [reduceIte, dropLit, data_null_eq, data_true_eq, data_false_eq, data_nan_eq,
    data_inf_eq, data_ninf_eq]
  rw [if_neg (by decide : ¬('-' : Char) = lbrace), if_neg (by decide : ¬('-' : Char) = '['),
    if_neg (by decide : ¬('-' : Char) = '"'), constResult_ninf hm]
  rfl

theorem digit_not_special {c : Char} (h : isDigitCh c = true) :
    isWsChar c = false ∧ c ≠ lbrace ∧ c ≠ '[' ∧ c ≠ '"' ∧ c ≠ 'n' ∧ c ≠ 't' ∧ c ≠ 'f' ∧
      c ≠ 'N' ∧ c ≠ 'I' ∧ c ≠ '-' := by
  obtain ⟨h1, h2⟩ := isDigitCh_toNat h
  refine ⟨?_, ?_, ?_, ?_, ?_, ?_, ?_, ?_, ?_, ?_⟩
  · simp only [isWsChar, Bool.or_eq_false_iff, decide_eq_false_iff_not]
    refine ⟨⟨⟨?_, ?_⟩, ?_⟩, ?_⟩ <;> (intro he; subst he; revert h1 h2; decide)
  all_goals (intro he; subst he; revert h1 h2; decide)

theorem parseVal_digitHead (mode : ConstMode) (f : Nat) {c : Char} (hdig : isDigitCh c = true)
    (cs : List Char) :
    parseVal mode (f + 1) (c :: cs) = parseNum (c :: cs) := by
  obtain ⟨hws, hlb, hbr, hq, hn, ht, hf, hN, hI, hm⟩ := digit_not_special hdig
  simp only [parseVal]
  rw [skipWs_cons_not_ws hws]
  simp only [data_null_eq, data_true_eq, data_false_eq, data_nan_eq, data_inf_eq, data_ninf_eq]
  rw [if_neg hlb, if_neg hbr, if_neg hq, dropLit_head_ne hn, dropLit_head_ne ht,
    dropLit_head_ne hf, dropLit_head_ne hN, dropLit_head_ne hI, dropLit_head_ne hm]

theorem parseVal_minusDigit (mode : ConstMode) (f : Nat) {d : Char} (hdig : isDigitCh d = true)
    (cs : List Char) :
    parseVal mode (f + 1) ('-' :: d :: cs) = parseNum ('-' :: d :: cs) := by
  have hdI : d ≠ 'I' := (digit_not_special hdig).2.2.2.2.2.2.2.2.1
  simp only [parseVal]
  rw [skipWs_cons_not_ws (by decide)]
  simp only [data_null_eq, data_true_eq, data_false_eq, data_nan_eq, data_inf_eq, data_ninf_eq]
  rw [if_neg (by decide : ¬('-' : Char) = lbrace), if_neg (by decide : ¬('-' : Char) = '['),
    if_neg (by decide : ¬('-' : Char) = '"'), dropLit_head_ne (by decide),
    dropLit_head_ne (by decide), dropLit_head_ne (by decide), dropLit_head_ne (by decide),
    dropLit_head_ne (by decide)]
  rw [show dropLit ['-', 'I', 'n', 'f', 'i', 'n', 'i', 't', 'y'] ('-' :: d :: cs) =
      dropLit ['I', 'n', 'f', 'i', 'n', 'i', 't', 'y'] (d :: cs) from by simp [dropLit]]
  rw [dropLit_head_ne hdI]

theorem parseVal_by_shape (mode : ConstMode) (f : Nat) {input : List Char}
    (h : (∃ d ds, input = '-' :: d :: ds ∧ isDigitCh d = true) ∨
      (∃ d ds, input = d :: ds ∧ isDigitCh d = true)) :
    parseVal mode (f + 1) input = parseNum input := by
  rcases h with ⟨d, ds, he, hd⟩ | ⟨d, ds, he, hd⟩
  · rw [he]
    exact parseVal_minusDigit mode f hd ds
  · rw [he]
    exact parseVal_digitHead mode f hd ds

theorem digits_append_shape {l : List Char} (hne : l ≠ [])
    (hd : ∀ c ∈ l, isDigitCh c = true) (X : List Char) :
    ∃ d ds, l ++ X = d :: ds ∧ isDigitCh d = true := by
  cases l with
  | nil => exact absurd rfl hne
  | cons c cs => exact ⟨c, cs ++ X, rfl, hd c (by simp)⟩

theorem intRepr_append_shape (n : Int) (X : List Char) :
    (∃ d ds, intRepr n ++ X = '-' :: d :: ds ∧ isDigitCh d = true) ∨
      (∃ d ds, intRepr n ++ X = d :: ds ∧ isDigitCh d = true) := by
  by_cases hn : n < 0
  · left
    have : intRepr n = '-' :: natRepr n.natAbs := by simp [intRepr, hn]
    rw [this, List.cons_append]
    obtain ⟨d, ds, he, hd⟩ :=
      digits_append_shape (natRepr_ne_nil n.natAbs) (natRepr_digits n.natAbs) X
    exact ⟨d, ds, by rw [he], hd⟩
  · right
    have : intRepr n = natRepr n.natAbs := by simp [intRepr, hn]
    rw [this]
    exact digits_append_shape (natRepr_ne_nil n.natAbs) (natRepr_digits n.natAbs) X

theorem floatRepr_append_shape (m : Int) (e : Nat) (X : List Char) :
    (∃ d ds, floatRepr (.finite m e) ++ X = '-' :: d :: ds ∧ isDigitCh d = true) ∨
      (∃ d ds, floatRepr (.finite m e) ++ X = d :: ds ∧ isDigitCh d = true) := by
  cases e with
  | zero =>
    have hfr : floatRepr (.finite m 0) ++ X = intRepr m ++ ('.' :: '0' :: X) := by
      show (intRepr m ++ ['.', '0']) ++ X = _
      simp
    rw [hfr]
    exact intRepr_append_shape m ('.' :: '0' :: X)
  | succ e' =>
    by_cases hm : m < 0
    · left
      have hfr : floatRepr (.finite m (e' + 1)) ++ X =
          '-' :: (natRepr (m.natAbs / 10 ^ (e' + 1)) ++
            ('.' :: natReprPad (e' + 1) (m.natAbs % 10 ^ (e' + 1)) ++ X)) := by
        show ((if m < 0 then ['-'] else []) ++ _ ++ _) ++ X = _
        rw [if_pos hm]
        simp
      rw [hfr]
      obtain ⟨d, ds, he, hd⟩ := digits_append_shape (natRepr_ne_nil _) (natRepr_digits _)
        ('.' :: natReprPad (e' + 1) (m.natAbs % 10 ^ (e' + 1)) ++ X)
      exact ⟨d, ds, by rw [he], hd⟩
    · right
      have hfr : floatRepr (.finite m (e' + 1)) ++ X =
          natRepr (m.natAbs / 10 ^ (e' + 1)) ++
            ('.' :: natReprPad (e' + 1) (m.natAbs % 10 ^ (e' + 1)) ++ X) := by
        show ((if m < 0 then ['-'] else []) ++ _ ++ _) ++ X = _
        rw [if_neg hm]
        simp
      rw [hfr]
      exact digits_append_shape (natRepr_ne_nil _) (natRepr_digits _) _

theorem parseVal_intRepr (mode : ConstMode) (f : Nat) (n : Int) {rest : List Char}
    (h : stopsNum rest) :
    parseVal mode (f + 1) (intRepr n ++ rest) = some (.int n, rest) := by
  rw [parseVal_by_shape mode f (intRepr_append_shape n rest)]
  exact parseNum_intRepr n (stopsNum_numBreak h)

theorem parseVal_floatRepr (mode : ConstMode) (f : Nat) (m : Int) (e : Nat)
    (hnorm : normF (.finite m e) = true) {rest : List Char} (h : stopsNum rest) :
    parseVal mode (f + 1) (floatRepr (.finite m e) ++ rest) =
      some (.float (.finite m e), rest) := by
  rw [parseVal_by_shape mode f (floatRepr_append_shape m e rest)]
  exact parseNum_floatRepr m e hnorm (stopsNum_numBreak h)

theorem parseVal_quote (mode : ConstMode) (f : Nat) (s : String) (rest : List Char) :
    parseVal mode (f + 1) (quoteStr s ++ rest) = some (.str s, rest) := by
  have hq : quoteStr s ++ rest = '"' :: (escStr s.data ++ ('"' :: rest)) := by
    show ('"' :: (escStr s.data ++ ['"'])) ++ rest = _
    simp
  rw [hq]
  simp only [parseVal]
  rw [skipWs_cons_not_ws (by decide)]
  simp only [reduceIte]
  rw [if_neg (by decide : ¬('"' : Char) = lbrace), if_neg (by decide : ¬('"' : Char) = '[')]
  have hlen : s.data.length < (escStr s.data ++ ('"' :: rest)).length + 1 := by
    have := escStr_length_ge s.data
    rw [List.length_append]
    omega
  rw [parseStrBody_escStr s.data rest _ hlen]
  simp [strMkData]

/-! ## Head and region facts for the printed output -/

theorem jsize_pos (u : Obj) : 1 ≤ jsize u := by
  cases u <;> simp [jsize]
  all_goals omega

theorem digit_head_ok {c : Char} (h : isDigitCh c = true) :
    isWsChar c = false ∧ c ≠ ']' ∧ c ≠ rbrace := by
  obtain ⟨h1, h2⟩ := isDigitCh_toNat h
  refine ⟨?_, ?_, ?_⟩
  · by_contra hw
    rw [Bool.not_eq_false] at hw
    rcases (by simpa [isWsChar] using hw :
        ((c = ' ' ∨ c = '\t') ∨ c = '\n') ∨ c = '\r') with ((he | he) | he) | he <;>
      (subst he; revert h1; decide)
  · intro he
    subst he
    revert h2
    decide
  · intro he
    subst he
    revert h2
    decide

/-! ## Inversion of the printer's do-blocks -/

theorem exc_bind_ok {e a b : Type} (x : a) (f : a → Except e b) :
    (Except.ok x >>= f) = f x := rfl

theorem exc_bind_err {e a b : Type} (x : e) (f : a → Except e b) :
    ((Except.error x : Except e a) >>= f) = Except.error x := rfl

theorem printElems_cons_inv {pretty : Bool} {lvl : Nat} {y : Obj} {ys : List Obj}
    {tl : List Char} (h : printElems pretty lvl (y :: ys) = .ok tl) :
    ∃ oy ty, printVal pretty lvl y = .ok oy ∧ printElems pretty lvl ys = .ok ty ∧
      tl = itemSep pretty lvl ++ (oy ++ ty) := by
  cases hy : printVal pretty lvl y with
  | error e => simp [printElems, hy, exc_bind_ok, exc_bind_err] at h
  | ok oy =>
    cases hys : printElems pretty lvl ys with
    | error e => simp [printElems, hy, hys, exc_bind_ok, exc_bind_err] at h
    | ok ty =>
      refine ⟨oy, ty, rfl, rfl, ?_⟩
      have h2 := h
      simp [printElems, hy, hys, exc_bind_ok, exc_bind_err] at h2
      exact h2.symm

theorem printKVs_cons_inv {pretty : Bool} {lvl : Nat} {k : String} {v : Obj}
    {kvs : List (String × Obj)} {tl : List Char}
    (h : printKVs pretty lvl ((k, v) :: kvs) = .ok tl) :
    ∃ ov tv, printVal pretty lvl v = .ok ov ∧ printKVs pretty lvl kvs = .ok tv ∧
      tl = itemSep pretty lvl ++ (quoteStr k ++ (kvSep pretty ++ (ov ++ tv))) := by
  cases hv : printVal pretty lvl v with
  | error e => simp [printKVs, hv, exc_bind_ok, exc_bind_err] at h
  | ok ov =>
    cases hks : printKVs pretty lvl kvs with
    | error e => simp [printKVs, hv, hks, exc_bind_ok, exc_bind_err] at h
    | ok tv =>
      refine ⟨ov, tv, rfl, rfl, ?_⟩
      have h2 := h
      simp [printKVs, hv, hks, exc_bind_ok, exc_bind_err] at h2
      rw [← h2]

theorem printVal_list_cons_inv {pretty : Bool} {lvl : Nat} {x : Obj} {xs : List Obj}
    {out : List Char} (h : printVal pretty lvl (.list (x :: xs)) = .ok out) :
    ∃ ox tx, printVal pretty (lvl + 1) x = .ok ox ∧ printElems pretty (lvl + 1) xs = .ok tx ∧
      out = '[' :: (lead pretty (lvl + 1) ++ (ox ++ (tx ++ closeWith pretty lvl ']'))) := by
  cases hx : printVal pretty (lvl + 1) x with
  | error e => simp [printVal, hx, exc_bind_ok, exc_bind_err] at h
  | ok ox =>
    cases hxs : printElems pretty (lvl + 1) xs with
    | error e => simp [printVal, hx, hxs, exc_bind_ok, exc_bind_err] at h
    | ok tx =>
      refine ⟨ox, tx, rfl, rfl, ?_⟩
      have h2 := h
      simp [printVal, hx, hxs, exc_bind_ok, exc_bind_err] at h2
      exact h2.symm

theorem printVal_dict_cons_inv {pretty : Bool} {lvl : Nat} {k : String} {v : Obj}
    {kvs : List (String × Obj)} {out : List Char}
    (h : printVal pretty lvl (.dict ((k, v) :: kvs)) = .ok out) :
    ∃ ov tv, printVal pretty (lvl + 1) v = .ok ov ∧ printKVs pretty (lvl + 1) kvs = .ok tv ∧
      out = lbrace :: (lead pretty (lvl + 1) ++ (quoteStr k ++ (kvSep pretty ++ (ov ++
        (tv ++ closeWith pretty lvl rbrace))))) := by
  cases hv : printVal pretty (lvl + 1) v with
  | error e => simp [printVal, hv, exc_bind_ok, exc_bind_err] at h
  | ok ov =>
    cases hks : printKVs pretty (lvl + 1) kvs with
    | error e => simp [printVal, hv, hks, exc_bind_ok, exc_bind_err] at h
    | ok tv =>
      refine ⟨ov, tv, rfl, rfl, ?_⟩
      have h2 := h
      simp [printVal, hv, hks, exc_bind_ok, exc_bind_err] at h2
      exact h2.symm

theorem printVal_head (pretty : Bool) (lvl : Nat) (u : Obj) (out : List Char)
    (h : printVal pretty lvl u = .ok out) :
    ∃ c t, out = c :: t ∧ isWsChar c = false ∧ c ≠ ']' ∧ c ≠ rbrace := by
  cases u with
  | none =>
    have hout : out = "null".data := by simpa [printVal] using h.symm
    exact ⟨'n', "ull".data, by rw [hout], by decide, by decide, by decide⟩
  | bool b =>
    cases b with
    | false =>
      have hout : out = "false".data := by simpa [printVal] using h.symm
      exact ⟨'f', "alse".data, by rw [hout], by decide, by decide, by decide⟩
    | true =>
      have hout : out = "true".data := by simpa [printVal] using h.symm
      exact ⟨'t', "rue".data, by rw [hout], by decide, by decide, by decide⟩
  | int n =>
    have hout : out = intRepr n ++ [] := by simpa [printVal] using h.symm
    rcases intRepr_append_shape n [] with ⟨d, ds, he, _⟩ | ⟨d, ds, he, hd⟩
    · exact ⟨'-', d :: ds, by rw [hout, he], by decide, by decide, by decide⟩
    · obtain ⟨w1, w2, w3⟩ := digit_head_ok hd
      exact ⟨d, ds, by rw [hout, he], w1, w2, w3⟩
  | float x =>
    cases x with
    | nan =>
      have hout : out = "NaN".data := by simpa [printVal, floatRepr] using h.symm
      exact ⟨'N', "aN".data, by rw [hout], by decide, by decide, by decide⟩
    | inf =>
      have hout : out = "Infinity".data := by simpa [printVal, floatRepr] using h.symm
      exact ⟨'I', "nfinity".data, by rw [hout], by decide, by decide, by decide⟩
    | neginf =>
      have hout : out = "-Infinity".data := by simpa [printVal, floatRepr] using h.symm
      exact ⟨'-', "Infinity".data, by rw [hout], by decide, by decide, by decide⟩
    | finite m e =>
      have hout : out = floatRepr (.finite m e) ++ [] := by simpa [printVal] using h.symm
      rcases floatRepr_append_shape m e [] with ⟨d, ds, he, _⟩ | ⟨d, ds, he, hd⟩
      · exact ⟨'-', d :: ds, by rw [hout, he], by decide, by decide, by decide⟩
      · obtain ⟨w1, w2, w3⟩ := digit_head_ok hd
        exact ⟨d, ds, by rw [hout, he], w1, w2, w3⟩
  | str s =>
    have hout : out = quoteStr s := by simpa [printVal] using h.symm
    exact ⟨'"', escStr s.data ++ ['"'], by rw [hout]; rfl, by decide, by decide, by decide⟩
  | list xs =>
    cases xs with
    | nil =>
      have hout : out = ['[', ']'] := by simpa [printVal] using h.symm
      exact ⟨'[', [']'], by rw [hout], by decide, by decide, by decide⟩
    | cons x rest =>
      obtain ⟨ox, tx, _, _, hout⟩ := printVal_list_cons_inv h
      exact ⟨'[', _, hout, by decide, by decide, by decide⟩
  | dict kvs =>
    cases kvs with
    | nil =>
      have hout : out = [lbrace, rbrace] := by simpa [printVal] using h.symm
      exact ⟨lbrace, [rbrace], by rw [hout], by decide, by decide, by decide⟩
    | cons kv rest =>
      obtain ⟨k, v⟩ := kv
      obtain ⟨ov, tv, _, _, hout⟩ := printVal_dict_cons_inv h
      exact ⟨lbrace, _, hout, by decide, by decide, by decide⟩
  | plotly p => simp [printVal] at h
  | sageReal x => simp [printVal] at h
  | sageInt n => simp [printVal] at h
  | npMasked => simp [printVal] at h
  | ndarrayNum k xs => simp [printVal] at h
  | ndarrayM isos => simp [printVal] at h
  | ndarrayU ss => simp [printVal] at h
  | ndarrayO xs => simp [printVal] at h
  | npDatetime64 s => simp [printVal] at h
  | pdNaT => simp [printVal] at h
  | pdSeriesNum k xs => simp [printVal] at h
  | pdSeriesM isos => simp [printVal] at h
  | pdIndexM isos => simp [printVal] at h
  | pdTimestamp s => simp [printVal] at h
  | pydatetime s => simp [printVal] at h
  | pydate s => simp [printVal] at h
  | tolistObj p => simp [printVal] at h
  | pydecimal x => simp [printVal] at h
  | pilImage s => simp [printVal] at h
  | unknown n => simp [printVal] at h

theorem closeWith_eq (pretty : Bool) (lvl : Nat) (c : Char) :
    ∃ wsc, closeWith pretty lvl c = wsc ++ [c] ∧ ∀ d ∈ wsc, isWsChar d = true := by
  cases pretty with
  | false => exact ⟨[], rfl, by intro d hd; simp at hd⟩
  | true =>
    refine ⟨'\n' :: indentChars lvl, rfl, ?_⟩
    intro d hd
    rcases List.mem_cons.mp hd with he | he
    · simp [he, isWsChar]
    · exact indentChars_ws lvl d he

theorem itemSep_eq (pretty : Bool) (lvl : Nat) :
    ∃ wsi, itemSep pretty lvl = ',' :: wsi ∧ ∀ d ∈ wsi, isWsChar d = true := by
  cases pretty with
  | false => exact ⟨[], rfl, by intro d hd; simp at hd⟩
  | true =>
    refine ⟨'\n' :: indentChars lvl, rfl, ?_⟩
    intro d hd
    rcases List.mem_cons.mp hd with he | he
    · simp [he, isWsChar]
    · exact indentChars_ws lvl d he

theorem kvSep_eq (pretty : Bool) :
    ∃ wsk, kvSep pretty = ':' :: wsk ∧ ∀ d ∈ wsk, isWsChar d = true := by
  cases pretty with
  | false => exact ⟨[], rfl, by intro d hd; simp at hd⟩
  | true => exact ⟨[' '], rfl, by intro d hd; simp at hd; simp [hd, isWsChar]⟩

/-! ## The remainder after an element starts with a stop character -/

theorem stopsNum_regionL {pretty : Bool} {lvl : Nat} {xs : List Obj} {tl wsc rest : List Char}
    (htl : printElems pretty lvl xs = .ok tl)
    (hws : ∀ c ∈ wsc, isWsChar c = true) {c0 : Char} (hc0 : stopChar c0 = true) :
    stopsNum (tl ++ (wsc ++ (c0 :: rest))) := by
  cases xs with
  | nil =>
    have htl0 : tl = [] := by simpa [printElems] using htl.symm
    subst htl0
    rw [List.nil_append]
    cases wsc with
    | nil => simpa [stopsNum] using hc0
    | cons w ws2 =>
      have : stopChar w = true := by simp [stopChar, hws w (by simp)]
      simpa [stopsNum] using this
  | cons y ys =>
    obtain ⟨oy, ty, _, _, he⟩ := printElems_cons_inv htl
    obtain ⟨wsi, hsep, _⟩ := itemSep_eq pretty lvl
    subst he
    rw [hsep]
    simp only [List.cons_append, List.append_assoc]
    show stopChar ',' = true
    decide

theorem stopsNum_regionK {pretty : Bool} {lvl : Nat} {kvs : List (String × Obj)}
    {tl wsc rest : List Char} (htl : printKVs pretty lvl kvs = .ok tl)
    (hws : ∀ c ∈ wsc, isWsChar c = true) {c0 : Char} (hc0 : stopChar c0 = true) :
    stopsNum (tl ++ (wsc ++ (c0 :: rest))) := by
  cases kvs with
  | nil =>
    have htl0 : tl = [] := by simpa [printKVs] using htl.symm
    subst htl0
    rw [List.nil_append]
    cases wsc with
    | nil => simpa [stopsNum] using hc0
    | cons w ws2 =>
      have : stopChar w = true := by simp [stopChar, hws w (by simp)]
      simpa [stopsNum] using this
  | cons kv rest2 =>
    obtain ⟨k, v⟩ := kv
    obtain ⟨ov, tv, _, _, he⟩ := printKVs_cons_inv htl
    obtain ⟨wsi, hsep, _⟩ := itemSep_eq pretty lvl
    subst he
    rw [hsep]
    simp only [List.cons_append, List.append_assoc]
    show stopChar ',' = true
    decide

/-! ## Scalar values are fixed by the constant mode -/

theorem modeMap_none (mode : ConstMode) : modeMap mode .none = .none := by
  cases mode <;> rfl

theorem modeMap_bool (mode : ConstMode) (b : Bool) : modeMap mode (.bool b) = .bool b := by
  cases mode <;> rfl

theorem modeMap_int (mode : ConstMode) (n : Int) : modeMap mode (.int n) = .int n := by
  cases mode <;> rfl

theorem modeMap_str (mode : ConstMode) (s : String) : modeMap mode (.str s) = .str s := by
  cases mode <;> rfl

theorem modeMap_finite (mode : ConstMode) (m : Int) (e : Nat) :
    modeMap mode (.float (.finite m e)) = .float (.finite m e) := by
  cases mode <;> rfl
theorem lbrace_eq : lbrace = '\x7b' := rfl

theorem rbrace_eq : rbrace = '\x7d' := rfl

theorem parseItems_ws (mode : ConstMode) (g : Nat) {ws : List Char}
    (h : ∀ c ∈ ws, isWsChar c = true) (cs : List Char) :
    parseItems mode g (ws ++ cs) = parseItems mode g cs := by
  cases g with
  | zero => rfl
  | succ g' =>
    simp only [parseItems]
    rw [parseVal_ws mode g' h]

theorem hnfL_cons_false {x : Obj} {xs : List Obj} (h : hasNonFiniteL (x :: xs) = false) :
    hasNonFinite x = false ∧ hasNonFiniteL xs = false := by
  simpa [hasNonFiniteL, Bool.or_eq_false_iff] using h

theorem hnfK_cons_false {k : String} {v : Obj} {kvs : List (String × Obj)}
    (h : hasNonFiniteK ((k, v) :: kvs) = false) :
    hasNonFinite v = false ∧ hasNonFiniteK kvs = false := by
  simpa [hasNonFiniteK, Bool.or_eq_false_iff] using h

/-- Round trip at every parser fuel level: what `json.dumps` emitted,
`json.loads` parses back (with non-standard constants routed through the
active `ConstMode`). -/
theorem rt_all : ∀ f : Nat, RTVal f ∧ RTItems f ∧ RTMembers f := by
  intro f
  induction f using Nat.strong_induction_on with
  | _ f IH =>
    refine ⟨?_, ?_, ?_⟩
    · intro u mode pretty lvl out rest hm hp hn hf hs
      cases f with
      | zero =>
        have h1 := jsize_pos u
        omega
      | succ f' =>
      cases u with
      | none =>
        have hout : out = "null".data := by simpa [printVal] using hp.symm
        rw [hout, modeMap_none]
        exact parseVal_lit_null mode f' rest
      | bool b =>
        cases b with
        | false =>
          have hout : out = "false".data := by simpa [printVal] using hp.symm
          rw [hout, modeMap_bool]
          exact parseVal_lit_false mode f' rest
        | true =>
          have hout : out = "true".data := by simpa [printVal] using hp.symm
          rw [hout, modeMap_bool]
          exact parseVal_lit_true mode f' rest
      | int n =>
        have hout : out = intRepr n := by simpa [printVal] using hp.symm
        rw [hout, modeMap_int]
        exact parseVal_intRepr mode f' n hs
      | float x =>
        cases x with
        | nan =>
          have hout : out = "NaN".data := by simpa [printVal, floatRepr] using hp.symm
          have hm' : mode ≠ ConstMode.reject := by
            intro he
            have := hm he
            simp [hasNonFinite] at this
          rw [hout]
          exact parseVal_lit_nan hm' f' rest
        | inf =>
          have hout : out = "Infinity".data := by simpa [printVal, floatRepr] using hp.symm
          have hm' : mode ≠ ConstMode.reject := by
            intro he
            have := hm he
            simp [hasNonFinite] at this
          rw [hout]
          exact parseVal_lit_inf hm' f' rest
        | neginf =>
          have hout : out = "-Infinity".data := by simpa [printVal, floatRepr] using hp.symm
          have hm' : mode ≠ ConstMode.reject := by
            intro he
            have := hm he
            simp [hasNonFinite] at this
          rw [hout]
          exact parseVal_lit_ninf hm' f' rest
        | finite m e =>
          have hout : out = floatRepr (.finite m e) := by simpa [printVal] using hp.symm
          have hnf : normF (.finite m e) = true := by simpa [floatsNorm] using hn
          rw [hout, modeMap_finite]
          exact parseVal_floatRepr mode f' m e hnf hs
      | str s =>
        have hout : out = quoteStr s := by simpa [printVal] using hp.symm
        rw [hout, modeMap_str]
        exact parseVal_quote mode f' s rest
      | list xs =>
        cases xs with
        | nil =>
          have hout : out = ['[', ']'] := by simpa [printVal] using hp.symm
          rw [hout]
          simp only [List.cons_append, List.nil_append]
          simp only [parseVal]
          rw [skipWs_cons_not_ws (by decide)]
          simp only [reduceIte]
          rw [if_neg (by decide : ¬('[' : Char) = lbrace)]
          rw [skipWs_cons_not_ws (by decide)]
          simp [modeMap_list]
        | cons x xs2 =>
          obtain ⟨ox, tx, hox, htx, hout⟩ := printVal_list_cons_inv hp
          obtain ⟨c0, t0, hoxsh, hc0ws, hc0br, hc0rb⟩ := printVal_head _ _ _ _ hox
          obtain ⟨wsc, hclose, hwsc⟩ := closeWith_eq pretty lvl ']'
          have hnl : floatsNorm x = true ∧ floatsNormL xs2 = true := by
            simpa [floatsNorm, floatsNormL, Bool.and_eq_true] using hn
          have hfl : jsize x + jsizeL xs2 + 1 ≤ f' := by
            simp only [jsize, jsizeL] at hf
            omega
          have hitems := (IH f' (by omega)).2.1 x xs2 mode pretty (lvl + 1) ox tx wsc rest
            (fun he => (hnfL_cons_false (hm he)).1) (fun he => (hnfL_cons_false (hm he)).2)
            hox htx hnl.1 hnl.2 hfl hwsc hs
          rw [hout, hclose]
          simp only [List.cons_append, List.append_assoc, List.singleton_append,
            List.nil_append]
          simp only [parseVal]
          rw [skipWs_cons_not_ws (by decide)]
          simp only [reduceIte]
          rw [if_neg (by decide : ¬('[' : Char) = lbrace)]
          rw [skipWs_append_ws (lead_ws pretty (lvl + 1))]
          rw [hoxsh, List.cons_append, skipWs_cons_not_ws hc0ws]
          try simp only [reduceIte]
          rw [if_neg hc0br]
          rw [hoxsh, List.cons_append] at hitems
          try simp only [List.append_assoc] at hitems
          rw [hitems]
          simp [modeMap_list]
      | dict kvs =>
        cases kvs with
        | nil =>
          have hout : out = [lbrace, rbrace] := by simpa [printVal] using hp.symm
          rw [hout]
          simp only [List.cons_append, List.nil_append]
          simp only [parseVal]
          rw [lbrace_eq, rbrace_eq]
          rw [skipWs_cons_not_ws (by decide)]
          simp only [reduceIte]
          rw [skipWs_cons_not_ws (by decide)]
          simp only [reduceIte]
          have : modeMap mode (Obj.dict []) = Obj.dict [] := by
            rw [modeMap_dict]
            rfl
          rw [this]
        | cons kv kvs2 =>
          obtain ⟨k, v⟩ := kv
          obtain ⟨ov, tv, hov, htv, hout⟩ := printVal_dict_cons_inv hp
          obtain ⟨wsc, hclose, hwsc⟩ := closeWith_eq pretty lvl rbrace
          have hnl : floatsNorm v = true ∧ floatsNormK kvs2 = true := by
            simpa [floatsNorm, floatsNormK, Bool.and_eq_true] using hn
          have hfl : jsize v + jsizeK kvs2 + 1 ≤ f' := by
            simp only [jsize, jsizeK] at hf
            omega
          have hmem := (IH f' (by omega)).2.2 k v kvs2 mode pretty (lvl + 1) ov tv wsc rest
            (fun he => (@hnfK_cons_false k v kvs2 (hm he)).1)
            (fun he => (@hnfK_cons_false k v kvs2 (hm he)).2)
            hov htv hnl.1 hnl.2 hfl hwsc hs
          rw [hout, hclose]
          simp only [List.cons_append, List.append_assoc, List.singleton_append,
            List.nil_append]
          simp only [parseVal]
          rw [skipWs_cons_not_ws (by decide : isWsChar lbrace = false)]
          simp only [reduceIte]
          rw [skipWs_append_ws (lead_ws pretty (lvl + 1))]
          simp only [quoteStr, List.cons_append, List.append_assoc, List.singleton_append,
            List.nil_append]
          rw [skipWs_cons_not_ws (by decide)]
          simp only [reduceIte]
          rw [if_neg (by rw [rbrace_eq]; decide : ¬('"' : Char) = rbrace)]
          simp only [quoteStr, List.cons_append, List.append_assoc, List.singleton_append,
            List.nil_append] at hmem
          rw [hmem]
          simp [modeMap_dict]
      | plotly p => simp [printVal] at hp
      | sageReal x => simp [printVal] at hp
      | sageInt n => simp [printVal] at hp
      | npMasked => simp [printVal] at hp
      | ndarrayNum k xs => simp [printVal] at hp
      | ndarrayM isos => simp [printVal] at hp
      | ndarrayU ss => simp [printVal] at hp
      | ndarrayO xs => simp [printVal] at hp
      | npDatetime64 s => simp [printVal] at hp
      | pdNaT => simp [printVal] at hp
      | pdSeriesNum k xs => simp [printVal] at hp
      | pdSeriesM isos => simp [printVal] at hp
      | pdIndexM isos => simp [printVal] at hp
      | pdTimestamp s => simp [printVal] at hp
      | pydatetime s => simp [printVal] at hp
      | pydate s => simp [printVal] at hp
      | tolistObj p => simp [printVal] at hp
      | pydecimal x => simp [printVal] at hp
      | pilImage s => simp [printVal] at hp
      | unknown n => simp [printVal] at hp
    · intro x xs mode pretty lvl ox tl wsc rest hmx hmxs hox htl hnx hnxs hfuel hws hstop
      cases f with
      | zero => omega
      | succ g' =>
      cases xs with
      | nil =>
        have htl0 : tl = [] := by simpa [printElems] using htl.symm
        subst htl0
        have hpv := (IH g' (by omega)).1 x mode pretty lvl ox ([] ++ (wsc ++ (']' :: rest)))
          hmx hox hnx (by omega) (stopsNum_regionL htl hws (by decide))
        simp only [parseItems]
        rw [hpv]
        have hsk : skipWs ([] ++ (wsc ++ (']' :: rest))) = ']' :: rest := by
          rw [List.nil_append, skipWs_append_ws hws]
          exact skipWs_cons_not_ws (by decide) rest
        simp only [hsk]
        simp
      | cons y ys =>
        obtain ⟨oy, ty, hoy, hty, htl2⟩ := printElems_cons_inv htl
        obtain ⟨wsi, hsep, hwsi⟩ := itemSep_eq pretty lvl
        subst htl2
        have hnl : floatsNorm y = true ∧ floatsNormL ys = true := by
          simpa [floatsNormL, Bool.and_eq_true] using hnxs
        have hjx := jsize_pos x
        have hfl : jsize y + jsizeL ys + 1 ≤ g' := by
          simp only [jsizeL] at hfuel
          omega
        have hpv := (IH g' (by omega)).1 x mode pretty lvl ox
          ((itemSep pretty lvl ++ (oy ++ ty)) ++ (wsc ++ (']' :: rest)))
          hmx hox hnx (by omega) (stopsNum_regionL htl hws (by decide))
        have hrec := (IH g' (by omega)).2.1 y ys mode pretty lvl oy ty wsc rest
          (fun he => (hnfL_cons_false (hmxs he)).1) (fun he => (hnfL_cons_false (hmxs he)).2)
          hoy hty hnl.1 hnl.2 hfl hws hstop
        simp only [parseItems]
        rw [hpv]
        rw [hsep]
        simp only [List.cons_append, List.append_assoc]
        rw [skipWs_cons_not_ws (by decide)]
        simp only [reduceIte]
        rw [parseItems_ws mode g' hwsi]
        simp only [List.append_assoc] at hrec
        rw [hrec]
        simp
    · intro k v kvs mode pretty lvl ov tl wsc rest hmv hmkvs hov htl hnv hnkvs hfuel hws hstop
      cases f with
      | zero => omega
      | succ g' =>
      have hqk : quoteStr k ++ (kvSep pretty ++ (ov ++ (tl ++ (wsc ++ (rbrace :: rest))))) =
          '"' :: (escStr k.data ++ ('"' :: (kvSep pretty ++ (ov ++ (tl ++ (wsc ++
            (rbrace :: rest))))))) := by
        simp [quoteStr]
      rw [hqk]
      simp only [parseMembers]
      have hlen : k.data.length <
          (escStr k.data ++ ('"' :: (kvSep pretty ++ (ov ++ (tl ++ (wsc ++
            (rbrace :: rest))))))).length + 1 := by
        have := escStr_length_ge k.data
        rw [List.length_append]
        omega
      rw [parseStrBody_escStr k.data _ _ hlen]
      obtain ⟨wsk, hksep, hwsk⟩ := kvSep_eq pretty
      rw [hksep]
      simp only [List.cons_append, List.append_assoc]
      rw [skipWs_cons_not_ws (by decide)]
      simp only [reduceIte]
      have hpv := (IH g' (by omega)).1 v mode pretty lvl ov (tl ++ (wsc ++ (rbrace :: rest)))
        hmv hov hnv (by omega) (stopsNum_regionK htl hws (by rw [rbrace_eq]; decide))
      rw [parseVal_ws mode g' hwsk]
      rw [hpv]
      simp only [reduceIte]
      cases kvs with
      | nil =>
        have htl0 : tl = [] := by simpa [printKVs] using htl.symm
        subst htl0
        have hsk : skipWs ([] ++ (wsc ++ (rbrace :: rest))) = rbrace :: rest := by
          rw [List.nil_append, skipWs_append_ws hws]
          exact skipWs_cons_not_ws (by rw [rbrace_eq]; decide) rest
        rw [hsk]
        rw [rbrace_eq]
        try simp only [reduceIte]
        simp [strMkData]
        try rfl
      | cons kv2 kvs2 =>
        obtain ⟨k2, v2⟩ := kv2
        obtain ⟨ov2, tv2, hov2, htv2, htl2⟩ := printKVs_cons_inv htl
        obtain ⟨wsi, hsep, hwsi⟩ := itemSep_eq pretty lvl
        subst htl2
        have hnl : floatsNorm v2 = true ∧ floatsNormK kvs2 = true := by
          simpa [floatsNormK, Bool.and_eq_true] using hnkvs
        have hjv := jsize_pos v
        have hfl : jsize v2 + jsizeK kvs2 + 1 ≤ g' := by
          simp only [jsizeK] at hfuel
          omega
        have hrec := (IH g' (by omega)).2.2 k2 v2 kvs2 mode pretty lvl ov2 tv2 wsc rest
          (fun he => (@hnfK_cons_false k2 v2 kvs2 (hmkvs he)).1)
          (fun he => (@hnfK_cons_false k2 v2 kvs2 (hmkvs he)).2)
          hov2 htv2 hnl.1 hnl.2 hfl hws hstop
        rw [hsep]
        simp only [List.cons_append, List.append_assoc]
        rw [skipWs_cons_not_ws (by decide)]
        simp only [reduceIte]
        have hsk2 : skipWs (wsi ++ (quoteStr k2 ++ (kvSep pretty ++ (ov2 ++ (tv2 ++ (wsc ++
            (rbrace :: rest))))))) =
            quoteStr k2 ++ (kvSep pretty ++ (ov2 ++ (tv2 ++ (wsc ++ (rbrace :: rest))))) := by
          rw [skipWs_append_ws hwsi]
          simp only [quoteStr, List.cons_append, List.append_assoc, List.singleton_append]
          exact skipWs_cons_not_ws (by decide) _
        rw [hsk2]
        rw [hrec]
        simp [strMkData]

/-! ## The printed length bounds the parser fuel -/

mutual

theorem jlen_val : ∀ (u : Obj) (pretty : Bool) (lvl : Nat) (out : List Char),
    printVal pretty lvl u = .ok out → jsize u ≤ out.length + 1
  | .none => by intro pretty lvl out h; simp only [jsize]; omega
  | .bool b => by intro pretty lvl out h; simp only [jsize]; omega
  | .int n => by intro pretty lvl out h; simp only [jsize]; omega
  | .float x => by intro pretty lvl out h; simp only [jsize]; omega
  | .str s => by intro pretty lvl out h; simp only [jsize]; omega
  | .list [] => by
    intro pretty lvl out h
    have hout : out = ['[', ']'] := by simpa [printVal] using h.symm
    subst hout
    simp [jsize, jsizeL]
  | .list (x :: xs) => by
    intro pretty lvl out h
    obtain ⟨ox, tx, hox, htx, hout⟩ := printVal_list_cons_inv h
    have h1 := jlen_val x pretty (lvl + 1) ox hox
    have h2 := jlen_elems xs pretty (lvl + 1) tx htx
    have hcl : 1 ≤ (closeWith pretty lvl ']').length := by
      cases pretty <;> simp [closeWith, indentChars]
    subst hout
    simp only [jsize, jsizeL, List.length_cons, List.length_append]
    omega
  | .dict [] => by
    intro pretty lvl out h
    have hout : out = [lbrace, rbrace] := by simpa [printVal] using h.symm
    subst hout
    simp [jsize, jsizeK]
  | .dict ((k, v) :: kvs) => by
    intro pretty lvl out h
    obtain ⟨ov, tv, hov, htv, hout⟩ := printVal_dict_cons_inv h
    have h1 := jlen_val v pretty (lvl + 1) ov hov
    have h2 := jlen_kvs kvs pretty (lvl + 1) tv htv
    have hcl : 1 ≤ (closeWith pretty lvl rbrace).length := by
      cases pretty <;> simp [closeWith, indentChars]
    subst hout
    simp only [jsize, jsizeK, List.length_cons, List.length_append]
    omega
  | .plotly p => by intro pretty lvl out h; simp only [jsize]; omega
  | .sageReal x => by intro pretty lvl out h; simp only [jsize]; omega
  | .sageInt n => by intro pretty lvl out h; simp only [jsize]; omega
  | .npMasked => by intro pretty lvl out h; simp only [jsize]; omega
  | .ndarrayNum k xs => by intro pretty lvl out h; simp only [jsize]; omega
  | .ndarrayM isos => by intro pretty lvl out h; simp only [jsize]; omega
  | .ndarrayU ss => by intro pretty lvl out h; simp only [jsize]; omega
  | .ndarrayO xs => by intro pretty lvl out h; simp only [jsize]; omega
  | .npDatetime64 s => by intro pretty lvl out h; simp only [jsize]; omega
  | .pdNaT => by intro pretty lvl out h; simp only [jsize]; omega
  | .pdSeriesNum k xs => by intro pretty lvl out h; simp only [jsize]; omega
  | .pdSeriesM isos => by intro pretty lvl out h; simp only [jsize]; omega
  | .pdIndexM isos => by intro pretty lvl out h; simp only [jsize]; omega
  | .pdTimestamp s => by intro pretty lvl out h; simp only [jsize]; omega
  | .pydatetime s => by intro pretty lvl out h; simp only [jsize]; omega
  | .pydate s => by intro pretty lvl out h; simp only [jsize]; omega
  | .tolistObj p => by intro pretty lvl out h; simp only [jsize]; omega
  | .pydecimal x => by intro pretty lvl out h; simp only [jsize]; omega
  | .pilImage s => by intro pretty lvl out h; simp only [jsize]; omega
  | .unknown n => by intro pretty lvl out h; simp only [jsize]; omega

theorem jlen_elems : ∀ (xs : List Obj) (pretty : Bool) (lvl : Nat) (tl : List Char),
    printElems pretty lvl xs = .ok tl → jsizeL xs ≤ tl.length
  | [] => by
    intro pretty lvl tl h
    have htl : tl = [] := by simpa [printElems] using h.symm
    subst htl
    simp [jsizeL]
  | y :: ys => by
    intro pretty lvl tl h
    obtain ⟨oy, ty, hoy, hty, htl⟩ := printElems_cons_inv h
    have h1 := jlen_val y pretty lvl oy hoy
    have h2 := jlen_elems ys pretty lvl ty hty
    have hsep : 1 ≤ (itemSep pretty lvl).length := by
      cases pretty <;> simp [itemSep, indentChars]
    subst htl
    simp only [jsizeL, List.length_append]
    omega

theorem jlen_kvs : ∀ (kvs : List (String × Obj)) (pretty : Bool) (lvl : Nat) (tl : List Char),
    printKVs pretty lvl kvs = .ok tl → jsizeK kvs ≤ tl.length
  | [] => by
    intro pretty lvl tl h
    have htl : tl = [] := by simpa [printKVs] using h.symm
    subst htl
    simp [jsizeK]
  | (k, v) :: kvs => by
    intro pretty lvl tl h
    obtain ⟨ov, tv, hov, htv, htl⟩ := printKVs_cons_inv h
    have h1 := jlen_val v pretty lvl ov hov
    have h2 := jlen_kvs kvs pretty lvl tv htv
    have hsep : 1 ≤ (itemSep pretty lvl).length := by
      cases pretty <;> simp [itemSep, indentChars]
    subst htl
    simp only [jsizeK, List.length_append]
    omega

end

/-! ## `json.loads` inverts `json.dumps` -/

theorem json_loads_print {mode : ConstMode} {u : Obj} {pretty : Bool} {out : List Char}
    (hm : mode = .reject → hasNonFinite u = false)
    (hp : printVal pretty 0 u = .ok out) (hn : floatsNorm u = true) :
    json_loads mode (String.mk out) = some (modeMap mode u) := by
  have hrt := (rt_all (out.length + 1)).1 u mode pretty 0 out [] hm hp hn
    (jlen_val u pretty 0 out hp) trivial
  rw [List.append_nil] at hrt
  unfold json_loads
  have hd : (String.mk out).data = out := rfl
  rw [hd, hrt]
  simp [skipWs]

theorem json_loads_dumps {mode : ConstMode} {u : Obj} {pretty : Bool} {s : String}
    (hm : mode = .reject → hasNonFinite (sortDeep u) = false)
    (hd : dumps pretty u = .ok s) (hn : floatsNorm (sortDeep u) = true) :
    json_loads mode s = some (modeMap mode (sortDeep u)) := by
  cases hp : printVal pretty 0 (sortDeep u) with
  | error e => simp [dumps, hp, Except.map] at hd
  | ok out =>
    have hs : s = String.mk out := by simpa [dumps, hp, Except.map] using hd.symm
    subst hs
    exact json_loads_print hm hp hn

/-! ## The key order: totality, transitivity, antisymmetry -/

theorem charsLe_total (a b : List Char) : charsLe a b = true ∨ charsLe b a = true := by
  induction a generalizing b with
  | nil => left; rfl
  | cons x xs ih =>
    cases b with
    | nil => right; rfl
    | cons y ys =>
      by_cases h1 : x.toNat < y.toNat
      · left
        simp [charsLe, h1]
      · by_cases h2 : y.toNat < x.toNat
        · right
          simp [charsLe, h2]
        · rcases ih ys with h | h
          · left
            simp [charsLe, h1, h2, h]
          · right
            simp [charsLe, h1, h2, h]

theorem charsLe_trans : ∀ {a b c : List Char}, charsLe a b = true → charsLe b c = true →
    charsLe a c = true
  | [], _, _, _, _ => rfl
  | _ :: _, [], _, h1, _ => by simp [charsLe] at h1
  | _ :: _, _ :: _, [], _, h2 => by simp [charsLe] at h2
  | x :: xs, y :: ys, z :: zs, h1, h2 => by
    simp only [charsLe] at h1 h2 ⊢
    by_cases hxy : x.toNat < y.toNat
    · by_cases hyz : y.toNat < z.toNat
      · simp [show x.toNat < z.toNat by omega]
      · by_cases hzy : z.toNat < y.toNat
        · simp [hyz, hzy] at h2
        · simp [show x.toNat < z.toNat by omega]
    · by_cases hyx : y.toNat < x.toNat
      · simp [hxy, hyx] at h1
      · by_cases hyz : y.toNat < z.toNat
        · simp [show x.toNat < z.toNat by omega]
        · by_cases hzy : z.toNat < y.toNat
          · simp [hyz, hzy] at h2
          · have hxz : ¬x.toNat < z.toNat := by omega
            have hzx : ¬z.toNat < x.toNat := by omega
            simp only [if_neg hxz, if_neg hzx]
            simp only [if_neg hxy, if_neg hyx] at h1
            simp only [if_neg hyz, if_neg hzy] at h2
            exact charsLe_trans h1 h2

theorem charsLe_antisymm : ∀ {a b : List Char}, charsLe a b = true → charsLe b a = true → a = b
  | [], [], _, _ => rfl
  | [], _ :: _, _, h2 => by simp [charsLe] at h2
  | _ :: _, [], h1, _ => by simp [charsLe] at h1
  | x :: xs, y :: ys, h1, h2 => by
    simp only [charsLe] at h1 h2
    by_cases hxy : x.toNat < y.toNat
    · simp [hxy, show ¬y.toNat < x.toNat by omega] at h2
    · by_cases hyx : y.toNat < x.toNat
      · simp [hxy, hyx] at h1
      · simp only [if_neg hxy, if_neg hyx] at h1 h2
        have hx : x = y := char_eq_of_toNat_eq (by omega)
        rw [hx, charsLe_antisymm h1 h2]

theorem strLe_total (a b : String) : strLe a b = true ∨ strLe b a = true :=
  charsLe_total a.data b.data

theorem strLe_trans {a b c : String} (h1 : strLe a b = true) (h2 : strLe b c = true) :
    strLe a c = true :=
  charsLe_trans h1 h2

theorem strLe_antisymm {a b : String} (h1 : strLe a b = true) (h2 : strLe b a = true) :
    a = b := by
  cases a
  cases b
  exact congrArg String.mk (charsLe_antisymm h1 h2)

instance : IsTotal (String × Obj) (fun p q => strLe p.1 q.1 = true) :=
  ⟨fun p q => strLe_total p.1 q.1⟩

instance : IsTrans (String × Obj) (fun p q => strLe p.1 q.1 = true) :=
  ⟨fun _ _ _ => strLe_trans⟩

instance : IsTotal String (fun a b => strLe a b = true) := ⟨strLe_total⟩

instance : IsTrans String (fun a b => strLe a b = true) := ⟨fun _ _ _ => strLe_trans⟩

instance : IsAntisymm String (fun a b => strLe a b = true) := ⟨fun _ _ => strLe_antisymm⟩

/-! ## `insSortKVs` is Mathlib's insertion sort -/

theorem insertKV_eq_orderedInsert (p : String × Obj) (l : List (String × Obj)) :
    insertKV p l = List.orderedInsert (fun p q => strLe p.1 q.1 = true) p l := by
  induction l with
  | nil => rfl
  | cons q rest ih =>
    simp only [insertKV, List.orderedInsert]
    by_cases h : strLe p.1 q.1 = true
    · simp [h]
    · simp only [Bool.not_eq_true] at h
      simp [h, ih]

theorem insSortKVs_eq_insertionSort (l : List (String × Obj)) :
    insSortKVs l = List.insertionSort (fun p q => strLe p.1 q.1 = true) l := by
  induction l with
  | nil => rfl
  | cons p rest ih => simp only [insSortKVs, List.insertionSort, ih, insertKV_eq_orderedInsert]

theorem insSortKVs_sorted (l : List (String × Obj)) :
    (insSortKVs l).Sorted (fun p q => strLe p.1 q.1 = true) := by
  rw [insSortKVs_eq_insertionSort]
  exact List.sorted_insertionSort _ l

theorem insSortKVs_perm (l : List (String × Obj)) : (insSortKVs l).Perm l := by
  rw [insSortKVs_eq_insertionSort]
  exact List.perm_insertionSort _ l

theorem insSortKVs_idem (l : List (String × Obj)) : insSortKVs (insSortKVs l) = insSortKVs l := by
  rw [insSortKVs_eq_insertionSort (insSortKVs l)]
  exact (insSortKVs_sorted l).insertionSort_eq

/-! ## `sortDeep`, `nullify` and their interaction -/

theorem sortDeepList_eq_map (xs : List Obj) : sortDeepList xs = xs.map sortDeep := by
  induction xs with
  | nil => rfl
  | cons x xs ih => simp [sortDeepList, ih]

theorem sortDeepKVs_eq_map (kvs : List (String × Obj)) :
    sortDeepKVs kvs = kvs.map fun kv => (kv.1, sortDeep kv.2) := by
  induction kvs with
  | nil => rfl
  | cons kv kvs ih =>
    cases kv
    simp [sortDeepKVs, ih]

theorem insertKV_map_val (f : Obj → Obj) (p : String × Obj) (l : List (String × Obj)) :
    insertKV (p.1, f p.2) (l.map fun q => (q.1, f q.2)) =
      (insertKV p l).map fun q => (q.1, f q.2) := by
  induction l with
  | nil => rfl
  | cons q rest ih =>
    simp only [List.map_cons, insertKV]
    by_cases h : strLe p.1 q.1 = true
    · simp [h]
    · simp only [Bool.not_eq_true] at h
      simp [h, ih]

theorem insSortKVs_map_val (f : Obj → Obj) (l : List (String × Obj)) :
    insSortKVs (l.map fun q => (q.1, f q.2)) = (insSortKVs l).map fun q => (q.1, f q.2) := by
  induction l with
  | nil => rfl
  | cons p rest ih => simp only [List.map_cons, insSortKVs, ih, insertKV_map_val]

mutual

theorem sortDeep_nullify : ∀ u : Obj, sortDeep (nullify u) = nullify (sortDeep u)
  | .none => rfl
  | .bool b => rfl
  | .int n => rfl
  | .float .nan => rfl
  | .float .inf => rfl
  | .float .neginf => rfl
  | .float (.finite m e) => rfl
  | .str s => rfl
  | .list xs => by simp [nullify, sortDeep, sortDeepList_nullify xs]
  | .dict kvs => by
    simp only [nullify, sortDeep]
    rw [sortDeepKVs_nullify kvs]
    rw [nullifyKVs_eq_map, nullifyKVs_eq_map, insSortKVs_map_val]
  | .plotly p => rfl
  | .sageReal x => rfl
  | .sageInt n => rfl
  | .npMasked => rfl
  | .ndarrayNum k xs => rfl
  | .ndarrayM isos => rfl
  | .ndarrayU ss => rfl
  | .ndarrayO xs => rfl
  | .npDatetime64 s => rfl
  | .pdNaT => rfl
  | .pdSeriesNum k xs => rfl
  | .pdSeriesM isos => rfl
  | .pdIndexM isos => rfl
  | .pdTimestamp s => rfl
  | .pydatetime s => rfl
  | .pydate s => rfl
  | .tolistObj p => rfl
  | .pydecimal x => rfl
  | .pilImage s => rfl
  | .unknown n => rfl

theorem sortDeepList_nullify : ∀ xs : List Obj,
    sortDeepList (nullifyList xs) = nullifyList (sortDeepList xs)
  | [] => rfl
  | x :: xs => by
    simp [sortDeepList, nullifyList, sortDeep_nullify x, sortDeepList_nullify xs]

theorem sortDeepKVs_nullify : ∀ kvs : List (String × Obj),
    sortDeepKVs (nullifyKVs kvs) = nullifyKVs (sortDeepKVs kvs)
  | [] => rfl
  | (k, v) :: kvs => by
    simp [sortDeepKVs, nullifyKVs, sortDeep_nullify v, sortDeepKVs_nullify kvs]

end

mutual

theorem sortDeep_idem : ∀ u : Obj, sortDeep (sortDeep u) = sortDeep u
  | .none => rfl
  | .bool b => rfl
  | .int n => rfl
  | .float x => rfl
  | .str s => rfl
  | .list xs => by simp [sortDeep, sortDeepList_idem xs]
  | .dict kvs => by
    simp only [sortDeep]
    rw [sortDeepKVs_eq_map (insSortKVs (sortDeepKVs kvs)), ← insSortKVs_map_val,
      ← sortDeepKVs_eq_map, sortDeepKVs_idem kvs, insSortKVs_idem]
  | .plotly p => rfl
  | .sageReal x => rfl
  | .sageInt n => rfl
  | .npMasked => rfl
  | .ndarrayNum k xs => rfl
  | .ndarrayM isos => rfl
  | .ndarrayU ss => rfl
  | .ndarrayO xs => rfl
  | .npDatetime64 s => rfl
  | .pdNaT => rfl
  | .pdSeriesNum k xs => rfl
  | .pdSeriesM isos => rfl
  | .pdIndexM isos => rfl
  | .pdTimestamp s => rfl
  | .pydatetime s => rfl
  | .pydate s => rfl
  | .tolistObj p => rfl
  | .pydecimal x => rfl
  | .pilImage s => rfl
  | .unknown n => rfl

theorem sortDeepList_idem : ∀ xs : List Obj, sortDeepList (sortDeepList xs) = sortDeepList xs
  | [] => rfl
  | x :: xs => by simp [sortDeepList, sortDeep_idem x, sortDeepList_idem xs]

theorem sortDeepKVs_idem : ∀ kvs : List (String × Obj),
    sortDeepKVs (sortDeepKVs kvs) = sortDeepKVs kvs
  | [] => rfl
  | (k, v) :: kvs => by simp [sortDeepKVs, sortDeep_idem v, sortDeepKVs_idem kvs]

end

mutual

theorem hasNonFinite_nullify : ∀ u : Obj, hasNonFinite (nullify u) = false
  | .none => rfl
  | .bool b => rfl
  | .int n => rfl
  | .float .nan => rfl
  | .float .inf => rfl
  | .float .neginf => rfl
  | .float (.finite m e) => rfl
  | .str s => rfl
  | .list xs => by simp [nullify, hasNonFinite, hasNonFiniteL_nullify xs]
  | .dict kvs => by simp [nullify, hasNonFinite, hasNonFiniteK_nullify kvs]
  | .plotly p => rfl
  | .sageReal x => rfl
  | .sageInt n => rfl
  | .npMasked => rfl
  | .ndarrayNum k xs => rfl
  | .ndarrayM isos => rfl
  | .ndarrayU ss => rfl
  | .ndarrayO xs => rfl
  | .npDatetime64 s => rfl
  | .pdNaT => rfl
  | .pdSeriesNum k xs => rfl
  | .pdSeriesM isos => rfl
  | .pdIndexM isos => rfl
  | .pdTimestamp s => rfl
  | .pydatetime s => rfl
  | .pydate s => rfl
  | .tolistObj p => rfl
  | .pydecimal x => rfl
  | .pilImage s => rfl
  | .unknown n => rfl

theorem hasNonFiniteL_nullify : ∀ xs : List Obj, hasNonFiniteL (nullifyList xs) = false
  | [] => rfl
  | x :: xs => by
    simp [nullifyList, hasNonFiniteL, hasNonFinite_nullify x, hasNonFiniteL_nullify xs]

theorem hasNonFiniteK_nullify : ∀ kvs : List (String × Obj),
    hasNonFiniteK (nullifyKVs kvs) = false
  | [] => rfl
  | (k, v) :: kvs => by
    simp [nullifyKVs, hasNonFiniteK, hasNonFinite_nullify v, hasNonFiniteK_nullify kvs]

end

mutual

theorem nullify_id_of_finite : ∀ u : Obj, hasNonFinite u = false → nullify u = u
  | .none, _ => rfl
  | .bool b, _ => rfl
  | .int n, _ => rfl
  | .float .nan, h => by simp [hasNonFinite] at h
  | .float .inf, h => by simp [hasNonFinite] at h
  | .float .neginf, h => by simp [hasNonFinite] at h
  | .float (.finite m e), _ => rfl
  | .str s, _ => rfl
  | .list xs, h => by
    have := nullifyList_id_of_finite xs (by simpa [hasNonFinite] using h)
    simp [nullify, this]
  | .dict kvs, h => by
    have := nullifyKVs_id_of_finite kvs (by simpa [hasNonFinite] using h)
    simp [nullify, this]
  | .plotly p, _ => rfl
  | .sageReal x, _ => rfl
  | .sageInt n, _ => rfl
  | .npMasked, _ => rfl
  | .ndarrayNum k xs, _ => rfl
  | .ndarrayM isos, _ => rfl
  | .ndarrayU ss, _ => rfl
  | .ndarrayO xs, _ => rfl
  | .npDatetime64 s, _ => rfl
  | .pdNaT, _ => rfl
  | .pdSeriesNum k xs, _ => rfl
  | .pdSeriesM isos, _ => rfl
  | .pdIndexM isos, _ => rfl
  | .pdTimestamp s, _ => rfl
  | .pydatetime s, _ => rfl
  | .pydate s, _ => rfl
  | .tolistObj p, _ => rfl
  | .pydecimal x, _ => rfl
  | .pilImage s, _ => rfl
  | .unknown n, _ => rfl

theorem nullifyList_id_of_finite : ∀ xs : List Obj, hasNonFiniteL xs = false →
    nullifyList xs = xs
  | [], _ => rfl
  | x :: xs, h => by
    obtain ⟨h1, h2⟩ := hnfL_cons_false h
    simp [nullifyList, nullify_id_of_finite x h1, nullifyList_id_of_finite xs h2]

theorem nullifyKVs_id_of_finite : ∀ kvs : List (String × Obj), hasNonFiniteK kvs = false →
    nullifyKVs kvs = kvs
  | [], _ => rfl
  | (k, v) :: kvs, h => by
    obtain ⟨h1, h2⟩ := hnfK_cons_false h
    simp [nullifyKVs, nullify_id_of_finite v h1, nullifyKVs_id_of_finite kvs h2]

end

mutual

theorem floatsNorm_nullify : ∀ u : Obj, floatsNorm u = true → floatsNorm (nullify u) = true
  | .none, _ => rfl
  | .bool b, _ => rfl
  | .int n, _ => rfl
  | .float .nan, _ => rfl
  | .float .inf, _ => rfl
  | .float .neginf, _ => rfl
  | .float (.finite m e), h => h
  | .str s, _ => rfl
  | .list xs, h => by
    simpa [nullify, floatsNorm] using floatsNormL_nullify xs (by simpa [floatsNorm] using h)
  | .dict kvs, h => by
    simpa [nullify, floatsNorm] using floatsNormK_nullify kvs (by simpa [floatsNorm] using h)
  | .plotly p, h => h
  | .sageReal x, h => h
  | .sageInt n, _ => rfl
  | .npMasked, _ => rfl
  | .ndarrayNum k xs, h => h
  | .ndarrayM isos, _ => rfl
  | .ndarrayU ss, _ => rfl
  | .ndarrayO xs, h => h
  | .npDatetime64 s, _ => rfl
  | .pdNaT, _ => rfl
  | .pdSeriesNum k xs, h => h
  | .pdSeriesM isos, _ => rfl
  | .pdIndexM isos, _ => rfl
  | .pdTimestamp s, _ => rfl
  | .pydatetime s, _ => rfl
  | .pydate s, _ => rfl
  | .tolistObj p, h => h
  | .pydecimal x, h => h
  | .pilImage s, _ => rfl
  | .unknown n, _ => rfl

theorem floatsNormL_nullify : ∀ xs : List Obj, floatsNormL xs = true →
    floatsNormL (nullifyList xs) = true
  | [], _ => rfl
  | x :: xs, h => by
    simp only [floatsNormL, Bool.and_eq_true] at h
    simp [nullifyList, floatsNormL, floatsNorm_nullify x h.1, floatsNormL_nullify xs h.2]

theorem floatsNormK_nullify : ∀ kvs : List (String × Obj), floatsNormK kvs = true →
    floatsNormK (nullifyKVs kvs) = true
  | [], _ => rfl
  | (k, v) :: kvs, h => by
    simp only [floatsNormK, Bool.and_eq_true] at h
    simp [nullifyKVs, floatsNormK, floatsNorm_nullify v h.1, floatsNormK_nullify kvs h.2]

end

/-! ## Substring containment facts -/

theorem startsWithSeq_self_append : ∀ (pat rest : List Char),
    startsWithSeq pat (pat ++ rest) = true
  | [], _ => rfl
  | p :: ps, rest => by simp [startsWithSeq, startsWithSeq_self_append ps rest]

theorem startsWithSeq_append_right {pat l : List Char} (h : startsWithSeq pat l = true)
    (b : List Char) : startsWithSeq pat (l ++ b) = true := by
  induction pat generalizing l with
  | nil => rfl
  | cons p ps ih =>
    cases l with
    | nil => simp [startsWithSeq] at h
    | cons c cs =>
      simp only [startsWithSeq] at h ⊢
      by_cases hpc : p = c
      · simp only [if_pos hpc] at h ⊢
        exact ih h
      · simp [hpc] at h

theorem containsSeq_of_starts {pat l : List Char} (h : startsWithSeq pat l = true) :
    containsSeq pat l = true := by
  cases l with
  | nil => exact h
  | cons c cs => simp [containsSeq, h]

theorem containsSeq_append_left {pat l : List Char} (h : containsSeq pat l = true)
    (b : List Char) : containsSeq pat (l ++ b) = true := by
  induction l with
  | nil =>
    have : startsWithSeq pat [] = true := h
    exact containsSeq_of_starts (startsWithSeq_append_right this b)
  | cons c cs ih =>
    simp only [containsSeq] at h
    simp only [List.cons_append, containsSeq]
    by_cases hst : startsWithSeq pat (c :: cs) = true
    · have h2 := startsWithSeq_append_right hst b
      simp only [List.cons_append] at h2
      simp [h2]
    · simp only [hst, if_false] at h
      simp [ih h]

theorem containsSeq_append_right {pat l : List Char} (h : containsSeq pat l = true)
    (a : List Char) : containsSeq pat (a ++ l) = true := by
  induction a with
  | nil => exact h
  | cons c cs ih =>
    simp only [List.cons_append, containsSeq]
    split
    · rfl
    · exact ih

theorem containsSeq_embed {pat inner : List Char} (h : containsSeq pat inner = true)
    (a b : List Char) : containsSeq pat (a ++ (inner ++ b)) = true :=
  containsSeq_append_right (containsSeq_append_left h b) a

/-! ## A non-finite float leaves its token in the `json` backend's output -/

mutual

theorem tok_val : ∀ (u : Obj) (pretty : Bool) (lvl : Nat) (out : List Char),
    printVal pretty lvl u = .ok out → hasNonFinite u = true →
    (containsSeq "NaN".data out = true ∨ containsSeq "Infinity".data out = true)
  | .none => by intro _ _ _ _ hn; simp [hasNonFinite] at hn
  | .bool b => by intro _ _ _ _ hn; simp [hasNonFinite] at hn
  | .int n => by intro _ _ _ _ hn; simp [hasNonFinite] at hn
  | .float .nan => by
    intro pretty lvl out h _
    have hout : out = "NaN".data := by simpa [printVal, floatRepr] using h.symm
    subst hout
    left
    decide
  | .float .inf => by
    intro pretty lvl out h _
    have hout : out = "Infinity".data := by simpa [printVal, floatRepr] using h.symm
    subst hout
    right
    decide
  | .float .neginf => by
    intro pretty lvl out h _
    have hout : out = "-Infinity".data := by simpa [printVal, floatRepr] using h.symm
    subst hout
    right
    decide
  | .float (.finite m e) => by intro _ _ _ _ hn; simp [hasNonFinite] at hn
  | .str s => by intro _ _ _ _ hn; simp [hasNonFinite] at hn
  | .list xs => by
    intro pretty lvl out h hn
    cases xs with
    | nil => simp [hasNonFinite, hasNonFiniteL] at hn
    | cons x xs2 =>
      obtain ⟨ox, tx, hox, htx, hout⟩ := printVal_list_cons_inv h
      subst hout
      have hor : hasNonFinite x = true ∨ hasNonFiniteL xs2 = true := by
        simpa [hasNonFinite, hasNonFiniteL, Bool.or_eq_true] using hn
      rcases hor with hx | hxs
      · rcases tok_val x pretty (lvl + 1) ox hox hx with hc | hc
        · left
          exact containsSeq_append_right
            (containsSeq_embed hc (lead pretty (lvl + 1)) _) ['[']
        · right
          exact containsSeq_append_right
            (containsSeq_embed hc (lead pretty (lvl + 1)) _) ['[']
      · rcases tok_elems xs2 pretty (lvl + 1) tx htx hxs with hc | hc
        · left
          have : containsSeq "NaN".data
              (ox ++ (tx ++ closeWith pretty lvl ']')) = true :=
            containsSeq_append_right (containsSeq_append_left hc _) ox
          exact containsSeq_append_right
            (containsSeq_append_right this (lead pretty (lvl + 1))) ['[']
        · right
          have : containsSeq "Infinity".data
              (ox ++ (tx ++ closeWith pretty lvl ']')) = true :=
            containsSeq_append_right (containsSeq_append_left hc _) ox
          exact containsSeq_append_right
            (containsSeq_append_right this (lead pretty (lvl + 1))) ['[']
  | .dict kvs => by
    intro pretty lvl out h hn
    cases kvs with
    | nil => simp [hasNonFinite, hasNonFiniteK] at hn
    | cons kv kvs2 =>
      obtain ⟨k, v⟩ := kv
      obtain ⟨ov, tv, hov, htv, hout⟩ := printVal_dict_cons_inv h
      subst hout
      have hor : hasNonFinite v = true ∨ hasNonFiniteK kvs2 = true := by
        simpa [hasNonFinite, hasNonFiniteK, Bool.or_eq_true] using hn
      rcases hor with hv | hkvs
      · rcases tok_val v pretty (lvl + 1) ov hov hv with hc | hc
        · left
          have : containsSeq "NaN".data
              (kvSep pretty ++ (ov ++ (tv ++ closeWith pretty lvl rbrace))) = true :=
            containsSeq_append_right (containsSeq_append_left hc _) _
          exact containsSeq_append_right (containsSeq_append_right
            (containsSeq_append_right this (quoteStr k)) (lead pretty (lvl + 1))) [lbrace]
        · right
          have : containsSeq "Infinity".data
              (kvSep pretty ++ (ov ++ (tv ++ closeWith pretty lvl rbrace))) = true :=
            containsSeq_append_right (containsSeq_append_left hc _) _
          exact containsSeq_append_right (containsSeq_append_right
            (containsSeq_append_right this (quoteStr k)) (lead pretty (lvl + 1))) [lbrace]
      · rcases tok_kvs kvs2 pretty (lvl + 1) tv htv hkvs with hc | hc
        · left
          have : containsSeq "NaN".data
              (kvSep pretty ++ (ov ++ (tv ++ closeWith pretty lvl rbrace))) = true :=
            containsSeq_append_right
              (containsSeq_append_right (containsSeq_append_left hc _) ov) _
          exact containsSeq_append_right (containsSeq_append_right
            (containsSeq_append_right this (quoteStr k)) (lead pretty (lvl + 1))) [lbrace]
        · right
          have : containsSeq "Infinity".data
              (kvSep pretty ++ (ov ++ (tv ++ closeWith pretty lvl rbrace))) = true :=
            containsSeq_append_right
              (containsSeq_append_right (containsSeq_append_left hc _) ov) _
          exact containsSeq_append_right (containsSeq_append_right
            (containsSeq_append_right this (quoteStr k)) (lead pretty (lvl + 1))) [lbrace]
  | .plotly p => by intro _ _ _ _ hn; simp [hasNonFinite] at hn
  | .sageReal x => by intro _ _ _ _ hn; simp [hasNonFinite] at hn
  | .sageInt n => by intro _ _ _ _ hn; simp [hasNonFinite] at hn
  | .npMasked => by intro _ _ _ _ hn; simp [hasNonFinite] at hn
  | .ndarrayNum k xs => by intro _ _ _ _ hn; simp [hasNonFinite] at hn
  | .ndarrayM isos => by intro _ _ _ _ hn; simp [hasNonFinite] at hn
  | .ndarrayU ss => by intro _ _ _ _ hn; simp [hasNonFinite] at hn
  | .ndarrayO xs => by intro _ _ _ _ hn; simp [hasNonFinite] at hn
  | .npDatetime64 s => by intro _ _ _ _ hn; simp [hasNonFinite] at hn
  | .pdNaT => by intro _ _ _ _ hn; simp [hasNonFinite] at hn
  | .pdSeriesNum k xs => by intro _ _ _ _ hn; simp [hasNonFinite] at hn
  | .pdSeriesM isos => by intro _ _ _ _ hn; simp [hasNonFinite] at hn
  | .pdIndexM isos => by intro _ _ _ _ hn; simp [hasNonFinite] at hn
  | .pdTimestamp s => by intro _ _ _ _ hn; simp [hasNonFinite] at hn
  | .pydatetime s => by intro _ _ _ _ hn; simp [hasNonFinite] at hn
  | .pydate s => by intro _ _ _ _ hn; simp [hasNonFinite] at hn
  | .tolistObj p => by intro _ _ _ _ hn; simp [hasNonFinite] at hn
  | .pydecimal x => by intro _ _ _ _ hn; simp [hasNonFinite] at hn
  | .pilImage s => by intro _ _ _ _ hn; simp [hasNonFinite] at hn
  | .unknown n => by intro _ _ _ _ hn; simp [hasNonFinite] at hn

theorem tok_elems : ∀ (xs : List Obj) (pretty : Bool) (lvl : Nat) (tl : List Char),
    printElems pretty lvl xs = .ok tl → hasNonFiniteL xs = true →
    (containsSeq "NaN".data tl = true ∨ containsSeq "Infinity".data tl = true)
  | [] => by intro _ _ _ _ hn; simp [hasNonFiniteL] at hn
  | y :: ys => by
    intro pretty lvl tl h hn
    obtain ⟨oy, ty, hoy, hty, htl⟩ := printElems_cons_inv h
    subst htl
    have hor : hasNonFinite y = true ∨ hasNonFiniteL ys = true := by
      simpa [hasNonFiniteL, Bool.or_eq_true] using hn
    rcases hor with hy | hys
    · rcases tok_val y pretty lvl oy hoy hy with hc | hc
      · exact Or.inl (containsSeq_embed hc _ _)
      · exact Or.inr (containsSeq_embed hc _ _)
    · rcases tok_elems ys pretty lvl ty hty hys with hc | hc
      · exact Or.inl (containsSeq_append_right (containsSeq_append_right hc oy) _)
      · exact Or.inr (containsSeq_append_right (containsSeq_append_right hc oy) _)

theorem tok_kvs : ∀ (kvs : List (String × Obj)) (pretty : Bool) (lvl : Nat) (tl : List Char),
    printKVs pretty lvl kvs = .ok tl → hasNonFiniteK kvs = true →
    (containsSeq "NaN".data tl = true ∨ containsSeq "Infinity".data tl = true)
  | [] => by intro _ _ _ _ hn; simp [hasNonFiniteK] at hn
  | (k, v) :: kvs => by
    intro pretty lvl tl h hn
    obtain ⟨ov, tv, hov, htv, htl⟩ := printKVs_cons_inv h
    subst htl
    have hor : hasNonFinite v = true ∨ hasNonFiniteK kvs = true := by
      simpa [hasNonFiniteK, Bool.or_eq_true] using hn
    rcases hor with hv | hkvs
    · rcases tok_val v pretty lvl ov hov hv with hc | hc
      · refine Or.inl ?_
        exact containsSeq_append_right (containsSeq_append_right
          (containsSeq_append_right (containsSeq_append_left hc tv) _) (quoteStr k)) _
      · refine Or.inr ?_
        exact containsSeq_append_right (containsSeq_append_right
          (containsSeq_append_right (containsSeq_append_left hc tv) _) (quoteStr k)) _
    · rcases tok_kvs kvs pretty lvl tv htv hkvs with hc | hc
      · refine Or.inl ?_
        exact containsSeq_append_right (containsSeq_append_right
          (containsSeq_append_right (containsSeq_append_right hc ov) _) (quoteStr k)) _
      · refine Or.inr ?_
        exact containsSeq_append_right (containsSeq_append_right
          (containsSeq_append_right (containsSeq_append_right hc ov) _) (quoteStr k)) _

end

/-- If the serialized output carries no `NaN`/`Infinity` substring, the
serialized tree had no non-finite float. -/
theorem hnf_false_of_no_token {pretty : Bool} {u : Obj} {s : String}
    (hd : dumps pretty u = .ok s)
    (hguard : (strContains s "NaN" || strContains s "Infinity") = false) :
    hasNonFinite (sortDeep u) = false := by
  cases hp : printVal pretty 0 (sortDeep u) with
  | error e => simp [dumps, hp, Except.map] at hd
  | ok out =>
    have hs : s = String.mk out := by simpa [dumps, hp, Except.map] using hd.symm
    subst hs
    by_contra hnf
    rw [Bool.not_eq_false] at hnf
    rcases tok_val (sortDeep u) pretty 0 out hp hnf with hc | hc <;>
      simp [strContains, hc] at hguard

/-! ## Claim C1 -/

/-- C1: with the `"json"` engine and `pretty=false`, the mapping
`\x7b"a": 1, "b": float("nan")\x7d` encodes to exactly
`\x7b"a":1,"b":null\x7d`; and in general, whenever the `"json"` engine
returns an output, that output parses under the strict constant mode (no
bare `NaN`/`Infinity`/`-Infinity` token anywhere) to the cleaned,
key-sorted tree with every non-finite float replaced by `null`. -/
theorem claim_C1 :
    (_to_json_plotly ⟨false, false, false, false, false⟩
        (.dict [("a", .int 1), ("b", .float .nan)]) false (some "json") "auto" =
      .ok "\x7b\"a\":1,\"b\":null\x7d")
    ∧ ∀ (env : Env) (obj : Obj) (pretty : Bool) (dflt : String) (w : Obj) (s : String),
        clean_to_json_compatible obj
            { numpy_allowed := false, datetime_allowed := false,
              modules := some (theModules env) } = .ok w →
        floatsNorm (sortDeep w) = true →
        _to_json_plotly env obj pretty (some "json") dflt = .ok s →
        json_loads .reject s = some (nullify (sortDeep w)) := by
  constructor
  · rfl
  · intro env obj pretty dflt w s hclean hnorm henc
    have hres : resolveEngine env dflt (some "json") = .ok "json" := rfl
    unfold _to_json_plotly at henc
    rw [hres] at henc
    simp only [exc_bind_ok, reduceIte] at henc
    unfold jsonEngineEncode at henc
    rw [hclean] at henc
    simp only [Except.mapError, exc_bind_ok] at henc
    cases hdmp : dumps pretty w with
    | error e =>
      rw [hdmp] at henc
      simp [Except.mapError, exc_bind_err] at henc
    | ok enc =>
      rw [hdmp] at henc
      simp only [Except.mapError, exc_bind_ok] at henc
      by_cases hguard : (strContains enc "NaN" || strContains enc "Infinity") = false
      · have hnf := hnf_false_of_no_token hdmp hguard
        have hs : enc = s := by simpa [hguard] using henc
        subst hs
        have hload : json_loads .reject enc = some (modeMap .reject (sortDeep w)) :=
          json_loads_dumps (fun _ => hnf) hdmp hnorm
        rw [hload, nullify_id_of_finite _ hnf]
        rfl
      · rw [Bool.not_eq_false] at hguard
        simp only [hguard, Bool.not_true, Bool.false_eq_true, if_false] at henc
        have hcoerce : json_loads .coerce enc = some (nullify (sortDeep w)) := by
          have h2 : json_loads .coerce enc = some (modeMap .coerce (sortDeep w)) :=
            json_loads_dumps (fun h => ConstMode.noConfusion h) hdmp hnorm
          simpa [modeMap] using h2
        unfold strictRepair at henc
        rw [hcoerce] at henc
        simp only [reduceIte] at henc
        cases hdmp2 : dumps pretty (nullify (sortDeep w)) with
        | error e =>
          rw [hdmp2] at henc
          simp [Except.mapError] at henc
        | ok s2 =>
          rw [hdmp2] at henc
          simp only [Except.mapError] at henc
          have hs : s = s2 := by simpa using henc.symm
          rw [hs]
          have hsd : sortDeep (nullify (sortDeep w)) = nullify (sortDeep w) := by
            rw [sortDeep_nullify, sortDeep_idem]
          have hnf2 : hasNonFinite (sortDeep (nullify (sortDeep w))) = false := by
            rw [hsd]
            exact hasNonFinite_nullify _
          have hnorm2 : floatsNorm (sortDeep (nullify (sortDeep w))) = true := by
            rw [hsd]
            exact floatsNorm_nullify _ hnorm
          have h3 : json_loads .reject s2 =
              some (modeMap .reject (sortDeep (nullify (sortDeep w)))) :=
            json_loads_dumps (fun _ => hnf2) hdmp2 hnorm2
          rw [h3, hsd]
          rfl

/-- C1, exercised: the repaired output of the example round-trips under the
strict mode to the nullified tree. -/
theorem claim_C1_witness :
    json_loads .reject "\x7b\"a\":1,\"b\":null\x7d" =
      some (nullify (sortDeep (.dict [("a", .int 1), ("b", .float .nan)]))) :=
  claim_C1.2 ⟨false, false, false, false, false⟩
    (.dict [("a", .int 1), ("b", .float .nan)]) false "auto"
    (.dict [("a", .int 1), ("b", .float .nan)]) "\x7b\"a\":1,\"b\":null\x7d"
    rfl rfl rfl

/-! ## Totality of canonicalization under present adapter modules -/

theorem cleanLast_total (obj : Obj) (m : Modules) : ∃ v, cleanLast obj m = .ok v := by
  cases obj <;> simp [cleanLast, tolistOf]
  split <;> simp

theorem cleanDatetime_total (obj : Obj) (kw : CleanKwargs) (m : Modules) :
    ∃ v, cleanDatetime obj kw m = .ok v := by
  unfold cleanDatetime
  cases hd : kw.datetime_allowed <;> cases obj <;>
    simp [toPydatetime, isoformatOf, hd] <;>
    exact cleanLast_total _ m

theorem cleanTail_total (obj : Obj) (kw : CleanKwargs) (m : Modules)
    (hc : kw.numpy_allowed = true → m.pd = true → m.np = true) :
    ∃ v, cleanTail obj kw m = .ok v := by
  unfold cleanTail
  cases hp : m.pd
  · cases obj <;> exact cleanDatetime_total _ kw m
  · cases obj <;> try exact cleanDatetime_total _ kw m
    · exact ⟨_, rfl⟩
    · cases hna : kw.numpy_allowed
      · simp only [hna, Bool.false_eq_true, if_false]
        exact cleanDatetime_total _ kw m
      · simp only [hna, if_true, hc hna hp]
        exact ⟨_, rfl⟩
    · exact ⟨_, rfl⟩
    · exact ⟨_, rfl⟩

theorem cleanAtom_total (obj : Obj) (kw : CleanKwargs) (m : Modules)
    (hm : kw.modules = some m)
    (hc : kw.numpy_allowed = true → m.pd = true → m.np = true) :
    ∃ v, cleanAtom obj kw = .ok v := by
  unfold cleanAtom
  rw [hm]
  split
  next heq => exact Option.noConfusion heq
  next m2 heq =>
    obtain rfl : m = m2 := Option.some.inj heq
    split
    · exact ⟨_, rfl⟩
    · split
      · exact ⟨_, rfl⟩
      · cases hn : m.np
        · cases obj <;> exact cleanTail_total _ kw m hc
        · cases obj <;> try exact cleanTail_total _ kw m hc
          · exact ⟨_, rfl⟩
          · cases hna : kw.numpy_allowed
            · simp only [hna, Bool.false_eq_true, if_false]
              exact cleanTail_total _ kw m hc
            · simp only [hna, if_true]
              exact ⟨_, rfl⟩
          · exact ⟨_, rfl⟩
          · exact ⟨_, rfl⟩
          · exact ⟨_, rfl⟩

mutual

theorem clean_total : ∀ (obj : Obj) (kw : CleanKwargs) (m : Modules),
    kw.modules = some m → (kw.numpy_allowed = true → m.pd = true → m.np = true) →
    ∃ v, clean_to_json_compatible obj kw = .ok v
  | .none => fun kw m hm hc => cleanAtom_total _ kw m hm hc
  | .bool b => fun kw m hm hc => ⟨_, rfl⟩
  | .int n => fun kw m hm hc => ⟨_, rfl⟩
  | .float x => fun kw m hm hc => ⟨_, rfl⟩
  | .str s => fun kw m hm hc => ⟨_, rfl⟩
  | .list xs => fun kw m hm hc => by
    obtain ⟨vs, hvs⟩ := cleanList_total xs kw m hm hc
    exact ⟨.list vs, by simp [clean_to_json_compatible, hvs, Except.map]⟩
  | .dict kvs => fun kw m hm hc => by
    obtain ⟨vs, hvs⟩ := cleanDict_total kvs kw m hm hc
    exact ⟨.dict vs, by simp [clean_to_json_compatible, hvs, Except.map]⟩
  | .plotly p => fun kw m hm hc => by
    cases p with
    | list xs =>
      obtain ⟨vs, hvs⟩ := cleanList_total xs kw m hm hc
      exact ⟨.list vs, by simp [clean_to_json_compatible, hvs, Except.map]⟩
    | dict kvs =>
      obtain ⟨vs, hvs⟩ := cleanDict_total kvs kw m hm hc
      exact ⟨.dict vs, by simp [clean_to_json_compatible, hvs, Except.map]⟩
    | ndarrayO xs =>
      obtain ⟨vs, hvs⟩ := cleanList_total xs kw m hm hc
      cases hn : m.np
      · exact ⟨.list xs, by simp [clean_to_json_compatible, hm, hn]⟩
      · exact ⟨.list vs, by simp [clean_to_json_compatible, hm, hn, hvs, Except.map]⟩
    | none => exact cleanAtom_total _ kw m hm hc
    | bool b => exact cleanAtom_total _ kw m hm hc
    | int n => exact cleanAtom_total _ kw m hm hc
    | float x => exact cleanAtom_total _ kw m hm hc
    | str s => exact cleanAtom_total _ kw m hm hc
    | plotly q => exact cleanAtom_total _ kw m hm hc
    | sageReal x => exact cleanAtom_total _ kw m hm hc
    | sageInt n => exact cleanAtom_total _ kw m hm hc
    | npMasked => exact cleanAtom_total _ kw m hm hc
    | ndarrayNum k xs => exact cleanAtom_total _ kw m hm hc
    | ndarrayM isos => exact cleanAtom_total _ kw m hm hc
    | ndarrayU ss => exact cleanAtom_total _ kw m hm hc
    | npDatetime64 s => exact cleanAtom_total _ kw m hm hc
    | pdNaT => exact cleanAtom_total _ kw m hm hc
    | pdSeriesNum k xs => exact cleanAtom_total _ kw m hm hc
    | pdSeriesM isos => exact cleanAtom_total _ kw m hm hc
    | pdIndexM isos => exact cleanAtom_total _ kw m hm hc
    | pdTimestamp s => exact cleanAtom_total _ kw m hm hc
    | pydatetime s => exact cleanAtom_total _ kw m hm hc
    | pydate s => exact cleanAtom_total _ kw m hm hc
    | tolistObj q => exact cleanAtom_total _ kw m hm hc
    | pydecimal x => exact cleanAtom_total _ kw m hm hc
    | pilImage s => exact cleanAtom_total _ kw m hm hc
    | unknown k => exact cleanAtom_total _ kw m hm hc
  | .sageReal x => fun kw m hm hc => cleanAtom_total _ kw m hm hc
  | .sageInt n => fun kw m hm hc => cleanAtom_total _ kw m hm hc
  | .npMasked => fun kw m hm hc => cleanAtom_total _ kw m hm hc
  | .ndarrayNum k xs => fun kw m hm hc => cleanAtom_total _ kw m hm hc
  | .ndarrayM isos => fun kw m hm hc => cleanAtom_total _ kw m hm hc
  | .ndarrayU ss => fun kw m hm hc => cleanAtom_total _ kw m hm hc
  | .ndarrayO xs => fun kw m hm hc => by
    obtain ⟨vs, hvs⟩ := cleanList_total xs kw m hm hc
    cases hn : m.np
    · exact ⟨.list xs, by simp [clean_to_json_compatible, hm, hn]⟩
    · exact ⟨.list vs, by simp [clean_to_json_compatible, hm, hn, hvs, Except.map]⟩
  | .npDatetime64 s => fun kw m hm hc => cleanAtom_total _ kw m hm hc
  | .pdNaT => fun kw m hm hc => cleanAtom_total _ kw m hm hc
  | .pdSeriesNum k xs => fun kw m hm hc => cleanAtom_total _ kw m hm hc
  | .pdSeriesM isos => fun kw m hm hc => cleanAtom_total _ kw m hm hc
  | .pdIndexM isos => fun kw m hm hc => cleanAtom_total _ kw m hm hc
  | .pdTimestamp s => fun kw m hm hc => cleanAtom_total _ kw m hm hc
  | .pydatetime s => fun kw m hm hc => cleanAtom_total _ kw m hm hc
  | .pydate s => fun kw m hm hc => cleanAtom_total _ kw m hm hc
  | .tolistObj p => fun kw m hm hc => cleanAtom_total _ kw m hm hc
  | .pydecimal x => fun kw m hm hc => cleanAtom_total _ kw m hm hc
  | .pilImage s => fun kw m hm hc => cleanAtom_total _ kw m hm hc
  | .unknown n => fun kw m hm hc => cleanAtom_total _ kw m hm hc

theorem cleanList_total : ∀ (xs : List Obj) (kw : CleanKwargs) (m : Modules),
    kw.modules = some m → (kw.numpy_allowed = true → m.pd = true → m.np = true) →
    ∃ vs, cleanList xs kw = .ok vs
  | [] => fun kw m hm hc => ⟨[], rfl⟩
  | x :: rest => fun kw m hm hc => by
    obtain ⟨c, hcv⟩ := clean_total x kw m hm hc
    obtain ⟨cs, hcs⟩ := cleanList_total rest kw m hm hc
    exact ⟨c :: cs, by simp [cleanList, hcv, hcs, exc_bind_ok]⟩

theorem cleanDict_total : ∀ (kvs : List (String × Obj)) (kw : CleanKwargs) (m : Modules),
    kw.modules = some m → (kw.numpy_allowed = true → m.pd = true → m.np = true) →
    ∃ vs, cleanDict kvs kw = .ok vs
  | [] => fun kw m hm hc => ⟨[], rfl⟩
  | (k, v) :: rest => fun kw m hm hc => by
    obtain ⟨c, hcv⟩ := clean_total v kw m hm hc
    obtain ⟨cs, hcs⟩ := cleanDict_total rest kw m hm hc
    exact ⟨(k, c) :: cs, by simp [cleanDict, hcv, hcs, exc_bind_ok]⟩

end

theorem cleanAtom_unknown (n : Nat) (kw : CleanKwargs) (m : Modules)
    (hm : kw.modules = some m) : cleanAtom (.unknown n) kw = .ok (.unknown n) := by
  unfold cleanAtom
  rw [hm]
  simp only [rrMem, zzMem, Bool.and_false, Bool.false_eq_true, if_false]
  cases hn : m.np <;>
  · unfold cleanTail
    cases hp : m.pd <;>
    · unfold cleanDatetime
      cases hd : kw.datetime_allowed <;>
        simp [toPydatetime, isoformatOf, cleanLast, tolistOf, hd]

/-! ## Claim C3 -/

/-- C3, corrected: with the adapter-modules mapping actually supplied (it is
not at the default, where the `modules["sage_all"]` lookup raises
`KeyError`), and with numpy present whenever `numpy_allowed` routes a
numeric pandas series to `np.ascontiguousarray`, canonicalization is total,
and an item matching none of the recognized kinds is returned unchanged. -/
theorem claim_C3 :
    ∀ (obj : Obj) (kw : CleanKwargs) (m : Modules),
      kw.modules = some m →
      (kw.numpy_allowed = true → m.pd = true → m.np = true) →
      (∃ v, clean_to_json_compatible obj kw = .ok v)
      ∧ ∀ n : Nat, clean_to_json_compatible (.unknown n) kw = .ok (.unknown n) := by
  intro obj kw m hm hc
  refine ⟨clean_total obj kw m hm hc, fun n => ?_⟩
  show cleanAtom (.unknown n) kw = .ok (.unknown n)
  exact cleanAtom_unknown n kw m hm

/-- C3, refuted as stated: at the default keyword arguments (empty modules
dict) canonicalization of `None` raises `KeyError` from the
`modules["sage_all"]` lookup of line 561 instead of returning a value. -/
theorem claim_C3_cex :
    clean_to_json_compatible Obj.none {} = .error CleanErr.keyError := rfl

/-- C3, exercised at a concrete input: a numeric array with every adapter
module present canonicalizes, and the unrecognized kind passes through. -/
theorem claim_C3_witness :
    ({ numpy_allowed := true, datetime_allowed := true,
        modules := some ⟨true, true, true, true⟩ : CleanKwargs }.modules =
      some ⟨true, true, true, true⟩)
    ∧ (∃ v, clean_to_json_compatible (.ndarrayNum .i [.int 1, .int 2, .int 3])
        { numpy_allowed := true, datetime_allowed := true,
          modules := some ⟨true, true, true, true⟩ } = .ok v)
    ∧ ∀ n : Nat, clean_to_json_compatible (.unknown n)
        { numpy_allowed := true, datetime_allowed := true,
          modules := some ⟨true, true, true, true⟩ } = .ok (.unknown n) := by
  refine ⟨rfl, ?_, ?_⟩
  · exact (claim_C3 (.ndarrayNum .i [.int 1, .int 2, .int 3])
      { numpy_allowed := true, datetime_allowed := true,
        modules := some ⟨true, true, true, true⟩ } ⟨true, true, true, true⟩ rfl
      (fun _ _ => rfl)).1
  · exact (claim_C3 (.ndarrayNum .i [.int 1, .int 2, .int 3])
      { numpy_allowed := true, datetime_allowed := true,
        modules := some ⟨true, true, true, true⟩ } ⟨true, true, true, true⟩ rfl
      (fun _ _ => rfl)).2

/-! ## No engine branch raises the unsupported-engine error -/

theorem jsonEngineEncode_no_unsupported (env : Env) (pretty : Bool) (obj : Obj) :
    jsonEngineEncode env pretty obj ≠ .error .unsupportedEngine := by
  unfold jsonEngineEncode
  cases hc : clean_to_json_compatible obj
      { numpy_allowed := false, datetime_allowed := false,
        modules := some (theModules env) } with
  | error e => simp [hc, Except.mapError, exc_bind_err]
  | ok w =>
    simp only [hc, Except.mapError, exc_bind_ok]
    cases hd : dumps pretty w with
    | error e => simp [hd, Except.mapError, exc_bind_err]
    | ok enc =>
      simp only [hd, Except.mapError, exc_bind_ok]
      split
      · simp
      · unfold strictRepair
        cases hl : json_loads .coerce enc with
        | none => simp [hl]
        | some w2 =>
          simp only [hl]
          cases hd2 : dumps pretty w2 with
          | error e => simp [hd2, Except.mapError]
          | ok s2 => simp [hd2, Except.mapError]

theorem legacyEncode_no_unsupported (env : Env) (pretty : Bool) (obj : Obj) :
    PlotlyJSONEncoder_encode env pretty obj ≠ .error .unsupportedEngine := by
  unfold PlotlyJSONEncoder_encode
  cases hc : clean_to_json_compatible obj
      { numpy_allowed := false, datetime_allowed := false,
        modules := some (theModules env) } with
  | error e => simp [hc, Except.mapError, exc_bind_err]
  | ok w =>
    simp only [hc, Except.mapError, exc_bind_ok]
    cases hd : dumps pretty w with
    | error e => simp [hd, Except.mapError, exc_bind_err]
    | ok enc =>
      simp only [hd, Except.mapError, exc_bind_ok]
      split
      · simp
      · unfold strictRepair
        cases hl : json_loads .coerce enc with
        | none => simp [hl]
        | some w2 =>
          simp only [hl]
          cases hd2 : dumps pretty w2 with
          | error e => simp [hd2, Except.mapError]
          | ok s2 => simp [hd2, Except.mapError]

theorem orjsonEngineEncode_no_unsupported (env : Env) (pretty : Bool) (obj : Obj) :
    orjsonEngineEncode env pretty obj ≠ .error .unsupportedEngine := by
  unfold orjsonEngineEncode
  cases ho : env.orjson
  · simp [ho]
  · simp only [ho, Bool.not_true, Bool.false_eq_true, if_false]
    cases hr : orjson_dumps pretty (unwrapPlotly obj) with
    | ok s => simp [hr]
    | error e =>
      simp only [hr]
      cases hc : clean_to_json_compatible (unwrapPlotly obj)
          { numpy_allowed := true, datetime_allowed := true,
            modules := some (theModules env) } with
      | error e2 => simp [hc, Except.mapError, exc_bind_err]
      | ok w =>
        simp only [hc, Except.mapError, exc_bind_ok]
        cases hd : orjson_dumps pretty w with
        | error e3 => simp [hd, Except.mapError]
        | ok s => simp [hd, Except.mapError]

/-! ## Claim C5 -/

/-- C5: an engine token outside the four recognized ones makes both encode
and decode fail with the unsupported-engine error, and each of the four
recognized tokens never produces that error. -/
theorem claim_C5 :
    ∀ (env : Env) (tok dflt value : String) (v : Obj) (pretty : Bool),
      (tok ∉ JsonConfig_valid_engines →
        _to_json_plotly env v pretty (some tok) dflt = .error .unsupportedEngine ∧
        from_json_plotly env value (some tok) dflt = .error .unsupportedEngine)
      ∧ (tok ∈ JsonConfig_valid_engines →
        _to_json_plotly env v pretty (some tok) dflt ≠ .error .unsupportedEngine ∧
        from_json_plotly env value (some tok) dflt ≠ .error .unsupportedEngine) := by
  intro env tok dflt value v pretty
  constructor
  · intro hnot
    have h4 : ¬(tok = "legacy" ∨ tok = "json" ∨ tok = "orjson" ∨ tok = "auto") := by
      simpa [JsonConfig_valid_engines] using hnot
    push_neg at h4
    obtain ⟨h1, h2, h3, h0⟩ := h4
    have hres : resolveEngine env dflt (some tok) = .error .unsupportedEngine := by
      unfold resolveEngine
      simp [h0, h1, h2, h3]
    constructor
    · unfold _to_json_plotly
      rw [hres]
      simp [exc_bind_err]
    · unfold from_json_plotly
      rw [hres]
      simp [exc_bind_err]
  · intro hmem
    have h4 : tok = "legacy" ∨ tok = "json" ∨ tok = "orjson" ∨ tok = "auto" := by
      simpa [JsonConfig_valid_engines] using hmem
    rcases h4 with rfl | rfl | rfl | rfl
    · constructor
      · unfold _to_json_plotly resolveEngine
        simp only [exc_bind_ok, reduceIte, Option.getD]
        exact legacyEncode_no_unsupported env pretty v
      · unfold from_json_plotly resolveEngine
        simp only [exc_bind_ok, reduceIte, Option.getD]
        cases hl : json_loads .pyDefault value <;> simp [hl, exc_bind_ok]
    · constructor
      · unfold _to_json_plotly resolveEngine
        simp only [exc_bind_ok, reduceIte, Option.getD]
        exact jsonEngineEncode_no_unsupported env pretty v
      · unfold from_json_plotly resolveEngine
        simp only [exc_bind_ok, reduceIte, Option.getD]
        cases hl : json_loads .pyDefault value <;> simp [hl, exc_bind_ok]
    · constructor
      · unfold _to_json_plotly resolveEngine
        simp only [exc_bind_ok, reduceIte, Option.getD]
        exact orjsonEngineEncode_no_unsupported env pretty v
      · unfold from_json_plotly resolveEngine
        simp only [exc_bind_ok, reduceIte, Option.getD]
        cases ho : env.orjson
        · simp [ho, exc_bind_ok]
        · simp only [ho, Bool.not_true, Bool.false_eq_true, if_false]
          cases hl : json_loads .reject value <;> simp [hl, exc_bind_ok]
    · cases ho : env.orjson
      · constructor
        · unfold _to_json_plotly resolveEngine
          simp only [exc_bind_ok, reduceIte, Option.getD, ho]
          exact jsonEngineEncode_no_unsupported env pretty v
        · unfold from_json_plotly resolveEngine
          simp only [exc_bind_ok, reduceIte, Option.getD, ho]
          cases hl : json_loads .pyDefault value <;> simp [hl, exc_bind_ok]
      · constructor
        · unfold _to_json_plotly resolveEngine
          simp only [exc_bind_ok, reduceIte, Option.getD, ho]
          exact orjsonEngineEncode_no_unsupported env pretty v
        · unfold from_json_plotly resolveEngine
          simp only [exc_bind_ok, reduceIte, Option.getD, ho]
          cases hl : json_loads .reject value <;> simp [hl, ho, exc_bind_ok]

/-- C5, exercised: `engine="bogus"` fails with the unsupported-engine error
on both encode and decode. -/
theorem claim_C5_witness :
    _to_json_plotly ⟨false, false, false, false, false⟩ (.int 1) false (some "bogus") "auto" =
        .error .unsupportedEngine ∧
    from_json_plotly ⟨false, false, false, false, false⟩ "1" (some "bogus") "auto" =
        .error .unsupportedEngine :=
  (claim_C5 ⟨false, false, false, false, false⟩ "bogus" "auto" "1" (.int 1) false).1
    (by decide)

/-! ## Claim C6 -/

/-- C6: the `"auto"` selector resolves — against the modules found during
this very call — to `"orjson"` exactly when orjson is importable and to
`"json"` otherwise, for encode and decode alike; a later call with a
different availability environment resolves independently. -/
theorem claim_C6 :
    ∀ (env : Env) (v : Obj) (pretty : Bool) (dflt value : String),
      resolveEngine env dflt (some "auto") =
        .ok (if env.orjson then "orjson" else "json")
      ∧ _to_json_plotly env v pretty (some "auto") dflt =
          _to_json_plotly env v pretty (some (if env.orjson then "orjson" else "json")) dflt
      ∧ from_json_plotly env value (some "auto") dflt =
          from_json_plotly env value (some (if env.orjson then "orjson" else "json")) dflt := by
  intro env v pretty dflt value
  refine ⟨rfl, ?_, ?_⟩
  · cases ho : env.orjson <;>
      simp [_to_json_plotly, resolveEngine, ho, exc_bind_ok]
  · cases ho : env.orjson <;>
      simp [from_json_plotly, resolveEngine, ho, exc_bind_ok]

/-! ## Claim C4 -/

/-- C4: with the `"orjson"` engine present, encode first hands the raw,
unwrapped item to `orjson.dumps`; a direct success is returned untouched,
and only a direct failure enters the canonicalize-then-serialize path with
`numpy_allowed=True, datetime_allowed=True`. -/
theorem claim_C4 :
    ∀ (env : Env) (obj : Obj) (pretty : Bool) (dflt : String), env.orjson = true →
      (∀ s, orjson_dumps pretty (unwrapPlotly obj) = .ok s →
        _to_json_plotly env obj pretty (some "orjson") dflt = .ok s)
      ∧ ∀ e, orjson_dumps pretty (unwrapPlotly obj) = .error e →
        _to_json_plotly env obj pretty (some "orjson") dflt =
          ((clean_to_json_compatible (unwrapPlotly obj)
              { numpy_allowed := true, datetime_allowed := true,
                modules := some (theModules env) }).mapError PyErr.cleanFail >>=
            fun cleaned => (orjson_dumps pretty cleaned).mapError fun _ => PyErr.dumpFail) := by
  intro env obj pretty dflt ho
  have hred : _to_json_plotly env obj pretty (some "orjson") dflt =
      orjsonEngineEncode env pretty obj := by
    unfold _to_json_plotly resolveEngine
    simp [exc_bind_ok]
  constructor
  · intro s hs
    rw [hred]
    unfold orjsonEngineEncode
    simp [ho, hs]
  · intro e he
    rw [hred]
    unfold orjsonEngineEncode
    simp only [ho, Bool.not_true, Bool.false_eq_true, if_false, he]

/-- C4, exercised: a raw scalar succeeds directly under orjson and is
returned untouched. -/
theorem claim_C4_witness :
    _to_json_plotly ⟨true, false, false, false, false⟩ (.int 5) false (some "orjson") "auto" =
      .ok "5" :=
  (claim_C4 ⟨true, false, false, false, false⟩ (.int 5) false "auto" rfl).1 "5" rfl

/-! ## Claim C10 -/

/-- C10: the stored default engine starts as `"auto"`, stays inside the four
valid tokens across any assignment (an invalid assignment raises before the
store, leaving the old value), and assigning `"orjson"` without the orjson
package raises, likewise leaving the old value. -/
theorem claim_C10 :
    JsonConfig_init = "auto"
    ∧ JsonConfig_init ∈ JsonConfig_valid_engines
    ∧ (∀ (env : Env) (cur val : String), cur ∈ JsonConfig_valid_engines →
        JsonConfig_step env cur val ∈ JsonConfig_valid_engines)
    ∧ (∀ (env : Env) (cur val : String), val ∉ JsonConfig_valid_engines →
        JsonConfig_set_default_engine env val = .error .configInvalidEngine ∧
        JsonConfig_step env cur val = cur)
    ∧ (∀ (env : Env) (cur : String), env.orjson = false →
        JsonConfig_set_default_engine env "orjson" = .error .orjsonMissing ∧
        JsonConfig_step env cur "orjson" = cur) := by
  refine ⟨rfl, by decide, ?_, ?_, ?_⟩
  · intro env cur val hcur
    by_cases h1 : val ∈ JsonConfig_valid_engines
    · by_cases h2 : val = "orjson" ∧ !env.orjson
      · unfold JsonConfig_step JsonConfig_set_default_engine
        rw [if_neg (not_not_intro h1), if_pos h2]
        exact hcur
      · unfold JsonConfig_step JsonConfig_set_default_engine
        rw [if_neg (not_not_intro h1), if_neg h2]
        exact h1
    · unfold JsonConfig_step JsonConfig_set_default_engine
      rw [if_pos h1]
      exact hcur
  · intro env cur val hnot
    constructor
    · unfold JsonConfig_set_default_engine
      rw [if_pos hnot]
    · unfold JsonConfig_step JsonConfig_set_default_engine
      rw [if_pos hnot]
  · intro env cur ho
    constructor
    · unfold JsonConfig_set_default_engine
      rw [if_neg (by decide : ¬("orjson" ∉ JsonConfig_valid_engines))]
      rw [if_pos ⟨rfl, by simp [ho]⟩]
    · unfold JsonConfig_step JsonConfig_set_default_engine
      rw [if_neg (by decide : ¬("orjson" ∉ JsonConfig_valid_engines))]
      rw [if_pos ⟨rfl, by simp [ho]⟩]

/-- C10, exercised: one valid assignment moves the default inside the valid
set; a bogus or unavailable-orjson assignment leaves the default alone. -/
theorem claim_C10_witness :
    (JsonConfig_step ⟨false, false, false, false, false⟩ "auto" "json" ∈
      JsonConfig_valid_engines)
    ∧ JsonConfig_step ⟨false, false, false, false, false⟩ "auto" "bogus" = "auto"
    ∧ JsonConfig_step ⟨false, false, false, false, false⟩ "auto" "orjson" = "auto" :=
  ⟨claim_C10.2.2.1 ⟨false, false, false, false, false⟩ "auto" "json" (by decide),
    (claim_C10.2.2.2.1 ⟨false, false, false, false, false⟩ "auto" "bogus" (by decide)).2,
    (claim_C10.2.2.2.2 ⟨false, false, false, false, false⟩ "auto" rfl).2⟩

/-! ## Mapping-entry cleaning under permutation -/

theorem cleanDict_ok_elem {kvs : List (String × Obj)} {kw : CleanKwargs}
    {r : List (String × Obj)} (h : cleanDict kvs kw = .ok r) :
    ∀ p ∈ kvs, ∃ c, clean_to_json_compatible p.2 kw = .ok c := by
  induction kvs generalizing r with
  | nil => intro p hp; simp at hp
  | cons q rest ih =>
    obtain ⟨k, v⟩ := q
    intro p hp
    cases hv : clean_to_json_compatible v kw with
    | error e => simp [cleanDict, hv, exc_bind_err] at h
    | ok c =>
      cases hrest : cleanDict rest kw with
      | error e => simp [cleanDict, hv, hrest, exc_bind_ok, exc_bind_err] at h
      | ok cs =>
        rcases List.mem_cons.mp hp with he | hmem
        · subst he
          exact ⟨c, hv⟩
        · exact ih hrest p hmem

theorem cleanDict_ok_map {kvs : List (String × Obj)} {kw : CleanKwargs}
    {r : List (String × Obj)} (h : cleanDict kvs kw = .ok r) :
    r = kvs.map fun p => (p.1, cleanOrSelf p.2 kw) := by
  induction kvs generalizing r with
  | nil =>
    have : r = [] := by simpa [cleanDict] using h.symm
    simp [this]
  | cons q rest ih =>
    obtain ⟨k, v⟩ := q
    cases hv : clean_to_json_compatible v kw with
    | error e => simp [cleanDict, hv, exc_bind_err] at h
    | ok c =>
      cases hrest : cleanDict rest kw with
      | error e => simp [cleanDict, hv, hrest, exc_bind_ok, exc_bind_err] at h
      | ok cs =>
        have hr : r = (k, c) :: cs := by
          simpa [cleanDict, hv, hrest, exc_bind_ok] using h.symm
        rw [hr, List.map_cons, ← ih hrest]
        simp [cleanOrSelf, hv]

theorem cleanDict_ok_of_forall {kvs : List (String × Obj)} {kw : CleanKwargs}
    (h : ∀ p ∈ kvs, ∃ c, clean_to_json_compatible p.2 kw = .ok c) :
    cleanDict kvs kw = .ok (kvs.map fun p => (p.1, cleanOrSelf p.2 kw)) := by
  induction kvs with
  | nil => rfl
  | cons q rest ih =>
    obtain ⟨k, v⟩ := q
    obtain ⟨c, hc⟩ := h (k, v) (by simp)
    have hrest := ih fun p hp => h p (by simp [hp])
    simp [cleanDict, hc, hrest, exc_bind_ok, cleanOrSelf]

/-! ## Sorted mappings with distinct keys are determined by their contents -/

theorem sorted_nodupkeys_perm_eq : ∀ {l1 l2 : List (String × Obj)}, l1.Perm l2 →
    l1.Sorted (fun p q => strLe p.1 q.1 = true) →
    l2.Sorted (fun p q => strLe p.1 q.1 = true) →
    (l1.map Prod.fst).Nodup → l1 = l2
  | [], l2, hp, _, _, _ => hp.nil_eq
  | p :: t1, [], hp, _, _, _ => by cases hp.eq_nil
  | p :: t1, q :: t2, hp, hs1, hs2, hnd => by
    have hpq : p = q := by
      have hqmem : q ∈ p :: t1 := hp.mem_iff.mpr (by simp)
      have hpmem : p ∈ q :: t2 := hp.symm.mem_iff.mpr (by simp)
      rcases List.mem_cons.mp hqmem with he | hq1
      · exact he.symm
      rcases List.mem_cons.mp hpmem with he | hp2
      · exact he
      have h1 : strLe p.1 q.1 = true := List.rel_of_sorted_cons hs1 q hq1
      have h2 : strLe q.1 p.1 = true := List.rel_of_sorted_cons hs2 p hp2
      have hkey : p.1 = q.1 := strLe_antisymm h1 h2
      exfalso
      have hnd2 : ((q :: t2).map Prod.fst).Nodup := (hp.map Prod.fst).nodup_iff.mp hnd
      have hmem2 : p.1 ∈ t2.map Prod.fst := List.mem_map_of_mem Prod.fst hp2
      rw [hkey] at hmem2
      exact (List.nodup_cons.mp (by simpa using hnd2)).1 hmem2
    subst hpq
    have ht : t1.Perm t2 := hp.cons_inv
    have hnd1 : (t1.map Prod.fst).Nodup := (List.nodup_cons.mp (by simpa using hnd)).2
    rw [sorted_nodupkeys_perm_eq ht hs1.of_cons hs2.of_cons hnd1]

theorem insSortKVs_perm_eq {l1 l2 : List (String × Obj)} (hp : l1.Perm l2)
    (hnd : (l1.map Prod.fst).Nodup) : insSortKVs l1 = insSortKVs l2 := by
  have hperm : (insSortKVs l1).Perm (insSortKVs l2) :=
    (insSortKVs_perm l1).trans (hp.trans (insSortKVs_perm l2).symm)
  have hnd1 : ((insSortKVs l1).map Prod.fst).Nodup :=
    ((insSortKVs_perm l1).map Prod.fst).nodup_iff.mpr hnd
  exact sorted_nodupkeys_perm_eq hperm (insSortKVs_sorted l1) (insSortKVs_sorted l2) hnd1

theorem dict_sort_perm_eq {kvs1 kvs2 : List (String × Obj)} (hp : kvs1.Perm kvs2)
    (hnd : (kvs1.map Prod.fst).Nodup) :
    sortDeep (.dict kvs1) = sortDeep (.dict kvs2) := by
  simp only [sortDeep]
  rw [sortDeepKVs_eq_map, sortDeepKVs_eq_map]
  refine congrArg Obj.dict (insSortKVs_perm_eq (hp.map _) ?_)
  have : ((kvs1.map fun kv => (kv.1, sortDeep kv.2)).map Prod.fst) = kvs1.map Prod.fst := by
    rw [List.map_map]
    rfl
  rw [this]
  exact hnd

theorem clean_dict_eq (kvs : List (String × Obj)) (kw : CleanKwargs) :
    clean_to_json_compatible (.dict kvs) kw = (cleanDict kvs kw).map .dict := rfl

theorem map_fst_of_valmap (kvs : List (String × Obj)) (f : Obj → Obj) :
    ((kvs.map fun p => (p.1, f p.2)).map Prod.fst) = kvs.map Prod.fst := by
  rw [List.map_map]
  rfl

theorem jsonEncode_dict_perm {env : Env} {pretty : Bool}
    {kvs1 kvs2 : List (String × Obj)} {s : String}
    (hp : kvs1.Perm kvs2) (hnd : (kvs1.map Prod.fst).Nodup)
    (h : jsonEngineEncode env pretty (.dict kvs1) = .ok s) :
    jsonEngineEncode env pretty (.dict kvs2) = .ok s := by
  unfold jsonEngineEncode at h ⊢
  rw [clean_dict_eq] at h ⊢
  cases hc1 : cleanDict kvs1
      { numpy_allowed := false, datetime_allowed := false,
        modules := some (theModules env) } with
  | error e =>
    rw [hc1] at h
    simp [Except.map, Except.mapError, exc_bind_err] at h
  | ok r1 =>
    rw [hc1] at h
    simp only [Except.map, Except.mapError, exc_bind_ok] at h
    have hforall2 : ∀ p ∈ kvs2, ∃ c, clean_to_json_compatible p.2
        { numpy_allowed := false, datetime_allowed := false,
          modules := some (theModules env) } = .ok c :=
      fun p hp2 => cleanDict_ok_elem hc1 p (hp.mem_iff.mpr hp2)
    rw [cleanDict_ok_of_forall hforall2]
    simp only [Except.map, Except.mapError, exc_bind_ok]
    have hdeq : dumps pretty (.dict (kvs2.map fun p => (p.1, cleanOrSelf p.2
        { numpy_allowed := false, datetime_allowed := false,
          modules := some (theModules env) }))) = dumps pretty (.dict r1) := by
      rw [cleanDict_ok_map hc1]
      unfold dumps
      rw [dict_sort_perm_eq ((hp.map _).symm) (by
        rw [map_fst_of_valmap kvs2 (fun v => cleanOrSelf v
          { numpy_allowed := false, datetime_allowed := false,
            modules := some (theModules env) })]
        exact ((hp.map Prod.fst).nodup_iff.mp hnd))]
    rw [hdeq]
    exact h

theorem orjsonEncode_dict_perm {env : Env} {pretty : Bool}
    {kvs1 kvs2 : List (String × Obj)} {s : String}
    (hp : kvs1.Perm kvs2) (hnd : (kvs1.map Prod.fst).Nodup)
    (h : orjsonEngineEncode env pretty (.dict kvs1) = .ok s) :
    orjsonEngineEncode env pretty (.dict kvs2) = .ok s := by
  unfold orjsonEngineEncode at h ⊢
  cases ho : env.orjson
  · rw [ho] at h
    simp at h
  · rw [ho] at h
    simp only [Bool.not_true, Bool.false_eq_true, if_false] at h ⊢
    have hun1 : unwrapPlotly (.dict kvs1) = .dict kvs1 := rfl
    have hun2 : unwrapPlotly (.dict kvs2) = .dict kvs2 := rfl
    rw [hun1] at h
    rw [hun2]
    have hod : orjson_dumps pretty (.dict kvs2) = orjson_dumps pretty (.dict kvs1) := by
      unfold orjson_dumps
      rw [dict_sort_perm_eq hp.symm ((hp.map Prod.fst).nodup_iff.mp hnd)]
    rw [hod]
    cases hr : orjson_dumps pretty (.dict kvs1) with
    | ok s0 =>
      rw [hr] at h
      exact h
    | error e =>
      rw [hr] at h
      simp only at h ⊢
      rw [clean_dict_eq] at h ⊢
      cases hc1 : cleanDict kvs1
          { numpy_allowed := true, datetime_allowed := true,
            modules := some (theModules env) } with
      | error e2 =>
        rw [hc1] at h
        simp [Except.map, Except.mapError, exc_bind_err] at h
      | ok r1 =>
        rw [hc1] at h
        simp only [Except.map, Except.mapError, exc_bind_ok] at h
        have hforall2 : ∀ p ∈ kvs2, ∃ c, clean_to_json_compatible p.2
            { numpy_allowed := true, datetime_allowed := true,
              modules := some (theModules env) } = .ok c :=
          fun p hp2 => cleanDict_ok_elem hc1 p (hp.mem_iff.mpr hp2)
        rw [cleanDict_ok_of_forall hforall2]
        simp only [Except.map, Except.mapError, exc_bind_ok]
        have hdeq : orjson_dumps pretty (.dict (kvs2.map fun p => (p.1, cleanOrSelf p.2
            { numpy_allowed := true, datetime_allowed := true,
              modules := some (theModules env) }))) = orjson_dumps pretty (.dict r1) := by
          rw [cleanDict_ok_map hc1]
          unfold orjson_dumps
          rw [dict_sort_perm_eq ((hp.map _).symm) (by
            rw [map_fst_of_valmap kvs2 (fun v => cleanOrSelf v
              { numpy_allowed := true, datetime_allowed := true,
                modules := some (theModules env) })]
            exact ((hp.map Prod.fst).nodup_iff.mp hnd))]
        rw [hdeq]
        exact h

/-! ## Claim C9 -/

/-- C9: encoding is insensitive to mapping insertion order — for any two
key-permuted mappings with distinct keys and any engine selection, a
successful encoding of one is the byte-identical successful encoding of the
other, and equals the encoding of the key-sorted mapping. -/
theorem claim_C9 :
    ∀ (env : Env) (kvs1 kvs2 : List (String × Obj)) (pretty : Bool) (dflt : String)
      (engine : Option String) (s : String),
      kvs1.Perm kvs2 → (kvs1.map Prod.fst).Nodup →
      _to_json_plotly env (.dict kvs1) pretty engine dflt = .ok s →
      _to_json_plotly env (.dict kvs2) pretty engine dflt = .ok s
      ∧ _to_json_plotly env (.dict (insSortKVs kvs1)) pretty engine dflt = .ok s := by
  intro env kvs1 kvs2 pretty dflt engine s hp hnd henc
  have main : ∀ (l1 l2 : List (String × Obj)), l1.Perm l2 → (l1.map Prod.fst).Nodup →
      _to_json_plotly env (.dict l1) pretty engine dflt = .ok s →
      _to_json_plotly env (.dict l2) pretty engine dflt = .ok s := by
    intro l1 l2 hq hnd1 h
    unfold _to_json_plotly at h ⊢
    cases hres : resolveEngine env dflt engine with
    | error e =>
      rw [hres] at h
      simp [exc_bind_err] at h
    | ok eng =>
      rw [hres] at h
      simp only [exc_bind_ok] at h ⊢
      by_cases hj : eng = "json"
      · rw [if_pos hj] at h ⊢
        exact jsonEncode_dict_perm hq hnd1 h
      · rw [if_neg hj] at h ⊢
        by_cases hl : eng = "legacy"
        · rw [if_pos hl] at h ⊢
          have heq : ∀ l : List (String × Obj), PlotlyJSONEncoder_encode env pretty (.dict l) =
              jsonEngineEncode env pretty (.dict l) := fun _ => rfl
          rw [heq] at h ⊢
          exact jsonEncode_dict_perm hq hnd1 h
        · rw [if_neg hl] at h ⊢
          exact orjsonEncode_dict_perm hq hnd1 h
  exact ⟨main kvs1 kvs2 hp hnd henc,
    main kvs1 (insSortKVs kvs1) (insSortKVs_perm kvs1).symm hnd henc⟩

/-- C9, exercised: the two insertion orders of `a ↦ 1, b ↦ 2` produce the
same compact output, already in sorted key order. -/
theorem claim_C9_witness :
    _to_json_plotly ⟨false, false, false, false, false⟩
        (.dict [("a", .int 1), ("b", .int 2)]) false (some "json") "auto" =
      .ok "\x7b\"a\":1,\"b\":2\x7d"
    ∧ _to_json_plotly ⟨false, false, false, false, false⟩
        (.dict (insSortKVs [("b", .int 2), ("a", .int 1)])) false (some "json") "auto" =
      .ok "\x7b\"a\":1,\"b\":2\x7d" :=
  claim_C9 ⟨false, false, false, false, false⟩ [("b", .int 2), ("a", .int 1)]
    [("a", .int 1), ("b", .int 2)] false "auto" (some "json") "\x7b\"a\":1,\"b\":2\x7d"
    (List.Perm.swap ("a", Obj.int 1) ("b", Obj.int 2) [])
    (by decide) rfl

/-! ## Claim C2 -/

/-- C2: the legacy engine is, structurally, the standard path — encode under
`engine="legacy"` equals encode under `engine="json"`, the modelled
`PlotlyJSONEncoder` pipeline coincides with the `json` branch, and both
consist of canonicalization with `numpy_allowed=false, datetime_allowed=false`,
serialization, and the conditional strict-JSON repair pass. -/
theorem claim_C2 :
    ∀ (env : Env) (obj : Obj) (pretty : Bool) (dflt : String),
      _to_json_plotly env obj pretty (some "legacy") dflt =
        _to_json_plotly env obj pretty (some "json") dflt
      ∧ PlotlyJSONEncoder_encode env pretty obj = jsonEngineEncode env pretty obj
      ∧ ∀ w enc,
          clean_to_json_compatible obj
              { numpy_allowed := false, datetime_allowed := false,
                modules := some (theModules env) } = .ok w →
          dumps pretty w = .ok enc →
          PlotlyJSONEncoder_encode env pretty obj =
            if !(strContains enc "NaN" || strContains enc "Infinity") then .ok enc
            else strictRepair pretty enc := by
  intro env obj pretty dflt
  refine ⟨?_, rfl, ?_⟩
  · have h1 : _to_json_plotly env obj pretty (some "legacy") dflt =
        PlotlyJSONEncoder_encode env pretty obj := by
      unfold _to_json_plotly resolveEngine
      simp [exc_bind_ok]
    have h2 : _to_json_plotly env obj pretty (some "json") dflt =
        jsonEngineEncode env pretty obj := by
      unfold _to_json_plotly resolveEngine
      simp [exc_bind_ok]
    rw [h1, h2]
    rfl
  · intro w enc hclean hdmp
    unfold PlotlyJSONEncoder_encode
    rw [hclean]
    simp only [Except.mapError, exc_bind_ok]
    rw [hdmp]
    simp only [Except.mapError, exc_bind_ok]

/-- C2, exercised: the example mapping with a NaN encodes identically under
the legacy and standard selectors, through the repair pass. -/
theorem claim_C2_witness :
    _to_json_plotly ⟨false, false, false, false, false⟩
        (.dict [("b", .float .nan)]) false (some "legacy") "auto" =
      _to_json_plotly ⟨false, false, false, false, false⟩
        (.dict [("b", .float .nan)]) false (some "json") "auto"
    ∧ PlotlyJSONEncoder_encode ⟨false, false, false, false, false⟩ false
        (.dict [("b", .float .nan)]) =
      (if !(strContains "\x7b\"b\":NaN\x7d" "NaN" ||
            strContains "\x7b\"b\":NaN\x7d" "Infinity") then
        .ok "\x7b\"b\":NaN\x7d"
      else strictRepair false "\x7b\"b\":NaN\x7d") :=
  ⟨(claim_C2 ⟨false, false, false, false, false⟩ (.dict [("b", .float .nan)]) false "auto").1,
    (claim_C2 ⟨false, false, false, false, false⟩ (.dict [("b", .float .nan)]) false
        "auto").2.2 (.dict [("b", .float .nan)]) "\x7b\"b\":NaN\x7d" rfl rfl⟩

/-! ## Claim C7 -/

/-- C7, corrected: decode propagates the backend's parse failure as a bare
`ParseError` for any malformed input — no separator hint is attached on the
decode side; the hinted error exists only in encode's strict-JSON repair
pass, raised when the encoder's own output fails to re-parse. -/
theorem claim_C7 :
    ∀ (env : Env) (value dflt : String),
      (json_loads .pyDefault value = Option.none →
        from_json_plotly env value (some "json") dflt = .error .parseFail)
      ∧ (env.orjson = true → json_loads .reject value = Option.none →
        from_json_plotly env value (some "orjson") dflt = .error .parseFail)
      ∧ ∀ (pretty : Bool) (enc : String), json_loads .coerce enc = Option.none →
          strictRepair pretty enc = .error .strictRepairFail := by
  intro env value dflt
  refine ⟨?_, ?_, ?_⟩
  · intro hl
    unfold from_json_plotly resolveEngine
    simp [exc_bind_ok, hl]
  · intro ho hl
    unfold from_json_plotly resolveEngine
    simp [exc_bind_ok, hl, ho]
  · intro pretty enc hl
    unfold strictRepair
    rw [hl]

/-- C7, refuted as stated: the decode of input whose separator is the
invalid `=` fails with the bare propagated `ParseError`, which is a
different error from the hinted strict-repair failure. -/
theorem claim_C7_cex :
    from_json_plotly ⟨false, false, false, false, false⟩ "\x7b\"a\"= 1\x7d"
        (some "json") "auto" = .error .parseFail
    ∧ PyErr.parseFail ≠ PyErr.strictRepairFail := by
  constructor
  · rfl
  · intro h
    cases h

/-- C7, exercised: a truncated array fails decode with the bare parse error,
and fails the repair pass with the hinted error. -/
theorem claim_C7_witness :
    from_json_plotly ⟨false, false, false, false, false⟩ "[1," (some "json") "auto" =
        .error .parseFail
    ∧ strictRepair false "[1," = .error .strictRepairFail :=
  ⟨(claim_C7 ⟨false, false, false, false, false⟩ "[1," "auto").1 rfl,
    (claim_C7 ⟨false, false, false, false, false⟩ "[1," "auto").2.2 false "[1," rfl⟩

/-! ## Claim C8 -/

/-- C8: whatever reaches the generic `tolist` rule is returned verbatim —
the carried payload is not re-canonicalized — and a numeric array or series
under `numpy_allowed=false` canonicalizes to its plain nested list. -/
theorem claim_C8 :
    ∀ (p : Obj) (kw : CleanKwargs) (m : Modules), kw.modules = some m →
      clean_to_json_compatible (.tolistObj p) kw = .ok p
      ∧ (kw.numpy_allowed = false →
          ∀ (k : NumKind) (xs : List Obj),
            clean_to_json_compatible (.ndarrayNum k xs) kw = .ok (.list xs)
            ∧ clean_to_json_compatible (.pdSeriesNum k xs) kw = .ok (.list xs)) := by
  intro p kw m hm
  constructor
  · show cleanAtom (.tolistObj p) kw = .ok p
    unfold cleanAtom
    rw [hm]
    simp only [rrMem, zzMem, Bool.and_false, Bool.false_eq_true, if_false]
    cases hn : m.np <;>
    · unfold cleanTail
      cases hp : m.pd <;>
      · unfold cleanDatetime
        cases hd : kw.datetime_allowed <;>
          simp [toPydatetime, isoformatOf, cleanLast, tolistOf, hd]
  · intro hna k xs
    constructor
    · show cleanAtom (.ndarrayNum k xs) kw = .ok (.list xs)
      unfold cleanAtom
      rw [hm]
      simp only [rrMem, zzMem, Bool.and_false, Bool.false_eq_true, if_false]
      cases hn : m.np <;>
        simp only [hna, Bool.false_eq_true, if_false] <;>
      · unfold cleanTail
        cases hp : m.pd <;>
        · unfold cleanDatetime
          cases hd : kw.datetime_allowed <;>
            simp [toPydatetime, isoformatOf, cleanLast, tolistOf, hd]
    · show cleanAtom (.pdSeriesNum k xs) kw = .ok (.list xs)
      unfold cleanAtom
      rw [hm]
      simp only [rrMem, zzMem, Bool.and_false, Bool.false_eq_true, if_false]
      cases hn : m.np <;>
      · unfold cleanTail
        cases hp : m.pd <;>
          simp only [hna, Bool.false_eq_true, if_false] <;>
        · unfold cleanDatetime
          cases hd : kw.datetime_allowed <;>
            simp [toPydatetime, isoformatOf, cleanLast, tolistOf, hd]

/-- C8, exercised: the numeric array of 1, 2, 3 with numpy absent
canonicalizes to the plain list, and a `tolist`-capable wrapper's payload
comes back verbatim. -/
theorem claim_C8_witness :
    clean_to_json_compatible (.ndarrayNum .i [.int 1, .int 2, .int 3])
        { modules := some ⟨false, false, false, false⟩ } =
      .ok (.list [.int 1, .int 2, .int 3])
    ∧ clean_to_json_compatible (.tolistObj (.dict [("t", .pdTimestamp "2020-01-01")]))
        { modules := some ⟨false, false, false, false⟩ } =
      .ok (.dict [("t", .pdTimestamp "2020-01-01")]) :=
  ⟨((claim_C8 (.dict [("t", .pdTimestamp "2020-01-01")])
      { modules := some ⟨false, false, false, false⟩ } ⟨false, false, false, false⟩ rfl).2
      rfl .i [.int 1, .int 2, .int 3]).1,
    (claim_C8 (.dict [("t", .pdTimestamp "2020-01-01")])
      { modules := some ⟨false, false, false, false⟩ } ⟨false, false, false, false⟩ rfl).1⟩

end PlotlyJson


